import Mathlib

/-!
# ouichefs block sharing: reference counts, copy-on-write, deduplication

A shallow embedding of `src/ouichefs/util.c` (with the layout macros of
`src/ouichefs/ouichefs.h`) and the properties proved about it.

## Modelling conventions

* The buffer cache is addressed by absolute block number.  The source reads every
  block through `sb_bread` and then casts `b_data` to exactly one of four views:
  `struct ouichefs_block_info[]` (the block-info store), `struct
  ouichefs_file_index_block`, `struct ouichefs_dup_block`, or raw bytes.  The state keeps
  one store per view, each keyed by the block number handed to `sb_bread`.  Two
  buffers obtained for the same block number alias, exactly as in the buffer cache.
* `sb_bread` returning `NULL` is the field `bread_ok` being `false` for that block.
* `uint32_t` values are natural numbers; arithmetic that can wrap carries an explicit
  `% 2 ^ 32`.  `int` results are integers.
* Loops recurse on the number of iterations still to run, so every function is total.
* Helpers that the sources call but do not define are parameters of the embedding:
  `get_free_block` and `put_block` (`bitmap.h`) form an `Allocator`, `ouichefs_iget`
  (`inode.c`) is a function from the state and an inode number to an inode or an error
  code.  The functions take the inodes they work on by value, since the code only reads
  their fields; the in-memory inodes themselves are the store `icache` of the state, and
  `deduplicate_file_at` is the call of `deduplicate_file` on two of them.
* `sync_dirty_buffer` is recorded as the list of block images written to the device.
-/

namespace Ouichefs

/-! ## Constants and layout macros (`ouichefs.h`) -/

/-- Size of a block in bytes: `OUICHEFS_BLOCK_SIZE`, that is `1 << 12`. -/
def OUICHEFS_BLOCK_SIZE : Nat := 4096

/-- Records per block-info block: `OUICHEFS_BLOCK_SIZE / sizeof(struct ouichefs_block_info)`,
the record being a single `uint32_t`. -/
def OUICHEFS_BINFO_PER_BLOCK : Nat := 1024

/-- Length of each candidate array: `OUICHEFS_BLOCK_SIZE >> 3`. -/
def DUP_LIST_LEN : Nat := 512

/-- Linux errno `EIO` (the source returns ` - EIO`). -/
def EIO : Int := 5

/-- Linux errno `ENOSPC`. -/
def ENOSPC : Int := 28

/-- Decrement of a `uint32_t` (`x--`): `0` wraps to `2 ^ 32 - 1`. -/
def u32_dec (x : Nat) : Nat :=
  if x % 2 ^ 32 = 0 then 2 ^ 32 - 1 else x % 2 ^ 32 - 1

/-- Increment of a `uint32_t` (`x++`): `2 ^ 32 - 1` wraps to `0`. -/
def u32_inc (x : Nat) : Nat :=
  (x + 1) % 2 ^ 32

/-- Value of a `uint32_t` converted to `int` (two's complement, as on every Linux target). -/
def u32_to_int (n : Nat) : Int :=
  if n % 2 ^ 32 < 2 ^ 31 then ((n % 2 ^ 32 : Nat) : Int) else ((n % 2 ^ 32 : Nat) : Int) - 2 ^ 32

/-- Modelled from the spec: `bitmap.h`, which defines `get_free_block` and `put_block`, is
not among the sources.  The spec (allocator contract) says that `alloc_block` returns a
block number from the free-block bitmap or nothing, that `free_block` returns a block to
it, and that neither touches the block-info store.  This is the part of
`struct ouichefs_sb_info` those helpers work on. -/
structure FreeMap where
  /-- In-memory free-block bitmap (`bfree_bitmap`); a set bit means the block is free. -/
  bfree_bitmap : Nat → Bool
  /-- Counter `nr_free_blocks` (a `uint32_t`). -/
  nr_free_blocks : Nat

/-- Modelled from the spec: the two allocator helpers of the absent `bitmap.h`, taken as
parameters.  `get_free_block` returns `0` when no block is available (the source tests
`!bno`). -/
structure Allocator where
  /-- The helper `get_free_block(sbi)`: the block handed out (or `0`) and the new map. -/
  get_free_block : FreeMap → Nat × FreeMap
  /-- The helper `put_block(sbi, bno)`. -/
  put_block : FreeMap → Nat → FreeMap

/-- In-memory superblock information (`struct ouichefs_sb_info`), restricted to the fields
the block-sharing code reads or writes. -/
structure ouichefs_sb_info where
  nr_blocks : Nat
  nr_istore_blocks : Nat
  nr_ifree_blocks : Nat
  nr_bfree_blocks : Nat
  nr_bstore_blocks : Nat
  index_dupblock : Nat
  /-- The fields `bfree_bitmap` and `nr_free_blocks`. -/
  free : FreeMap
  isrc_bitmap : Nat → Bool
  idup_bitmap : Nat → Bool

/-- Macro `OUICHEFS_FIRST_DT_BLOCK(sbi)`, computed in `uint32_t`. -/
def OUICHEFS_FIRST_DT_BLOCK (sbi : ouichefs_sb_info) : Nat :=
  (sbi.nr_istore_blocks + sbi.nr_ifree_blocks + sbi.nr_bfree_blocks
    + sbi.nr_bstore_blocks + 2) % 2 ^ 32

/-- Macro `OUICHEFS_FIRST_BINFO_STORE(sbi)`, computed in `uint32_t`. -/
def OUICHEFS_FIRST_BINFO_STORE (sbi : ouichefs_sb_info) : Nat :=
  (sbi.nr_istore_blocks + sbi.nr_ifree_blocks + sbi.nr_bfree_blocks + 1) % 2 ^ 32

/-- Macro `OUICHEFS_BINFO_INDEX(sbi, bno)`: the `uint32_t` difference
`bno - OUICHEFS_FIRST_DT_BLOCK(sbi)`, which wraps when `bno` is below the data area. -/
def OUICHEFS_BINFO_INDEX (sbi : ouichefs_sb_info) (bno : Nat) : Nat :=
  (bno + 2 ^ 32 - OUICHEFS_FIRST_DT_BLOCK sbi) % 2 ^ 32

/-- Block holding the record of `bno`: the local `binfo_nr` of `ouichefs_link_block`
(`binfo_block` in `ouichefs_unlink_block`), stored in a `uint32_t`. -/
def binfo_nr (sbi : ouichefs_sb_info) (bno : Nat) : Nat :=
  (OUICHEFS_BINFO_INDEX sbi bno / OUICHEFS_BINFO_PER_BLOCK
    + OUICHEFS_FIRST_BINFO_STORE sbi) % 2 ^ 32

/-- Record index inside that block: the local `binfo_shift`. -/
def binfo_shift (sbi : ouichefs_sb_info) (bno : Nat) : Nat :=
  OUICHEFS_BINFO_INDEX sbi bno % OUICHEFS_BINFO_PER_BLOCK

/-! ## State -/

/-- Candidate block (`struct ouichefs_dup_block`): two `uint32_t[512]` arrays whose slot 0
is the cursor. -/
structure ouichefs_dup_block where
  isources : Nat → Nat
  iduplicated : Nat → Nat

/-- The fields of `struct inode` and `struct ouichefs_inode_info` used by the code. -/
structure inode where
  i_ino : Nat
  i_size : Nat
  i_blocks : Nat
  index_block : Nat

/-- Open file (`struct file`); only `f_inode` is used. -/
structure file where
  f_inode : inode

/-- Superblock info together with the buffer cache, one store per view of `b_data`. -/
structure FsState where
  sbi : ouichefs_sb_info
  /-- Whether `sb_bread(sb, b)` returns a buffer. -/
  bread_ok : Nat → Bool
  /-- View `struct ouichefs_block_info[]`: `binfo b s` is `b_nlink` of record `s` of block `b`. -/
  binfo : Nat → Nat → Nat
  /-- View `struct ouichefs_file_index_block`: `index b k` is `blocks[k]` of block `b`. -/
  index : Nat → Nat → Nat
  /-- Raw bytes: `data b i` is byte `i` of block `b`. -/
  data : Nat → Nat → Nat
  /-- View `struct ouichefs_dup_block`. -/
  dupblock : Nat → ouichefs_dup_block
  /-- Buffers on which `mark_buffer_dirty` has been called. -/
  dirty : Nat → Bool
  /-- In-memory inodes (`struct inode` with its `struct ouichefs_inode_info`), keyed by inode
  number: the objects that the `struct inode *` arguments of the code point to. -/
  icache : Nat → inode

/-- Pointwise update of a store with one key. -/
def upd {β : Type} (f : Nat → β) (a : Nat) (v : β) : Nat → β :=
  fun x => if x = a then v else f x

/-- Pointwise update of a store with two keys (block, slot). -/
def upd2 (f : Nat → Nat → Nat) (a b : Nat) (v : Nat) : Nat → Nat → Nat :=
  fun x y => if x = a ∧ y = b then v else f x y

/-- Kernel helper `mark_buffer_dirty(bh)` for the buffer of block `b`. -/
def mark_buffer_dirty (st : FsState) (b : Nat) : FsState :=
  { st with dirty := upd st.dirty b true }

/-- Replace the allocator fields of the superblock info. -/
def set_free (st : FsState) (fm : FreeMap) : FsState :=
  { st with sbi := { st.sbi with free := fm } }

/-- Reference count stored for block `bno`: the `b_nlink` the code reaches through
`binfo_nr` and `binfo_shift`. -/
def refcount (st : FsState) (bno : Nat) : Nat :=
  st.binfo (binfo_nr st.sbi bno) (binfo_shift st.sbi bno)

/-! ## The block-info store (`ouichefs_link_block`, `ouichefs_unlink_block`) -/

/-- Embedding of `ouichefs_link_block(sb, bno)`. -/
def ouichefs_link_block (st : FsState) (bno : Nat) : Int × FsState :=
  let nr := binfo_nr st.sbi bno
  let sh := binfo_shift st.sbi bno
  if st.bread_ok nr then
    let n := st.binfo nr sh
    -- if(binfo->b_nlink++ > 0) sbi->nr_free_blocks--;
    let st1 : FsState := { st with binfo := upd2 st.binfo nr sh (u32_inc n) }
    let st2 : FsState :=
      if 0 < n then
        set_free st1 { st1.sbi.free with nr_free_blocks := u32_dec st1.sbi.free.nr_free_blocks }
      else st1
    (0, mark_buffer_dirty st2 nr)
  else
    (- EIO, st)

/-- Embedding of `ouichefs_unlink_block(sb, bno)`. -/
def ouichefs_unlink_block (A : Allocator) (st : FsState) (bno : Nat) : Int × FsState :=
  let nr := binfo_nr st.sbi bno
  let sh := binfo_shift st.sbi bno
  if st.bread_ok nr then
    let n := st.binfo nr sh
    -- if((nlink = binfo->b_nlink)) nlink = --binfo->b_nlink;
    let nlink := if n ≠ 0 then n - 1 else n
    let st1 : FsState := if n ≠ 0 then { st with binfo := upd2 st.binfo nr sh (n - 1) } else st
    -- if(!nlink) put_block(sbi, bno); else sbi->nr_free_blocks++;
    let st2 : FsState :=
      if nlink = 0 then
        set_free st1 (A.put_block st1.sbi.free bno)
      else
        set_free st1 { st1.sbi.free with nr_free_blocks := u32_inc st1.sbi.free.nr_free_blocks }
    (u32_to_int nlink, mark_buffer_dirty st2 nr)
  else
    (- EIO, st)

/-! ## Copy-on-write (`ouichefs_cow`) -/

/-- The call `memcpy(dst, src, OUICHEFS_BLOCK_SIZE)` on two block buffers. -/
def memcpy_block (dst src : Nat → Nat) : Nat → Nat :=
  fun i => if i < OUICHEFS_BLOCK_SIZE then src i else dst i

/-- The `while(nr_towrite--)` loop of `ouichefs_cow` on the index block `ib`.  The result is
the value of `ret` at the final `return`, the state, and the list of the blocks that
`get_free_block` handed out during the loop, in order. -/
def cow_loop (A : Allocator) (ib : Nat) : Nat → Nat → FsState → Int × FsState × List Nat
  | 0, _, st => (0, st, [])
  | n + 1, vb_index, st =>
    let bno := st.index ib vb_index
    let nr := binfo_nr st.sbi bno
    let sh := binfo_shift st.sbi bno
    if st.bread_ok nr then
      if st.binfo nr sh = 1 then
        -- goto NEXT
        cow_loop A ib n (vb_index + 1) st
      else
        -- bno = get_free_block(sbi)
        let r := A.get_free_block st.sbi.free
        let bno := r.1
        let st1 := set_free st r.2
        if bno = 0 then
          (- ENOSPC, st1, [])
        else
          -- ouichefs_link_block(sb, bno), result ignored
          let st2 := (ouichefs_link_block st1 bno).2
          if st2.bread_ok (st2.index ib vb_index) then
            if st2.bread_ok bno then
              -- memcpy(bh_new->b_data, bh_old->b_data, OUICHEFS_BLOCK_SIZE)
              let copy := memcpy_block (st2.data bno) (st2.data (st2.index ib vb_index))
              let st3 : FsState := { st2 with data := upd st2.data bno copy }
              -- ouichefs_unlink_block(sb, index->blocks[vb_index]), result ignored
              let st4 := (ouichefs_unlink_block A st3 (st3.index ib vb_index)).2
              let st5 : FsState := { st4 with index := upd2 st4.index ib vb_index bno }
              let st6 := mark_buffer_dirty (mark_buffer_dirty (mark_buffer_dirty st5 nr) ib) bno
              let rest := cow_loop A ib n (vb_index + 1) st6
              (rest.1, rest.2.1, bno :: rest.2.2)
            else
              (- EIO, st2, [bno])
          else
            -- put_block(sbi, bno); goto BRELSE_INFO
            (- EIO, set_free st2 (A.put_block st2.sbi.free bno), [bno])
    else
      (- EIO, st, [])

/-- Embedding of `ouichefs_cow(file, vb_index, nr_towrite)`, with the allocation log. -/
def ouichefs_cow_run (A : Allocator) (st : FsState) (f : file) (vb_index nr_towrite : Nat) :
    Int × FsState × List Nat :=
  if st.bread_ok f.f_inode.index_block then
    cow_loop A f.f_inode.index_block nr_towrite vb_index st
  else
    (- EIO, st, [])

/-- Embedding of `ouichefs_cow(file, vb_index, nr_towrite)`: returned value and state. -/
def ouichefs_cow (A : Allocator) (st : FsState) (f : file) (vb_index nr_towrite : Nat) :
    Int × FsState :=
  ((ouichefs_cow_run A st f vb_index nr_towrite).1,
   (ouichefs_cow_run A st f vb_index nr_towrite).2.1)

/-- Blocks handed out by `get_free_block` during `ouichefs_cow(file, vb_index, nr_towrite)`. -/
def cow_allocs (A : Allocator) (st : FsState) (f : file) (vb_index nr_towrite : Nat) :
    List Nat :=
  (ouichefs_cow_run A st f vb_index nr_towrite).2.2

/-! ## Pairwise deduplication (`deduplicate_file`) -/

/-- Test `memcmp(a, b, len) == 0`: the first `len` bytes agree. -/
def memcmp_eq (a b : Nat → Nat) (len : Nat) : Bool :=
  decide (∀ i, i < len → a i = b i)

/-- Number of iterations of a loop `for (i = 0; i < inode->i_blocks - 1; i++)`: `i_blocks`
is the unsigned 64-bit `blkcnt_t`, so the bound wraps when `i_blocks` is `0`. -/
def nr_data_entries (ino : inode) : Nat :=
  if ino.i_blocks = 0 then 2 ^ 64 - 1 else ino.i_blocks - 1

/-- State of the two nested loops of `deduplicate_file`: `ok` is false once a read has
failed (`ret = -EIO; goto BRELSE_DUP`). -/
structure DedupLoop where
  ok : Bool
  st : FsState
  count : Int

/-- The inner loop `for (j = 0; j < dup->i_blocks - 1; j++)` of `deduplicate_file`, for the
source entry `i` whose buffer `sbh` was read from block `sbh_b`, comparing `len` bytes.
`sib` and `dib` are the index blocks of `src` and `dup`. -/
def dedup_inner (A : Allocator) (sib dib i sbh_b len : Nat) :
    Nat → Nat → FsState → Int → DedupLoop
  | 0, _, st, count => ⟨true, st, count⟩
  | n + 1, j, st, count =>
    let src_b := st.index sib i
    let dup_b := st.index dib j
    if src_b = dup_b then
      -- same block: continue
      dedup_inner A sib dib i sbh_b len n (j + 1) st count
    else if st.bread_ok dup_b then
      if memcmp_eq (st.data sbh_b) (st.data dup_b) len then
        let st1 := (ouichefs_unlink_block A st dup_b).2
        let st2 : FsState := { st1 with index := upd2 st1.index dib j src_b }
        let st3 := (ouichefs_link_block st2 src_b).2
        dedup_inner A sib dib i sbh_b len n (j + 1) st3 (count + 1)
      else
        dedup_inner A sib dib i sbh_b len n (j + 1) st count
    else
      ⟨false, st, count⟩

/-- The local `last` of `deduplicate_file`: the quotient `src->i_size / OUICHEFS_BLOCK_SIZE`
stored in an `int`, hence reduced to 32 bits. -/
def dedup_last (src : inode) : Int :=
  u32_to_int (src.i_size / OUICHEFS_BLOCK_SIZE)

/-- The outer loop `for (i = 0; i < src->i_blocks - 1; i++)` of `deduplicate_file`; `len` is
the loop-carried compare length.  The counter `i` and `last` are both `int`s: the test
`i == last` compares their 32-bit values. -/
def dedup_outer (A : Allocator) (src dup : inode) :
    Nat → Nat → Nat → FsState → Int → DedupLoop
  | 0, _, _, st, count => ⟨true, st, count⟩
  | n + 1, i, len, st, count =>
    let sbh_b := st.index src.index_block i
    if st.bread_ok sbh_b then
      -- if(i == last) len = src->i_size % OUICHEFS_BLOCK_SIZE;
      let len1 := if u32_to_int i = dedup_last src then src.i_size % OUICHEFS_BLOCK_SIZE
                  else len
      let r := dedup_inner A src.index_block dup.index_block i sbh_b len1
                 (nr_data_entries dup) 0 st count
      if r.ok then dedup_outer A src dup n (i + 1) len1 r.st r.count else r
    else
      ⟨false, st, count⟩

/-- Embedding of `deduplicate_file(src, dup)`. -/
def deduplicate_file (A : Allocator) (st : FsState) (src dup : inode) : Int × FsState :=
  if st.bread_ok src.index_block then
    if st.bread_ok dup.index_block then
      let r := dedup_outer A src dup (nr_data_entries src) 0 OUICHEFS_BLOCK_SIZE st 0
      if r.ok then
        (r.count, mark_buffer_dirty r.st dup.index_block)
      else
        (- EIO, r.st)
    else
      (- EIO, st)
  else
    (- EIO, st)

/-- Embedding of `dupblock_add_isrc(inode)`. -/
def dupblock_add_isrc (st : FsState) (ino : inode) : Int × FsState :=
  let b := st.sbi.index_dupblock
  if st.bread_ok b then
    let index := (st.dupblock b).isources 0
    -- test_and_set_bit(inode->i_ino, sbi->isrc_bitmap)
    let was_set := st.sbi.isrc_bitmap ino.i_ino
    let st1 : FsState :=
      { st with sbi := { st.sbi with isrc_bitmap := upd st.sbi.isrc_bitmap ino.i_ino true } }
    -- ... && ++index < (OUICHEFS_BLOCK_SIZE >> 3)
    if was_set = false ∧ u32_inc index < DUP_LIST_LEN then
      let index1 := u32_inc index
      let blk := st1.dupblock b
      let src1 := upd blk.isources index1 (ino.i_ino % 2 ^ 32)
      let src2 := upd src1 0 index1
      (0, mark_buffer_dirty
            { st1 with dupblock := upd st1.dupblock b { blk with isources := src2 } } b)
    else
      (0, st1)
  else
    (- EIO, st)

/-- Embedding of `dupblock_add_idup(inode)`. -/
def dupblock_add_idup (st : FsState) (ino : inode) : Int × FsState :=
  let b := st.sbi.index_dupblock
  if st.bread_ok b then
    let index := (st.dupblock b).iduplicated 0
    -- test_and_set_bit(inode->i_ino, sbi->idup_bitmap)
    let was_set := st.sbi.idup_bitmap ino.i_ino
    let st1 : FsState :=
      { st with sbi := { st.sbi with idup_bitmap := upd st.sbi.idup_bitmap ino.i_ino true } }
    -- ... && ++index < (OUICHEFS_BLOCK_SIZE >> 3)
    if was_set = false ∧ u32_inc index < DUP_LIST_LEN then
      let index1 := u32_inc index
      let blk := st1.dupblock b
      let dup1 := upd blk.iduplicated index1 (ino.i_ino % 2 ^ 32)
      let dup2 := upd dup1 0 index1
      (0, mark_buffer_dirty
            { st1 with dupblock := upd st1.dupblock b { blk with iduplicated := dup2 } } b)
    else
      (0, st1)
  else
    (- EIO, st)

/-! ## The deduplication pass (`ouichefs_deduplicate`) -/

/-- State of the loop labelled `LOOP` in `ouichefs_deduplicate` when it is left: `err` is
the value assigned to `ret` before a `goto PUTS` or `goto PUTD`, if the loop was left that
way; `found` is the local `found`. -/
structure ScanLoop where
  err : Option Int
  st : FsState
  found : Int

/-- The loop `LOOP: while(isources[sindex] && sindex < (OUICHEFS_BLOCK_SIZE >> 3))` of
`ouichefs_deduplicate` for the inode `idup` fetched from slot `dindex`.  The candidate
block is the buffer of block `b`; `from_dup` tells whether the pointer `isources` has been
redirected to `iduplicated`.  `iget` stands for `ouichefs_iget` (`inode.c`, not among the
sources): the inode, or the error code carried by the error pointer.  The recursion is on
the number of slots still to visit: called with `n + sindex ≥ 513`, the case `0` is
reached only with `sindex ≥ 512`, where the loop condition is false. -/
def dedup_scan (A : Allocator) (iget : FsState → Nat → Except Int inode) (b : Nat)
    (from_dup : Bool) (dindex : Nat) (idup : inode) :
    Nat → Nat → FsState → Int → ScanLoop
  | 0, _, st, found => ⟨none, st, found⟩
  | n + 1, sindex, st, found =>
    let isources := if from_dup then (st.dupblock b).iduplicated else (st.dupblock b).isources
    if isources sindex ≠ 0 ∧ sindex < DUP_LIST_LEN then
      if isources sindex = (st.dupblock b).iduplicated dindex then
        -- same inode: goto NEXT
        dedup_scan A iget b from_dup dindex idup n (sindex + 1) st found
      else
        match iget st (isources sindex) with
        | .error e =>
          -- ret = PTR_ERR(isrc); goto PUTD
          ⟨some e, st, found⟩
        | .ok isrc =>
          -- found += deduplicate_file(isrc, idup)
          let r := deduplicate_file A st isrc idup
          let found1 := found + r.1
          if found1 < 0 then
            -- ret = -1; goto PUTS
            ⟨some (-1), r.2, found1⟩
          else if found1 = (nr_data_entries idup : Int) then
            -- found == idup->i_blocks - 1: break
            ⟨none, r.2, found1⟩
          else
            dedup_scan A iget b from_dup dindex idup n (sindex + 1) r.2 found1
    else
      ⟨none, st, found⟩

/-- State of the outer loop of `ouichefs_deduplicate` when it is left: `done` tells
whether the loop ran to its end (so that the code after it is executed) rather than
jumping to `END`; `ret` is the local `ret`. -/
structure PassLoop where
  done : Bool
  st : FsState
  ret : Int

/-- The loop `while(iduplicated[dindex] && dindex < (OUICHEFS_BLOCK_SIZE >> 3))` of
`ouichefs_deduplicate`, with the rescan of `iduplicated` (`goto LOOP`) when the scan of
`isources` has left `found` at 0.  The recursion is on the number of slots still to
visit, as in `dedup_scan`. -/
def dedup_pass (A : Allocator) (iget : FsState → Nat → Except Int inode) (b : Nat) :
    Nat → Nat → FsState → Int → PassLoop
  | 0, _, st, ret => ⟨true, st, ret⟩
  | n + 1, dindex, st, ret =>
    if (st.dupblock b).iduplicated dindex ≠ 0 ∧ dindex < DUP_LIST_LEN then
      match iget st ((st.dupblock b).iduplicated dindex) with
      | .error e =>
        -- ret = PTR_ERR(idup); goto END
        ⟨false, st, e⟩
      | .ok idup =>
        let s1 := dedup_scan A iget b false dindex idup DUP_LIST_LEN 1 st 0
        match s1.err with
        | some e => ⟨false, s1.st, e⟩
        | none =>
          -- if(found == 0 && isources != iduplicated) { isources = iduplicated; goto LOOP; }
          let s2 :=
            if s1.found = 0 then
              dedup_scan A iget b true dindex idup DUP_LIST_LEN 1 s1.st s1.found
            else s1
          match s2.err with
          | some e => ⟨false, s2.st, e⟩
          | none =>
            -- ret += found; found = 0; sindex = 1; dindex++
            dedup_pass A iget b n (dindex + 1) s2.st (ret + s2.found)
    else
      ⟨true, st, ret⟩

/-- Result of `ouichefs_deduplicate`: the value returned, the state, and the writes that
`sync_dirty_buffer` submitted to the device (block number and image written). -/
structure DedupPass where
  ret : Int
  st : FsState
  synced : List (Nat × ouichefs_dup_block)

/-- Embedding of `ouichefs_deduplicate(sb)`. -/
def ouichefs_deduplicate (A : Allocator) (iget : FsState → Nat → Except Int inode)
    (st : FsState) : DedupPass :=
  let b := st.sbi.index_dupblock
  if st.bread_ok b then
    let r := dedup_pass A iget b DUP_LIST_LEN 1 st 0
    if r.done then
      -- memset(bh->b_data, 0, OUICHEFS_BLOCK_SIZE)
      let st1 : FsState :=
        { r.st with dupblock := upd r.st.dupblock b ⟨fun _ => 0, fun _ => 0⟩ }
      -- mark_buffer_dirty(bh); sync_dirty_buffer(bh)
      let st2 := mark_buffer_dirty st1 b
      ⟨r.ret, st2, [(b, st2.dupblock b)]⟩
    else
      ⟨r.ret, r.st, []⟩
  else
    ⟨- EIO, st, []⟩

/-! ## Auxiliary notions used in the statements -/

/-- Geometry shared by two superblock infos: the two macros every record address depends
on, and the number of blocks. -/
def same_layout (s t : ouichefs_sb_info) : Prop :=
  OUICHEFS_FIRST_DT_BLOCK s = OUICHEFS_FIRST_DT_BLOCK t ∧
  OUICHEFS_FIRST_BINFO_STORE s = OUICHEFS_FIRST_BINFO_STORE t ∧
  s.nr_blocks = t.nr_blocks

/-- Same record of the block-info store: blocks `a` and `b` share their refcount. -/
def same_record (sbi : ouichefs_sb_info) (a b : Nat) : Prop :=
  binfo_nr sbi a = binfo_nr sbi b ∧ binfo_shift sbi a = binfo_shift sbi b

/-- Data block: a 32-bit block number in `[OUICHEFS_FIRST_DT_BLOCK, nr_blocks)`. -/
def data_block (sbi : ouichefs_sb_info) (b : Nat) : Prop :=
  OUICHEFS_FIRST_DT_BLOCK sbi ≤ b ∧ b < sbi.nr_blocks ∧ b < 2 ^ 32

/-- State reached by one iteration of the loop of `ouichefs_cow` that copies entry
`vb_index` of the index block `ib` into the block `new` just handed out, `fm` being the
allocator fields left by `get_free_block`: link `new`, copy the data, unlink the old
block, rewrite the entry, mark the three buffers dirty. -/
def cow_copied (A : Allocator) (st : FsState) (ib vb_index new : Nat) (fm : FreeMap) :
    FsState :=
  let st2 := (ouichefs_link_block (set_free st fm) new).2
  let copy := memcpy_block (st2.data new) (st2.data (st2.index ib vb_index))
  let st3 : FsState := { st2 with data := upd st2.data new copy }
  let st4 := (ouichefs_unlink_block A st3 (st3.index ib vb_index)).2
  let st5 : FsState := { st4 with index := upd2 st4.index ib vb_index new }
  mark_buffer_dirty (mark_buffer_dirty (mark_buffer_dirty st5
    (binfo_nr st.sbi (st.index ib vb_index))) ib) new

/-- State reached by one collapse in `deduplicate_file`: unlink the block `dup_b` named by
entry `j` of the index block `dib`, rewrite the entry to `src_b`, link `src_b`. -/
def dedup_collapsed (A : Allocator) (st : FsState) (dib j src_b dup_b : Nat) : FsState :=
  let st1 := (ouichefs_unlink_block A st dup_b).2
  let st2 : FsState := { st1 with index := upd2 st1.index dib j src_b }
  (ouichefs_link_block st2 src_b).2

/-- Compare length used by `deduplicate_file` at source entry `i`, `len` being the length
carried from the previous iteration: `if(i == last) len = src->i_size % OUICHEFS_BLOCK_SIZE`. -/
def compare_len (src : inode) (i len : Nat) : Nat :=
  if u32_to_int i = dedup_last src then src.i_size % OUICHEFS_BLOCK_SIZE else len

/-- Block `b` is referenced by a data entry (entries `0 .. i_blocks - 2`) of the index
block of some inode of the list. -/
def referenced (st : FsState) (inodes : List inode) (b : Nat) : Prop :=
  ∃ ino, ino ∈ inodes ∧ ∃ m, m < nr_data_entries ino ∧ st.index ino.index_block m = b

/-- Number of `m < n` with `p m`. -/
def count_below (p : Nat → Bool) : Nat → Nat
  | 0 => 0
  | n + 1 => count_below p n + (if p n then 1 else 0)

/-- Number of data entries (entries `0 .. i_blocks - 2`) of the index block of `ino` that
name block `b`. -/
def entry_refs (st : FsState) (ino : inode) (b : Nat) : Nat :=
  count_below (fun m => decide (st.index ino.index_block m = b)) (nr_data_entries ino)

/-- Number of data entries, over all inodes of the list, that name block `b`. -/
def block_refs (st : FsState) (inodes : List inode) (b : Nat) : Nat :=
  (inodes.map (fun ino => entry_refs st ino b)).sum

/-- The refcount of block `b` is the number of data entries that reference it. -/
def refcount_exact (st : FsState) (inodes : List inode) (b : Nat) : Prop :=
  refcount st b = block_refs st inodes b

/-- Refcount invariant of the claim: the refcount of every data block equals the number of
data entries, over all inodes, that reference it. -/
def refcount_inv (st : FsState) (inodes : List inode) : Prop :=
  ∀ b, data_block st.sbi b → refcount_exact st inodes b

/-- The protocol shared by `dupblock_add_isrc` and `dupblock_add_idup`, on the bitmap and
the array they work on: set the bit of the inode and, when the bit was clear and the
incremented cursor is below 512, store the inode number and the cursor. -/
def registry_add (bm : Nat → Bool) (arr : Nat → Nat) (ino : Nat) :
    (Nat → Bool) × (Nat → Nat) :=
  (upd bm ino true,
   if bm ino = false ∧ u32_inc (arr 0) < DUP_LIST_LEN then
     upd (upd arr (u32_inc (arr 0)) (ino % 2 ^ 32)) 0 (u32_inc (arr 0))
   else arr)

/-- State after `dupblock_add_isrc` has been called on each inode of the list in turn. -/
def add_isrc_all (st : FsState) (inos : List inode) : FsState :=
  inos.foldl (fun s ino => (dupblock_add_isrc s ino).2) st

/-- State after `dupblock_add_idup` has been called on each inode of the list in turn. -/
def add_idup_all (st : FsState) (inos : List inode) : FsState :=
  inos.foldl (fun s ino => (dupblock_add_idup s ino).2) st

/-- The distinct values of a list, in order of first occurrence. -/
def first_occurrences (l : List Nat) : List Nat :=
  l.foldl (fun acc x => if x ∈ acc then acc else acc ++ [x]) []

/-- What the claim says of a candidate array `arr` and its bitmap `bm` once the inode
numbers `seen` have been added: the cursor is the number of distinct numbers capped at
511, the slots after it hold the distinct numbers `d` in order, the bitmap holds the
numbers seen. -/
def registry_inv (bm : Nat → Bool) (arr : Nat → Nat) (seen d : List Nat) : Prop :=
  (∀ x, bm x = true ↔ x ∈ seen) ∧ (∀ x, x ∈ d ↔ x ∈ seen) ∧
  arr 0 = min d.length 511 ∧ ∀ i, i < min d.length 511 → arr (i + 1) = d.getD i 0

/-- Number of data blocks, that is of block numbers in `[OUICHEFS_FIRST_DT_BLOCK,
nr_blocks)`, whose refcount is 0. -/
def zero_refcount_blocks (st : FsState) : Nat :=
  count_below (fun k => decide (refcount st (OUICHEFS_FIRST_DT_BLOCK st.sbi + k) = 0))
    (st.sbi.nr_blocks - OUICHEFS_FIRST_DT_BLOCK st.sbi)

/-- Modelled from the spec: the allocator contract assumed by the accounting claim, on the
helpers of the absent `bitmap.h`: `get_free_block` decrements `nr_free_blocks` when it
hands out a block, `put_block` increments it. -/
def counting_allocator (A : Allocator) : Prop :=
  (∀ fm, (A.get_free_block fm).1 ≠ 0 →
    (A.get_free_block fm).2.nr_free_blocks = u32_dec fm.nr_free_blocks) ∧
  (∀ fm b, (A.put_block fm b).nr_free_blocks = u32_inc fm.nr_free_blocks)

/-- Compare length used by `deduplicate_file` at source entry `i`, in closed form: `len`
starts at `OUICHEFS_BLOCK_SIZE`, is set to `i_size % OUICHEFS_BLOCK_SIZE` at `i == last`
and, being carried from one iteration to the next, keeps that value afterwards.  `last` is
an `int`, so the first `i` with `i == last` is the quotient `i_size / OUICHEFS_BLOCK_SIZE`
reduced modulo `2 ^ 32` (`compare_len_carried` relates this to the loop body). -/
def compare_len_at (src : inode) (i : Nat) : Nat :=
  if (src.i_size / OUICHEFS_BLOCK_SIZE) % 2 ^ 32 ≤ i then src.i_size % OUICHEFS_BLOCK_SIZE
  else OUICHEFS_BLOCK_SIZE

/-- Value of `len` on entry to iteration `i` of the outer loop of `deduplicate_file`. -/
def carried_len (src : inode) (i : Nat) : Nat :=
  if (src.i_size / OUICHEFS_BLOCK_SIZE) % 2 ^ 32 < i then src.i_size % OUICHEFS_BLOCK_SIZE
  else OUICHEFS_BLOCK_SIZE

/-- What the block-sharing operations leave alone in a state: the candidate blocks, the
readability of blocks, and the location of the candidate block. -/
def same_registry (s t : FsState) : Prop :=
  t.dupblock = s.dupblock ∧ t.bread_ok = s.bread_ok ∧
  t.sbi.index_dupblock = s.sbi.index_dupblock

/-- The array that the pointer `isources` of `ouichefs_deduplicate` points to: the array
`isources` of the candidate block, or `iduplicated` after the redirection. -/
def scanned (from_dup : Bool) (blk : ouichefs_dup_block) : Nat → Nat :=
  if from_dup then blk.iduplicated else blk.isources

/-- The scans made for the candidate `idup` of slot `dindex`: the scan of `isources` and,
when it leaves `found` at 0, the scan of `iduplicated`. -/
def dedup_scans (A : Allocator) (iget : FsState → Nat → Except Int inode) (b dindex : Nat)
    (idup : inode) (st : FsState) : ScanLoop :=
  if (dedup_scan A iget b false dindex idup DUP_LIST_LEN 1 st 0).err = none ∧
      (dedup_scan A iget b false dindex idup DUP_LIST_LEN 1 st 0).found = 0 then
    dedup_scan A iget b true dindex idup DUP_LIST_LEN 1
      (dedup_scan A iget b false dindex idup DUP_LIST_LEN 1 st 0).st 0
  else dedup_scan A iget b false dindex idup DUP_LIST_LEN 1 st 0

/-- State left by the code that follows the outer loop of `ouichefs_deduplicate`: the
candidate block `b` zeroed and its buffer marked dirty. -/
def candidates_cleared (st : FsState) (b : Nat) : FsState :=
  mark_buffer_dirty { st with dupblock := upd st.dupblock b ⟨fun _ => 0, fun _ => 0⟩ } b

/-! ## The reference algorithm of the spec for the deduplication pass -/

/-- Reference algorithm of the spec: the candidate list `arr[1 ..= arr[0]]`, that is, the
slots after the cursor slot, up to the cursor. -/
def spec_candidates (arr : Nat → Nat) : List Nat :=
  (List.range (arr 0)).map (fun k => arr (k + 1))

/-- Reference algorithm of the spec: the attempt to deduplicate the candidate `d`, whose
inode is `idup`, against the entries of a list in list order.  The self pair is skipped,
the number of collapses is accumulated over the pairwise calls, and the scan stops as soon
as it reaches `blocks(d) - 1`, that is, after the first pairwise call that leaves the
accumulated count at `blocks(d) - 1` or above.  Errors are swallowed: an entry whose inode cannot be
loaded is passed over and a failed pairwise call adds nothing. -/
def spec_scan (A : Allocator) (iget : FsState → Nat → Except Int inode) (d : Nat)
    (idup : inode) : List Nat → FsState → Int → FsState × Int
  | [], st, count => (st, count)
  | s :: rest, st, count =>
    if s = d then spec_scan A iget d idup rest st count
    else
      match iget st s with
      | .error _ => spec_scan A iget d idup rest st count
      | .ok isrc =>
        let r := deduplicate_file A st isrc idup
        let count1 := if 0 ≤ r.1 then count + r.1 else count
        if (idup.i_blocks : Int) - 1 ≤ count1 then (r.2, count1)
        else spec_scan A iget d idup rest r.2 count1

/-- Reference algorithm of the spec: for each `d` of the list, in list order, load the
inode `d`, scan `S` and, if that yields zero collapses, scan `D`; the total is the sum of
the collapse counts. -/
def spec_pass (A : Allocator) (iget : FsState → Nat → Except Int inode) (S D : List Nat) :
    List Nat → FsState → Int → FsState × Int
  | [], st, total => (st, total)
  | d :: rest, st, total =>
    match iget st d with
    | .error _ => spec_pass A iget S D rest st total
    | .ok idup =>
      let r1 := spec_scan A iget d idup S st 0
      let r2 := if r1.2 = 0 then spec_scan A iget d idup D r1.1 0 else r1
      spec_pass A iget S D rest r2.1 (total + r2.2)

/-- Reference algorithm of the spec: read the candidate block, run the pass over `D` with
`S = sources[1 ..= sources[0]]` and `D = duplicated[1 ..= duplicated[0]]`, then zero the
candidate block and flush it synchronously. -/
def spec_deduplicate (A : Allocator) (iget : FsState → Nat → Except Int inode)
    (st : FsState) : DedupPass :=
  let b := st.sbi.index_dupblock
  if st.bread_ok b then
    let S := spec_candidates (st.dupblock b).isources
    let D := spec_candidates (st.dupblock b).iduplicated
    let r := spec_pass A iget S D D st 0
    ⟨r.2, candidates_cleared r.1 b, [(b, ⟨fun _ => 0, fun _ => 0⟩)]⟩
  else
    ⟨- EIO, st, []⟩

/-! ## Auxiliary notions, continued -/

/-- Whether the scan of the reference algorithm for the candidate `d`, whenever it stops
early, stops on a count equal to `blocks(d) - 1`: no pairwise call takes the accumulated
count from below `blocks(d) - 1` to above it.  (A pairwise call can count an entry of `d`
more than once, see `dedup_file_count_matches`.) -/
def spec_scan_exact (A : Allocator) (iget : FsState → Nat → Except Int inode) (d : Nat)
    (idup : inode) : List Nat → FsState → Int → Bool
  | [], _, _ => true
  | s :: rest, st, count =>
    if s = d then spec_scan_exact A iget d idup rest st count
    else
      match iget st s with
      | .error _ => spec_scan_exact A iget d idup rest st count
      | .ok isrc =>
        let r := deduplicate_file A st isrc idup
        let count1 := if 0 ≤ r.1 then count + r.1 else count
        if (idup.i_blocks : Int) - 1 ≤ count1 then decide (count1 = (idup.i_blocks : Int) - 1)
        else spec_scan_exact A iget d idup rest r.2 count1

/-- Whether every scan made by the pass of the reference algorithm satisfies
`spec_scan_exact`. -/
def spec_pass_exact (A : Allocator) (iget : FsState → Nat → Except Int inode)
    (S D : List Nat) : List Nat → FsState → Bool
  | [], _ => true
  | d :: rest, st =>
    match iget st d with
    | .error _ => spec_pass_exact A iget S D rest st
    | .ok idup =>
      let r1 := spec_scan A iget d idup S st 0
      let r2 := if r1.2 = 0 then spec_scan A iget d idup D r1.1 0 else r1
      spec_scan_exact A iget d idup S st 0 &&
        ((if r1.2 = 0 then spec_scan_exact A iget d idup D r1.1 0 else true) &&
          spec_pass_exact A iget S D rest r2.1)

/-- Whether the reference algorithm, run on the candidate block of `st`, never lets the
count accumulated for a candidate `d` pass over `blocks(d) - 1`. -/
def spec_counts_exact (A : Allocator) (iget : FsState → Nat → Except Int inode)
    (st : FsState) : Bool :=
  spec_pass_exact A iget
    (spec_candidates (st.dupblock st.sbi.index_dupblock).isources)
    (spec_candidates (st.dupblock st.sbi.index_dupblock).iduplicated)
    (spec_candidates (st.dupblock st.sbi.index_dupblock).iduplicated) st

/-- A candidate array as the registry leaves it: the cursor is at most 511, the slots up
to the cursor hold non-zero inode numbers, and the slot after the cursor is zero. -/
def well_formed_candidates (arr : Nat → Nat) : Prop :=
  arr 0 ≤ 511 ∧ (∀ k, 1 ≤ k → k ≤ arr 0 → arr k ≠ 0) ∧ (arr 0 < 511 → arr (arr 0 + 1) = 0)

/-- The slots `p, p + 1, ..., p + n - 1` of an array. -/
def slots (arr : Nat → Nat) : Nat → Nat → List Nat
  | _, 0 => []
  | p, n + 1 => arr p :: slots arr (p + 1) n

/-! ## Concrete states used to instantiate the theorems -/

/-- Modelled from the spec: a concrete allocator for the absent `bitmap.h`.  It hands out
the lowest-numbered block below `limit` whose bit is set in the free-block bitmap (never
block 0), clears the bit and decrements `nr_free_blocks`; `put_block` sets the bit and
increments `nr_free_blocks`. -/
def bitmap_allocator (limit : Nat) : Allocator where
  get_free_block := fun fm =>
    match (List.range limit).find? (fun b => decide (b ≠ 0) && fm.bfree_bitmap b) with
    | some b => (b, { bfree_bitmap := upd fm.bfree_bitmap b false,
                      nr_free_blocks := u32_dec fm.nr_free_blocks })
    | none => (0, fm)
  put_block := fun fm b =>
    { bfree_bitmap := upd fm.bfree_bitmap b true, nr_free_blocks := u32_inc fm.nr_free_blocks }

/-- A small geometry: one block each for the inode store, the two bitmaps and the
block-info store, so that the block-info block is block 4, the candidate block is block 5
and data blocks start at 6. -/
def sbi0 : ouichefs_sb_info where
  nr_blocks := 64
  nr_istore_blocks := 1
  nr_ifree_blocks := 1
  nr_bfree_blocks := 1
  nr_bstore_blocks := 1
  index_dupblock := 5
  free := { bfree_bitmap := fun _ => false, nr_free_blocks := 0 }
  isrc_bitmap := fun _ => false
  idup_bitmap := fun _ => false

/-- An all-zero state over `sbi0` in which every block can be read; every in-memory inode
is an empty file (block count 1). -/
def st0 : FsState where
  sbi := sbi0
  bread_ok := fun _ => true
  binfo := fun _ _ => 0
  index := fun _ _ => 0
  data := fun _ _ => 0
  dupblock := fun _ => { isources := fun _ => 0, iduplicated := fun _ => 0 }
  dirty := fun _ => false
  icache := fun n => { i_ino := n, i_size := 0, i_blocks := 1, index_block := 0 }

/-- The state `st0` with the refcount of data block 10 set to `n`. -/
def st_ref10 (n : Nat) : FsState :=
  { st0 with binfo := upd2 st0.binfo 4 4 n }

/-- The all-zero state `st0` in which the candidate block (block 5) cannot be read. -/
def st_unreadable : FsState :=
  { st0 with bread_ok := fun b => decide (b ≠ 5) }

/-- An inode with number `n` (no data). -/
def mk_inode (n : Nat) : inode :=
  { i_ino := n, i_size := 0, i_blocks := 1, index_block := 0 }

/-- Lookup in an association list, with a default. -/
def assoc {β : Type} (l : List (Nat × β)) (d : β) (k : Nat) : β :=
  match l.find? (fun p => p.1 == k) with
  | some p => p.2
  | none => d

/-- A state over the geometry `sbi0` (data blocks from 6, their refcount records in block 4)
in which every block can be read: `refs` lists the refcounts of data blocks, `idx` the
entries of index blocks, `dat` the leading bytes of data blocks (all other bytes are 0),
`freeb` the blocks whose bit is set in the free-block bitmap.  The in-memory inodes are
those of `st0`. -/
def mk_state (refs : List (Nat × Nat)) (idx : List (Nat × List Nat))
    (dat : List (Nat × List Nat)) (freeb : List Nat) : FsState where
  sbi := { sbi0 with free := { bfree_bitmap := fun b => decide (b ∈ freeb),
                               nr_free_blocks := freeb.length } }
  bread_ok := fun _ => true
  binfo := fun nr sh => if nr = 4 then assoc refs 0 (sh + 6) else 0
  index := fun ib k => (assoc idx [] ib).getD k 0
  data := fun b i => (assoc dat [] b).getD i 0
  dupblock := fun _ => { isources := fun _ => 0, iduplicated := fun _ => 0 }
  dirty := fun _ => false
  icache := fun n => { i_ino := n, i_size := 0, i_blocks := 1, index_block := 0 }

/-- An open file with inode number `ino`, index block `ib`, `nb` data entries and `sz`
bytes. -/
def mk_file (ino ib nb sz : Nat) : file :=
  { f_inode := { i_ino := ino, i_size := sz, i_blocks := nb + 1, index_block := ib } }

/-- One file (index block 20) whose entry 0 is block 10, shared (refcount 2); block 11 is
free. -/
def st_shared : FsState :=
  mk_state [(10, 2)] [(20, [10])] [(10, [65, 66, 67])] [11]

/-- Two files (index blocks 20 and 21) whose entry 0 is the same block 10 (refcount 2);
block 11 is free. -/
def st_two_files : FsState :=
  mk_state [(10, 2)] [(20, [10]), (21, [10])] [(10, [65, 66, 67])] [11]

/-- File F (index block 20) names block 10 in both of its entries, file G (index block 21)
names it once: refcount 3.  Only block 11 is free. -/
def st_twice : FsState :=
  mk_state [(10, 3)] [(20, [10, 10]), (21, [10])] [(10, [65, 66, 67])] [11]

/-- The ENOSPC scenario of the spec: file F (index block 20) has two blocks 10 and 12, both
shared with file G (index block 21); only block 11 is free. -/
def st_enospc : FsState :=
  mk_state [(10, 2), (12, 2)] [(20, [10, 12]), (21, [10, 12])] [(10, [65]), (12, [66])] [11]

/-- One file (index block 20, `i_blocks = 2`, so one data entry) whose entry 0 names block
10 (refcount 1); entry 1, beyond the data entries, holds the stale block number 12
(refcount 0).  Block 11 is free. -/
def st_beyond : FsState :=
  mk_state [(10, 1)] [(20, [10, 12])] [(10, [65])] [11]

/-- The inode of `st_beyond`. -/
def ino_beyond : inode := { i_ino := 1, i_size := 1, i_blocks := 2, index_block := 20 }

/-- A one-byte source file (index block 20, data block 10 holding the byte 65) and a
4000-byte file (index block 21, data block 12 holding 65, 7, 7, 0, ...). -/
def st_tail : FsState :=
  mk_state [(10, 1), (12, 1)] [(20, [10]), (21, [12])] [(10, [65]), (12, [65, 7, 7])] []

/-- The one-byte source inode of `st_tail`. -/
def ino_tail_src : inode := { i_ino := 1, i_size := 1, i_blocks := 2, index_block := 20 }

/-- The 4000-byte inode of `st_tail`. -/
def ino_tail_dup : inode := { i_ino := 2, i_size := 4000, i_blocks := 2, index_block := 21 }

/-- One file of 8000 bytes (index block 20) whose two data blocks 10 and 11 hold the same
bytes, each with refcount 1. -/
def st_self : FsState :=
  mk_state [(10, 1), (11, 1)] [(20, [10, 11])] [(10, [65, 66]), (11, [65, 66])] []

/-- The inode of `st_self`. -/
def ino_self : inode := { i_ino := 1, i_size := 8000, i_blocks := 3, index_block := 20 }

/-- The tail-compare scenario of the spec: two files of 4097 bytes.  The source (index
block 20) has blocks 10 and 11, the other file (index block 21) has blocks 12 and 13;
blocks 10 and 12 hold the same bytes, blocks 11 and 13 agree on their first byte (0x41)
and differ afterwards. -/
def st_4097 : FsState :=
  mk_state [(10, 1), (11, 1), (12, 1), (13, 1)] [(20, [10, 11]), (21, [12, 13])]
    [(10, [1, 2]), (11, [65, 5]), (12, [1, 2]), (13, [65, 9])] []

/-- The source inode of `st_4097`. -/
def ino_4097_src : inode := { i_ino := 1, i_size := 4097, i_blocks := 3, index_block := 20 }

/-- The duplicate inode of `st_4097`. -/
def ino_4097_dup : inode := { i_ino := 2, i_size := 4097, i_blocks := 3, index_block := 21 }

/-- Block 10 has refcount 0 and is already in the free-block bitmap, the only free block. -/
def st_freed : FsState :=
  mk_state [] [] [] [10]

/-- A one-byte source file (index block 20, data block 10) and a file with two data blocks,
12 and 13 (index block 21).  Blocks 10 and 12 hold the same bytes; block 13 cannot be
read. -/
def st_partial : FsState :=
  { mk_state [(10, 1), (12, 1), (13, 1)] [(20, [10]), (21, [12, 13])]
      [(10, [65]), (12, [65]), (13, [66])] [] with
    bread_ok := fun b => decide (b ≠ 13) }

/-- The source inode of `st_partial`. -/
def ino_partial_src : inode := { i_ino := 1, i_size := 1, i_blocks := 2, index_block := 20 }

/-- The other inode of `st_partial`. -/
def ino_partial_dup : inode := { i_ino := 2, i_size := 8000, i_blocks := 3, index_block := 21 }

/-- The state `st_two_files` (block 10 shared by two files, block 11 free) in which the
shared block 10 cannot be read. -/
def st_old_unreadable : FsState :=
  { st_two_files with bread_ok := fun b => decide (b ≠ 10) }

/-- Two one-byte files: `src` (index block 20) with data block 10 and `dup` (index block
21) with data block 12, both blocks holding the byte 65 and having refcount 1, as the two
index blocks.  The other 54 data blocks have refcount 0 and are free: `nr_free_blocks` is
54. -/
def st_account : FsState :=
  mk_state [(10, 1), (12, 1), (20, 1), (21, 1)] [(20, [10]), (21, [12])]
    [(10, [65]), (12, [65])]
    ((List.range 64).filter
      (fun b => decide (6 ≤ b) && !(decide (b = 10 ∨ b = 12 ∨ b = 20 ∨ b = 21))))

/-- The source inode of `st_account`. -/
def ino_account_src : inode := { i_ino := 1, i_size := 1, i_blocks := 2, index_block := 20 }

/-- The other inode of `st_account`. -/
def ino_account_dup : inode := { i_ino := 2, i_size := 1, i_blocks := 2, index_block := 21 }

/-- The source file (index block 20, 8192 bytes) has two data blocks, 10 and 11, the other
file (index block 21, 4096 bytes) one data block, 12; the three blocks hold the same
bytes. -/
def st_tie : FsState :=
  mk_state [(10, 1), (11, 1), (12, 1)] [(20, [10, 11]), (21, [12])]
    [(10, [1, 2]), (11, [1, 2]), (12, [1, 2])] []

/-- The source inode of `st_tie`. -/
def ino_tie_src : inode := { i_ino := 1, i_size := 8192, i_blocks := 3, index_block := 20 }

/-- The other inode of `st_tie`. -/
def ino_tie_dup : inode := { i_ino := 2, i_size := 4096, i_blocks := 2, index_block := 21 }

/-- Modelled from the spec: an instance of the absent `ouichefs_iget` in which every fetch
fails with `-EIO`. -/
def iget_fail : FsState → Nat → Except Int inode :=
  fun _ _ => .error (- EIO)

/-- Modelled from the spec: an instance of the absent `ouichefs_iget` in which every fetch
succeeds: inode `n` is a one-byte file (`i_blocks = 2`) whose index block is block
`19 + n`. -/
def iget_files : FsState → Nat → Except Int inode :=
  fun _ n => .ok { i_ino := n, i_size := 1, i_blocks := 2, index_block := 19 + n }

/-- The all-zero state `st0` whose candidate block (block 5) lists inode 7 as its only
duplicated candidate (cursor 1). -/
def st_cand : FsState :=
  { st0 with dupblock := fun _ =>
      ⟨fun _ => 0, fun i => if i = 0 then 1 else if i = 1 then 7 else 0⟩ }

/-- Two one-byte files, inode 1 (index block 20, data block 10) and inode 2 (index block
21, data block 12), whose blocks hold the same byte.  The candidate block lists inode 1 as
a source and inode 2 as a duplicated candidate, both cursors being 1. -/
def st_pass : FsState :=
  { mk_state [(10, 1), (12, 1)] [(20, [10]), (21, [12])] [(10, [65]), (12, [65])] [] with
    dupblock := fun _ =>
      ⟨fun i => if i = 0 then 1 else if i = 1 then 1 else 0,
       fun i => if i = 0 then 1 else if i = 1 then 2 else 0⟩ }

/-- Three one-byte files, inodes 1, 2 and 3 (index blocks 20, 21 and 22, data blocks 10, 12
and 13), whose blocks hold the same byte.  The candidate block lists inodes 1 and 3 as
sources (cursor 2) and inode 2 as a duplicated candidate (cursor 1).  The index block of
inode 1 (block 20) cannot be read. -/
def st_abort : FsState :=
  { mk_state [(10, 1), (12, 1), (13, 1)] [(20, [10]), (21, [12]), (22, [13])]
      [(10, [65]), (12, [65]), (13, [65])] [] with
    bread_ok := fun x => decide (x ≠ 20)
    dupblock := fun _ =>
      ⟨fun i => if i = 0 then 2 else if i = 1 then 1 else if i = 2 then 3 else 0,
       fun i => if i = 0 then 1 else if i = 1 then 2 else 0⟩ }

/-- An inode table in which the inode `n` has index block `19 + n` and holds one byte;
inode 1 has two data entries, every other inode has one. -/
def iget_two_blocks : FsState → Nat → Except Int inode :=
  fun _ n => .ok { i_ino := n, i_size := 1, i_blocks := if n = 1 then 3 else 2,
                   index_block := 19 + n }

/-- Three files, inodes 1, 2 and 3 (index blocks 20, 21 and 22): inode 1 has the data
blocks 10 and 11, inode 2 the data block 12, inode 3 the data block 13, and the four blocks
hold the same byte.  The candidate block lists inodes 1 and 3 as sources (cursor 2) and
inode 2 as a duplicated candidate (cursor 1).  Every block can be read. -/
def st_overshoot : FsState :=
  { mk_state [(10, 1), (11, 1), (12, 1), (13, 1)] [(20, [10, 11]), (21, [12]), (22, [13])]
      [(10, [65]), (11, [65]), (12, [65]), (13, [65])] [] with
    dupblock := fun _ =>
      ⟨fun i => if i = 0 then 2 else if i = 1 then 1 else if i = 2 then 3 else 0,
       fun i => if i = 0 then 1 else if i = 1 then 2 else 0⟩ }

/-- Two files of `2 ^ 44` bytes with one data entry each: inode 1 (index block 20, data
block 10) and inode 2 (index block 21, data block 12), whose blocks differ in their first
byte. -/
def st_wrap : FsState :=
  mk_state [(10, 1), (12, 1)] [(20, [10]), (21, [12])] [(10, [65]), (12, [66])] []

/-- The source inode of `st_wrap`. -/
def ino_wrap_src : inode :=
  { i_ino := 1, i_size := 2 ^ 44, i_blocks := 2, index_block := 20 }

/-- The other inode of `st_wrap`. -/
def ino_wrap_dup : inode :=
  { i_ino := 2, i_size := 2 ^ 44, i_blocks := 2, index_block := 21 }

/-! ## Basic facts about the stores and the record addressing -/

theorem binfo_loc_inj (sbi : ouichefs_sb_info) (a b : Nat) (ha : a < 2 ^ 32) (hb : b < 2 ^ 32)
    (h1 : binfo_nr sbi a = binfo_nr sbi b) (h2 : binfo_shift sbi a = binfo_shift sbi b) :
    a = b := by
  have hF : OUICHEFS_FIRST_DT_BLOCK sbi < 2 ^ 32 := Nat.mod_lt _ (by norm_num)
  unfold binfo_nr binfo_shift OUICHEFS_BINFO_INDEX OUICHEFS_BINFO_PER_BLOCK at *
  generalize OUICHEFS_FIRST_DT_BLOCK sbi = F at *
  generalize OUICHEFS_FIRST_BINFO_STORE sbi = S at *
  omega

@[simp] theorem upd_same {β : Type} (f : Nat → β) (a : Nat) (v : β) : upd f a v a = v := by
  simp [upd]

theorem upd_other {β : Type} (f : Nat → β) (a x : Nat) (v : β) (h : x ≠ a) :
    upd f a v x = f x := by
  simp [upd, h]

@[simp] theorem upd2_same (f : Nat → Nat → Nat) (a b v : Nat) : upd2 f a b v a b = v := by
  simp [upd2]

theorem upd2_other (f : Nat → Nat → Nat) (a b x y v : Nat) (h : ¬ (x = a ∧ y = b)) :
    upd2 f a b v x y = f x y := by
  simp only [upd2, if_neg h]

theorem same_layout_refl (s : ouichefs_sb_info) : same_layout s s := ⟨rfl, rfl, rfl⟩

theorem same_layout_symm {s t : ouichefs_sb_info} (h : same_layout s t) : same_layout t s :=
  ⟨h.1.symm, h.2.1.symm, h.2.2.symm⟩

theorem same_layout_trans {s t u : ouichefs_sb_info} (h1 : same_layout s t)
    (h2 : same_layout t u) : same_layout s u :=
  ⟨h1.1.trans h2.1, h1.2.1.trans h2.2.1, h1.2.2.trans h2.2.2⟩

theorem same_layout_nr {s t : ouichefs_sb_info} (h : same_layout s t) (b : Nat) :
    binfo_nr s b = binfo_nr t b := by
  unfold binfo_nr OUICHEFS_BINFO_INDEX
  rw [h.1, h.2.1]

theorem same_layout_shift {s t : ouichefs_sb_info} (h : same_layout s t) (b : Nat) :
    binfo_shift s b = binfo_shift t b := by
  unfold binfo_shift OUICHEFS_BINFO_INDEX
  rw [h.1]

theorem same_layout_set_free (st : FsState) (fm : FreeMap) :
    same_layout (set_free st fm).sbi st.sbi := ⟨rfl, rfl, rfl⟩

/-! ## Effect of `ouichefs_link_block` -/

theorem link_fail (st : FsState) (bno : Nat)
    (h : st.bread_ok (binfo_nr st.sbi bno) = false) :
    ouichefs_link_block st bno = (- EIO, st) := by
  simp [ouichefs_link_block, h]

theorem link_ret (st : FsState) (bno : Nat)
    (h : st.bread_ok (binfo_nr st.sbi bno) = true) :
    (ouichefs_link_block st bno).1 = 0 := by
  simp [ouichefs_link_block, h]

theorem link_layout (st : FsState) (bno : Nat) :
    same_layout (ouichefs_link_block st bno).2.sbi st.sbi := by
  unfold ouichefs_link_block
  dsimp only
  split_ifs <;> exact ⟨rfl, rfl, rfl⟩

theorem link_binfo (st : FsState) (bno : Nat)
    (h : st.bread_ok (binfo_nr st.sbi bno) = true) :
    (ouichefs_link_block st bno).2.binfo =
      upd2 st.binfo (binfo_nr st.sbi bno) (binfo_shift st.sbi bno)
        (u32_inc (refcount st bno)) := by
  unfold ouichefs_link_block refcount
  simp only [h, if_true]
  split_ifs <;> rfl

theorem link_index (st : FsState) (bno : Nat) :
    (ouichefs_link_block st bno).2.index = st.index := by
  unfold ouichefs_link_block
  dsimp only
  split_ifs <;> rfl

theorem link_data (st : FsState) (bno : Nat) :
    (ouichefs_link_block st bno).2.data = st.data := by
  unfold ouichefs_link_block
  dsimp only
  split_ifs <;> rfl

theorem link_bread (st : FsState) (bno : Nat) :
    (ouichefs_link_block st bno).2.bread_ok = st.bread_ok := by
  unfold ouichefs_link_block
  dsimp only
  split_ifs <;> rfl

theorem link_dupblock (st : FsState) (bno : Nat) :
    (ouichefs_link_block st bno).2.dupblock = st.dupblock := by
  unfold ouichefs_link_block
  dsimp only
  split_ifs <;> rfl

theorem link_free (st : FsState) (bno : Nat)
    (h : st.bread_ok (binfo_nr st.sbi bno) = true) :
    (ouichefs_link_block st bno).2.sbi.free =
      if 0 < refcount st bno then
        { st.sbi.free with nr_free_blocks := u32_dec st.sbi.free.nr_free_blocks }
      else st.sbi.free := by
  unfold ouichefs_link_block refcount
  simp only [h, if_true]
  split_ifs <;> rfl

theorem link_refcount_self (st : FsState) (bno : Nat)
    (h : st.bread_ok (binfo_nr st.sbi bno) = true) :
    refcount (ouichefs_link_block st bno).2 bno = u32_inc (refcount st bno) := by
  have hl := link_layout st bno
  unfold refcount
  rw [same_layout_nr hl, same_layout_shift hl, link_binfo st bno h, upd2_same]
  rfl

theorem link_refcount_loc (st : FsState) (bno b : Nat)
    (hne : ¬ (binfo_nr st.sbi b = binfo_nr st.sbi bno ∧
              binfo_shift st.sbi b = binfo_shift st.sbi bno)) :
    refcount (ouichefs_link_block st bno).2 b = refcount st b := by
  have hl := link_layout st bno
  unfold refcount
  rw [same_layout_nr hl, same_layout_shift hl]
  by_cases h : st.bread_ok (binfo_nr st.sbi bno) = true
  · rw [link_binfo st bno h, upd2_other _ _ _ _ _ _ hne]
  · rw [link_fail st bno (by simpa using h)]

theorem link_refcount_other (st : FsState) (bno b : Nat) (hbno : bno < 2 ^ 32)
    (hb : b < 2 ^ 32) (hne : b ≠ bno) :
    refcount (ouichefs_link_block st bno).2 b = refcount st b :=
  link_refcount_loc st bno b (fun h => hne (binfo_loc_inj st.sbi b bno hb hbno h.1 h.2))

/-! ## Effect of `ouichefs_unlink_block` -/

theorem unlink_fail (A : Allocator) (st : FsState) (bno : Nat)
    (h : st.bread_ok (binfo_nr st.sbi bno) = false) :
    ouichefs_unlink_block A st bno = (- EIO, st) := by
  simp [ouichefs_unlink_block, h]

theorem unlink_ret (A : Allocator) (st : FsState) (bno : Nat)
    (h : st.bread_ok (binfo_nr st.sbi bno) = true) :
    (ouichefs_unlink_block A st bno).1 = u32_to_int (refcount st bno - 1) := by
  unfold ouichefs_unlink_block refcount
  simp only [h, if_true]
  by_cases hn : st.binfo (binfo_nr st.sbi bno) (binfo_shift st.sbi bno) = 0
  · simp [hn]
  · simp [hn]

theorem unlink_layout (A : Allocator) (st : FsState) (bno : Nat) :
    same_layout (ouichefs_unlink_block A st bno).2.sbi st.sbi := by
  unfold ouichefs_unlink_block
  dsimp only
  split_ifs <;> exact ⟨rfl, rfl, rfl⟩

theorem unlink_index (A : Allocator) (st : FsState) (bno : Nat) :
    (ouichefs_unlink_block A st bno).2.index = st.index := by
  unfold ouichefs_unlink_block
  dsimp only
  split_ifs <;> rfl

theorem unlink_data (A : Allocator) (st : FsState) (bno : Nat) :
    (ouichefs_unlink_block A st bno).2.data = st.data := by
  unfold ouichefs_unlink_block
  dsimp only
  split_ifs <;> rfl

theorem unlink_bread (A : Allocator) (st : FsState) (bno : Nat) :
    (ouichefs_unlink_block A st bno).2.bread_ok = st.bread_ok := by
  unfold ouichefs_unlink_block
  dsimp only
  split_ifs <;> rfl

theorem unlink_dupblock (A : Allocator) (st : FsState) (bno : Nat) :
    (ouichefs_unlink_block A st bno).2.dupblock = st.dupblock := by
  unfold ouichefs_unlink_block
  dsimp only
  split_ifs <;> rfl

theorem upd2_self (f : Nat → Nat → Nat) (a b : Nat) : upd2 f a b (f a b) = f := by
  funext x y
  unfold upd2
  split_ifs with h
  · rw [h.1, h.2]
  · rfl

theorem unlink_binfo (A : Allocator) (st : FsState) (bno : Nat)
    (h : st.bread_ok (binfo_nr st.sbi bno) = true) :
    (ouichefs_unlink_block A st bno).2.binfo =
      upd2 st.binfo (binfo_nr st.sbi bno) (binfo_shift st.sbi bno) (refcount st bno - 1) := by
  unfold ouichefs_unlink_block refcount
  simp only [h, if_true]
  by_cases hn : st.binfo (binfo_nr st.sbi bno) (binfo_shift st.sbi bno) = 0
  · simp only [hn, ne_eq, not_true_eq_false, if_false, if_true]
    have := upd2_self st.binfo (binfo_nr st.sbi bno) (binfo_shift st.sbi bno)
    rw [hn] at this
    rw [this]
    rfl
  · simp only [hn, ne_eq, not_false_eq_true, if_true]
    split_ifs <;> rfl

theorem unlink_free (A : Allocator) (st : FsState) (bno : Nat)
    (h : st.bread_ok (binfo_nr st.sbi bno) = true) :
    (ouichefs_unlink_block A st bno).2.sbi.free =
      if refcount st bno - 1 = 0 then A.put_block st.sbi.free bno
      else { st.sbi.free with nr_free_blocks := u32_inc st.sbi.free.nr_free_blocks } := by
  unfold ouichefs_unlink_block refcount
  simp only [h, if_true]
  by_cases hn : st.binfo (binfo_nr st.sbi bno) (binfo_shift st.sbi bno) = 0
  · simp only [hn, ne_eq, not_true_eq_false, if_false, if_true]
    rfl
  · simp only [hn, ne_eq, not_false_eq_true, if_true]
    split_ifs <;> rfl

theorem unlink_refcount_self (A : Allocator) (st : FsState) (bno : Nat)
    (h : st.bread_ok (binfo_nr st.sbi bno) = true) :
    refcount (ouichefs_unlink_block A st bno).2 bno = refcount st bno - 1 := by
  have hl := unlink_layout A st bno
  unfold refcount
  rw [same_layout_nr hl, same_layout_shift hl, unlink_binfo A st bno h, upd2_same]
  rfl

theorem unlink_refcount_loc (A : Allocator) (st : FsState) (bno b : Nat)
    (hne : ¬ (binfo_nr st.sbi b = binfo_nr st.sbi bno ∧
              binfo_shift st.sbi b = binfo_shift st.sbi bno)) :
    refcount (ouichefs_unlink_block A st bno).2 b = refcount st b := by
  have hl := unlink_layout A st bno
  unfold refcount
  rw [same_layout_nr hl, same_layout_shift hl]
  by_cases h : st.bread_ok (binfo_nr st.sbi bno) = true
  · rw [unlink_binfo A st bno h, upd2_other _ _ _ _ _ _ hne]
  · rw [unlink_fail A st bno (by simpa using h)]

theorem unlink_refcount_other (A : Allocator) (st : FsState) (bno b : Nat)
    (hbno : bno < 2 ^ 32) (hb : b < 2 ^ 32) (hne : b ≠ bno) :
    refcount (ouichefs_unlink_block A st bno).2 b = refcount st b :=
  unlink_refcount_loc A st bno b
    (fun h => hne (binfo_loc_inj st.sbi b bno hb hbno h.1 h.2))

/-! ## C5 and C6: the contracts of `ouichefs_link_block` and `ouichefs_unlink_block` -/

theorem u32_dec_pos (x : Nat) (h0 : 0 < x) (h : x < 2 ^ 32) : u32_dec x + 1 = x := by
  unfold u32_dec
  rw [Nat.mod_eq_of_lt h]
  split_ifs <;> omega

theorem u32_inc_lt (x : Nat) (h : x + 1 < 2 ^ 32) : u32_inc x = x + 1 := by
  unfold u32_inc
  exact Nat.mod_eq_of_lt h

/-- C5: when the block-info block of `bno` can be read, `ouichefs_link_block(sb, bno)`
returns 0, stores `n + 1` modulo `2 ^ 32` as the refcount of `bno` (`n` being the previous
value), decrements the `uint32_t` counter `nr_free_blocks` by one when `n ≥ 1` and leaves
it alone when `n = 0`, and changes the refcount of no other block; when the block-info
block cannot be read it returns `-EIO` and the state is unchanged. -/
theorem link_block_contract (st : FsState) (bno : Nat) (hbno : bno < 2 ^ 32) :
    (st.bread_ok (binfo_nr st.sbi bno) = true →
      (ouichefs_link_block st bno).1 = 0 ∧
      refcount (ouichefs_link_block st bno).2 bno = (refcount st bno + 1) % 2 ^ 32 ∧
      (1 ≤ refcount st bno →
        (ouichefs_link_block st bno).2.sbi.free.nr_free_blocks
            = u32_dec st.sbi.free.nr_free_blocks ∧
        (0 < st.sbi.free.nr_free_blocks → st.sbi.free.nr_free_blocks < 2 ^ 32 →
          (ouichefs_link_block st bno).2.sbi.free.nr_free_blocks + 1
            = st.sbi.free.nr_free_blocks)) ∧
      (refcount st bno = 0 →
        (ouichefs_link_block st bno).2.sbi.free.nr_free_blocks
            = st.sbi.free.nr_free_blocks) ∧
      (∀ b, b < 2 ^ 32 → b ≠ bno →
        refcount (ouichefs_link_block st bno).2 b = refcount st b)) ∧
    (st.bread_ok (binfo_nr st.sbi bno) = false →
      ouichefs_link_block st bno = (- EIO, st)) := by
  refine ⟨fun h => ⟨link_ret st bno h, link_refcount_self st bno h, ?_, ?_, ?_⟩,
    link_fail st bno⟩
  · intro hn
    have hf := link_free st bno h
    rw [if_pos (by omega)] at hf
    have hnf : (ouichefs_link_block st bno).2.sbi.free.nr_free_blocks
        = u32_dec st.sbi.free.nr_free_blocks := by rw [hf]
    exact ⟨hnf, fun h0 hlt => by rw [hnf]; exact u32_dec_pos _ h0 hlt⟩
  · intro hn
    have hf := link_free st bno h
    rw [if_neg (by omega)] at hf
    rw [hf]
  · intro b hb hne
    exact link_refcount_other st bno b hbno hb hne

theorem link_block_contract_witness :
    (10 : Nat) < 2 ^ 32 ∧ (st_ref10 1).bread_ok (binfo_nr (st_ref10 1).sbi 10) = true ∧
    (ouichefs_link_block (st_ref10 1) 10).1 = 0 ∧
    refcount (ouichefs_link_block (st_ref10 1) 10).2 10 = (refcount (st_ref10 1) 10 + 1) % 2 ^ 32 :=
  ⟨by norm_num, rfl,
   ((link_block_contract (st_ref10 1) 10 (by norm_num)).1 rfl).1,
   ((link_block_contract (st_ref10 1) 10 (by norm_num)).1 rfl).2.1⟩

/-- C6 (counterexample to the claim as stated): with a stored refcount of `2 ^ 31 + 1` the
resulting refcount is `2 ^ 31`, but the `int` returned by `ouichefs_unlink_block` is
`- 2 ^ 31`, not the resulting refcount. -/
theorem unlink_block_return_counterexample :
    (st_ref10 (2 ^ 31 + 1)).bread_ok (binfo_nr (st_ref10 (2 ^ 31 + 1)).sbi 10) = true ∧
    refcount (st_ref10 (2 ^ 31 + 1)) 10 = 2 ^ 31 + 1 ∧
    refcount (ouichefs_unlink_block (bitmap_allocator 64) (st_ref10 (2 ^ 31 + 1)) 10).2 10
      = 2 ^ 31 ∧
    (ouichefs_unlink_block (bitmap_allocator 64) (st_ref10 (2 ^ 31 + 1)) 10).1 = - 2 ^ 31 ∧
    (ouichefs_unlink_block (bitmap_allocator 64) (st_ref10 (2 ^ 31 + 1)) 10).1 ≠
      ((refcount (ouichefs_unlink_block (bitmap_allocator 64)
          (st_ref10 (2 ^ 31 + 1)) 10).2 10 : Nat) : Int) := by
  refine ⟨rfl, by decide, by decide, by decide, by decide⟩

theorem u32_to_int_small (n : Nat) (h : n < 2 ^ 31) : u32_to_int n = (n : Int) := by
  unfold u32_to_int
  have h1 : n % 2 ^ 32 = n := Nat.mod_eq_of_lt (by omega)
  rw [h1, if_pos h]

/-- C6 (amended): when the block-info block of `bno` can be read,
`ouichefs_unlink_block(sb, bno)` stores the refcount `n' = n - 1` if the previous refcount
`n` was positive and `n' = 0` if it was `0`; it returns `n'` converted to `int`, which is
`n'` itself whenever `n' < 2 ^ 31`; when `n' = 0` the allocator fields are exactly those
left by `put_block(sbi, bno)`, when `n' ≥ 1` the bitmap is untouched and `nr_free_blocks`
is incremented by one; no other block's refcount changes; when the block-info block cannot
be read it returns `-EIO` and the state is unchanged. -/
theorem unlink_block_contract (A : Allocator) (st : FsState) (bno : Nat)
    (hbno : bno < 2 ^ 32) :
    (st.bread_ok (binfo_nr st.sbi bno) = true →
      (0 < refcount st bno →
        refcount (ouichefs_unlink_block A st bno).2 bno = refcount st bno - 1) ∧
      (refcount st bno = 0 → refcount (ouichefs_unlink_block A st bno).2 bno = 0) ∧
      (ouichefs_unlink_block A st bno).1
        = u32_to_int (refcount (ouichefs_unlink_block A st bno).2 bno) ∧
      (refcount (ouichefs_unlink_block A st bno).2 bno < 2 ^ 31 →
        (ouichefs_unlink_block A st bno).1
          = ((refcount (ouichefs_unlink_block A st bno).2 bno : Nat) : Int)) ∧
      (refcount (ouichefs_unlink_block A st bno).2 bno = 0 →
        (ouichefs_unlink_block A st bno).2.sbi.free = A.put_block st.sbi.free bno) ∧
      (1 ≤ refcount (ouichefs_unlink_block A st bno).2 bno →
        (ouichefs_unlink_block A st bno).2.sbi.free =
          { st.sbi.free with nr_free_blocks := u32_inc st.sbi.free.nr_free_blocks }) ∧
      (∀ b, b < 2 ^ 32 → b ≠ bno →
        refcount (ouichefs_unlink_block A st bno).2 b = refcount st b)) ∧
    (st.bread_ok (binfo_nr st.sbi bno) = false →
      ouichefs_unlink_block A st bno = (- EIO, st)) := by
  refine ⟨fun h => ?_, unlink_fail A st bno⟩
  have hs := unlink_refcount_self A st bno h
  have hr := unlink_ret A st bno h
  have hf := unlink_free A st bno h
  rw [← hs] at hr hf
  refine ⟨fun _ => hs, fun h0 => by rw [hs, h0], hr, fun hlt => ?_, fun h0 => ?_,
    fun h1 => ?_, fun b hb hne => unlink_refcount_other A st bno b hbno hb hne⟩
  · rw [hr, u32_to_int_small _ hlt]
  · rw [hf, if_pos h0]
  · rw [hf, if_neg (by omega)]

theorem unlink_block_contract_witness :
    (10 : Nat) < 2 ^ 32 ∧ (st_ref10 2).bread_ok (binfo_nr (st_ref10 2).sbi 10) = true ∧
    (0 < refcount (st_ref10 2) 10 →
      refcount (ouichefs_unlink_block (bitmap_allocator 64) (st_ref10 2) 10).2 10
        = refcount (st_ref10 2) 10 - 1) :=
  ⟨by norm_num, rfl,
   ((unlink_block_contract (bitmap_allocator 64) (st_ref10 2) 10 (by norm_num)).1 rfl).1⟩

/-! ## One iteration of the loop of `ouichefs_cow` -/

theorem cow_loop_zero (A : Allocator) (ib vb : Nat) (st : FsState) :
    cow_loop A ib 0 vb st = (0, st, []) := by
  rw [cow_loop]

/-- An entry whose refcount is 1 is skipped (`goto NEXT`). -/
theorem cow_loop_skip (A : Allocator) (ib n vb : Nat) (st : FsState)
    (hr : st.bread_ok (binfo_nr st.sbi (st.index ib vb)) = true)
    (h1 : refcount st (st.index ib vb) = 1) :
    cow_loop A ib (n + 1) vb st = cow_loop A ib n (vb + 1) st := by
  unfold refcount at h1
  rw [cow_loop]
  simp only [hr, h1, if_true]

/-- No block left: the loop stops with `-ENOSPC`. -/
theorem cow_loop_nospc (A : Allocator) (ib n vb : Nat) (st : FsState)
    (hr : st.bread_ok (binfo_nr st.sbi (st.index ib vb)) = true)
    (h1 : refcount st (st.index ib vb) ≠ 1)
    (ha : (A.get_free_block st.sbi.free).1 = 0) :
    cow_loop A ib (n + 1) vb st
      = (- ENOSPC, set_free st (A.get_free_block st.sbi.free).2, []) := by
  unfold refcount at h1
  rw [cow_loop]
  simp only [hr, h1, ha, if_true, if_false]

/-- An entry whose refcount is not 1 is copied into the block handed out. -/
theorem cow_loop_copy (A : Allocator) (ib n vb : Nat) (st : FsState)
    (hr : st.bread_ok (binfo_nr st.sbi (st.index ib vb)) = true)
    (h1 : refcount st (st.index ib vb) ≠ 1)
    (ha : (A.get_free_block st.sbi.free).1 ≠ 0)
    (hold : st.bread_ok (st.index ib vb) = true)
    (hnew : st.bread_ok (A.get_free_block st.sbi.free).1 = true) :
    cow_loop A ib (n + 1) vb st =
      ((cow_loop A ib n (vb + 1)
          (cow_copied A st ib vb (A.get_free_block st.sbi.free).1
            (A.get_free_block st.sbi.free).2)).1,
       (cow_loop A ib n (vb + 1)
          (cow_copied A st ib vb (A.get_free_block st.sbi.free).1
            (A.get_free_block st.sbi.free).2)).2.1,
       (A.get_free_block st.sbi.free).1 ::
       (cow_loop A ib n (vb + 1)
          (cow_copied A st ib vb (A.get_free_block st.sbi.free).1
            (A.get_free_block st.sbi.free).2)).2.2) := by
  unfold refcount at h1
  have hb : (ouichefs_link_block (set_free st (A.get_free_block st.sbi.free).2)
      (A.get_free_block st.sbi.free).1).2.bread_ok = st.bread_ok := by
    rw [link_bread]; rfl
  have hi : (ouichefs_link_block (set_free st (A.get_free_block st.sbi.free).2)
      (A.get_free_block st.sbi.free).1).2.index = st.index := by
    rw [link_index]; rfl
  rw [cow_loop]
  simp only [cow_copied, hr, h1, ha, if_true, if_false, hb, hi, hold, hnew]

theorem refcount_congr {st st1 : FsState} (hb : st1.binfo = st.binfo)
    (hl : same_layout st1.sbi st.sbi) (b : Nat) : refcount st1 b = refcount st b := by
  unfold refcount
  rw [same_layout_nr hl, same_layout_shift hl, hb]

theorem same_record_of_eq (sbi : ouichefs_sb_info) (a : Nat) : same_record sbi a a :=
  ⟨rfl, rfl⟩

theorem same_record_u32 (sbi : ouichefs_sb_info) {a b : Nat} (ha : a < 2 ^ 32)
    (hb : b < 2 ^ 32) (h : same_record sbi a b) : a = b :=
  binfo_loc_inj sbi a b ha hb h.1 h.2

theorem refcount_same_record (st : FsState) {a b : Nat} (h : same_record st.sbi a b) :
    refcount st a = refcount st b := by
  unfold refcount
  rw [h.1, h.2]

/-- The three stores and the layout of the state after one copy. -/
theorem cow_copied_index (A : Allocator) (st : FsState) (ib vb new : Nat) (fm : FreeMap) :
    (cow_copied A st ib vb new fm).index = upd2 st.index ib vb new := by
  simp only [cow_copied, mark_buffer_dirty, unlink_index, link_index, set_free]

theorem cow_copied_data (A : Allocator) (st : FsState) (ib vb new : Nat) (fm : FreeMap) :
    (cow_copied A st ib vb new fm).data =
      upd st.data new (memcpy_block (st.data new) (st.data (st.index ib vb))) := by
  simp only [cow_copied, mark_buffer_dirty, unlink_data, link_data, link_index, set_free]

theorem cow_copied_bread (A : Allocator) (st : FsState) (ib vb new : Nat) (fm : FreeMap) :
    (cow_copied A st ib vb new fm).bread_ok = st.bread_ok := by
  simp only [cow_copied, mark_buffer_dirty, unlink_bread, link_bread, set_free]

theorem cow_copied_layout (A : Allocator) (st : FsState) (ib vb new : Nat) (fm : FreeMap) :
    same_layout (cow_copied A st ib vb new fm).sbi st.sbi := by
  simp only [cow_copied, mark_buffer_dirty]
  refine same_layout_trans (unlink_layout A _ _) ?_
  exact same_layout_trans (link_layout _ _) (same_layout_set_free st fm)

/-- Refcounts after one copy, in terms of the link of `new` followed by the unlink of the
old block. -/
theorem cow_copied_refcount (A : Allocator) (st : FsState) (ib vb new : Nat) (fm : FreeMap)
    (b : Nat) :
    refcount (cow_copied A st ib vb new fm) b =
      refcount (ouichefs_unlink_block A (ouichefs_link_block (set_free st fm) new).2
        (st.index ib vb)).2 b := by
  have hl : same_layout (cow_copied A st ib vb new fm).sbi
      (ouichefs_unlink_block A (ouichefs_link_block (set_free st fm) new).2
        (st.index ib vb)).2.sbi := by
    refine same_layout_trans (cow_copied_layout A st ib vb new fm) (same_layout_symm ?_)
    exact same_layout_trans (unlink_layout A _ _)
      (same_layout_trans (link_layout _ _) (same_layout_set_free st fm))
  refine refcount_congr ?_ hl b
  simp only [cow_copied, mark_buffer_dirty, link_index, set_free]
  unfold ouichefs_unlink_block
  dsimp only
  split_ifs <;> rfl

theorem refcount_set_free (st : FsState) (fm : FreeMap) (b : Nat) :
    refcount (set_free st fm) b = refcount st b :=
  refcount_congr rfl (same_layout_set_free st fm) b

theorem same_record_set_free (st : FsState) (fm : FreeMap) (a b : Nat) :
    same_record (set_free st fm).sbi a b ↔ same_record st.sbi a b := by
  unfold same_record
  rw [same_layout_nr (same_layout_set_free st fm), same_layout_nr (same_layout_set_free st fm),
    same_layout_shift (same_layout_set_free st fm),
    same_layout_shift (same_layout_set_free st fm)]

theorem same_record_link (st : FsState) (x a b : Nat) :
    same_record (ouichefs_link_block st x).2.sbi a b ↔ same_record st.sbi a b := by
  unfold same_record
  rw [same_layout_nr (link_layout st x), same_layout_nr (link_layout st x),
    same_layout_shift (link_layout st x), same_layout_shift (link_layout st x)]

theorem cow_copied_refcount_other (A : Allocator) (st : FsState) (ib vb new : Nat)
    (fm : FreeMap) (b : Nat) (h1 : ¬ same_record st.sbi b new)
    (h2 : ¬ same_record st.sbi b (st.index ib vb)) :
    refcount (cow_copied A st ib vb new fm) b = refcount st b := by
  rw [cow_copied_refcount, unlink_refcount_loc, link_refcount_loc, refcount_set_free]
  · exact fun h => h1 ((same_record_set_free st fm b new).1 h)
  · exact fun h => h2 ((same_record_set_free st fm _ _).1
      ((same_record_link (set_free st fm) new _ _).1 h))

theorem cow_copied_refcount_new (A : Allocator) (st : FsState) (ib vb new : Nat)
    (fm : FreeMap) (hr : st.bread_ok (binfo_nr st.sbi new) = true)
    (h : ¬ same_record st.sbi new (st.index ib vb)) :
    refcount (cow_copied A st ib vb new fm) new = u32_inc (refcount st new) := by
  rw [cow_copied_refcount, unlink_refcount_loc, link_refcount_self, refcount_set_free]
  · exact hr
  · exact fun h1 => h ((same_record_set_free st fm _ _).1
      ((same_record_link (set_free st fm) new _ _).1 h1))

theorem cow_copied_refcount_old (A : Allocator) (st : FsState) (ib vb new : Nat)
    (fm : FreeMap) (hr : st.bread_ok (binfo_nr st.sbi (st.index ib vb)) = true)
    (h : ¬ same_record st.sbi (st.index ib vb) new) :
    refcount (cow_copied A st ib vb new fm) (st.index ib vb) =
      refcount st (st.index ib vb) - 1 := by
  rw [cow_copied_refcount, unlink_refcount_self, link_refcount_loc, refcount_set_free]
  · exact fun h1 => h ((same_record_set_free st fm _ _).1 h1)
  · rw [link_bread, same_layout_nr (link_layout _ _)]
    exact hr

/-! ## C1: copy-on-write of a single block -/

/-- C1: in a state where every block read succeeds and the allocator hands out a block
`new` (non-zero, the allocation succeeds) whose refcount is 0, `ouichefs_cow(file, k, 1)`
returns 0; if the refcount of `old = index[k]` is exactly 1 the state, hence the index
block and every refcount, is unchanged; if `old` is shared (refcount at least 2) then
afterwards `index[k] = new`, the refcount of `new` is 1 and the refcount of `old` is one
less than before. -/
theorem cow_single_block (A : Allocator) (st : FsState) (f : file) (k new : Nat)
    (hread : ∀ b, st.bread_ok b = true)
    (halloc : (A.get_free_block st.sbi.free).1 = new) (hnew : new ≠ 0)
    (hfresh : refcount st new = 0) :
    (ouichefs_cow A st f k 1).1 = 0 ∧
    (refcount st (st.index f.f_inode.index_block k) = 1 →
      (ouichefs_cow A st f k 1).2 = st ∧
      (ouichefs_cow A st f k 1).2.index f.f_inode.index_block
        = st.index f.f_inode.index_block ∧
      ∀ b, refcount (ouichefs_cow A st f k 1).2 b = refcount st b) ∧
    (2 ≤ refcount st (st.index f.f_inode.index_block k) →
      (ouichefs_cow A st f k 1).2.index f.f_inode.index_block k = new ∧
      refcount (ouichefs_cow A st f k 1).2 new = 1 ∧
      refcount (ouichefs_cow A st f k 1).2 (st.index f.f_inode.index_block k)
        = refcount st (st.index f.f_inode.index_block k) - 1) := by
  unfold ouichefs_cow ouichefs_cow_run
  rw [if_pos (hread _)]
  by_cases h1 : refcount st (st.index f.f_inode.index_block k) = 1
  · rw [cow_loop_skip A _ 0 k st (hread _) h1, cow_loop_zero]
    exact ⟨rfl, fun _ => ⟨rfl, rfl, fun _ => rfl⟩, fun h2 => by omega⟩
  · rw [cow_loop_copy A _ 0 k st (hread _) h1 (by rw [halloc]; exact hnew) (hread _)
      (hread _), cow_loop_zero, halloc]
    refine ⟨rfl, fun h => absurd h h1, fun h2 => ?_⟩
    have hne : ¬ same_record st.sbi new (st.index f.f_inode.index_block k) := by
      intro h
      have := refcount_same_record st h
      omega
    refine ⟨?_, ?_, ?_⟩
    · show (cow_copied A st _ k new _).index _ k = new
      rw [cow_copied_index, upd2_same]
    · show refcount (cow_copied A st _ k new _) new = 1
      rw [cow_copied_refcount_new A st _ k new _ (hread _) hne, hfresh]
      rfl
    · show refcount (cow_copied A st _ k new _) _ = _
      rw [cow_copied_refcount_old A st _ k new _ (hread _)
        (fun h => hne ⟨h.1.symm, h.2.symm⟩)]

theorem cow_single_block_witness :
    (∀ b, st_shared.bread_ok b = true) ∧
    ((bitmap_allocator 64).get_free_block st_shared.sbi.free).1 = 11 ∧ (11 : Nat) ≠ 0 ∧
    refcount st_shared 11 = 0 ∧
    2 ≤ refcount st_shared (st_shared.index (mk_file 1 20 1 3).f_inode.index_block 0) ∧
    (ouichefs_cow (bitmap_allocator 64) st_shared (mk_file 1 20 1 3) 0 1).2.index
      (mk_file 1 20 1 3).f_inode.index_block 0 = 11 :=
  ⟨fun _ => rfl, by decide, by decide, by decide, by decide,
   ((cow_single_block (bitmap_allocator 64) st_shared (mk_file 1 20 1 3) 0 11
      (fun _ => rfl) (by decide) (by decide) (by decide)).2.2 (by decide)).1⟩

/-! ## The loop of `ouichefs_cow`: unfolding and frame properties -/

/-- One unfolding of the loop of `ouichefs_cow`, with the copied state named. -/
theorem cow_loop_succ (A : Allocator) (ib n vb : Nat) (st : FsState) :
    cow_loop A ib (n + 1) vb st =
      if st.bread_ok (binfo_nr st.sbi (st.index ib vb)) = true then
        if refcount st (st.index ib vb) = 1 then cow_loop A ib n (vb + 1) st
        else if (A.get_free_block st.sbi.free).1 = 0 then
          (- ENOSPC, set_free st (A.get_free_block st.sbi.free).2, [])
        else if st.bread_ok (st.index ib vb) = true then
          if st.bread_ok (A.get_free_block st.sbi.free).1 = true then
            ((cow_loop A ib n (vb + 1)
                (cow_copied A st ib vb (A.get_free_block st.sbi.free).1
                  (A.get_free_block st.sbi.free).2)).1,
             (cow_loop A ib n (vb + 1)
                (cow_copied A st ib vb (A.get_free_block st.sbi.free).1
                  (A.get_free_block st.sbi.free).2)).2.1,
             (A.get_free_block st.sbi.free).1 ::
             (cow_loop A ib n (vb + 1)
                (cow_copied A st ib vb (A.get_free_block st.sbi.free).1
                  (A.get_free_block st.sbi.free).2)).2.2)
          else
            (- EIO, (ouichefs_link_block (set_free st (A.get_free_block st.sbi.free).2)
                (A.get_free_block st.sbi.free).1).2, [(A.get_free_block st.sbi.free).1])
        else
          (- EIO,
           set_free (ouichefs_link_block (set_free st (A.get_free_block st.sbi.free).2)
                (A.get_free_block st.sbi.free).1).2
             (A.put_block (ouichefs_link_block (set_free st (A.get_free_block st.sbi.free).2)
                (A.get_free_block st.sbi.free).1).2.sbi.free (A.get_free_block st.sbi.free).1),
           [(A.get_free_block st.sbi.free).1])
      else (- EIO, st, []) := by
  have hb : (ouichefs_link_block (set_free st (A.get_free_block st.sbi.free).2)
      (A.get_free_block st.sbi.free).1).2.bread_ok = st.bread_ok := by
    rw [link_bread]; rfl
  have hi : (ouichefs_link_block (set_free st (A.get_free_block st.sbi.free).2)
      (A.get_free_block st.sbi.free).1).2.index = st.index := by
    rw [link_index]; rfl
  by_cases h0 : st.bread_ok (binfo_nr st.sbi (st.index ib vb)) = true
  · by_cases h1 : refcount st (st.index ib vb) = 1
    · rw [cow_loop_skip A ib n vb st h0 h1, if_pos h0, if_pos h1]
    · by_cases h2 : (A.get_free_block st.sbi.free).1 = 0
      · rw [cow_loop_nospc A ib n vb st h0 h1 h2, if_pos h0, if_neg h1, if_pos h2]
      · by_cases h3 : st.bread_ok (st.index ib vb) = true
        · by_cases h4 : st.bread_ok (A.get_free_block st.sbi.free).1 = true
          · rw [cow_loop_copy A ib n vb st h0 h1 h2 h3 h4, if_pos h0, if_neg h1, if_neg h2,
              if_pos h3, if_pos h4]
          · rw [if_pos h0, if_neg h1, if_neg h2, if_pos h3, if_neg h4]
            unfold refcount at h1
            rw [cow_loop]
            simp only [h0, h1, h2, if_true, if_false, hb, hi, h3, h4]
            rfl
        · rw [if_pos h0, if_neg h1, if_neg h2, if_neg h3]
          unfold refcount at h1
          rw [cow_loop]
          simp only [h0, h1, h2, if_true, if_false, hb, hi, h3]
          rfl
  · rw [if_neg h0, cow_loop]
    simp only [h0, if_false]
    rfl

theorem link_set_free_data (st : FsState) (fm : FreeMap) (x : Nat) :
    (ouichefs_link_block (set_free st fm) x).2.data = st.data := by
  rw [link_data]; rfl

theorem link_set_free_index (st : FsState) (fm : FreeMap) (x : Nat) :
    (ouichefs_link_block (set_free st fm) x).2.index = st.index := by
  rw [link_index]; rfl

/-- Blocks that `get_free_block` did not hand out keep their bytes, whatever the outcome
of the loop. -/
theorem cow_loop_data_frame (A : Allocator) (ib : Nat) :
    ∀ (n vb : Nat) (st : FsState) (b : Nat), b ∉ (cow_loop A ib n vb st).2.2 →
      (cow_loop A ib n vb st).2.1.data b = st.data b := by
  intro n
  induction n with
  | zero => intro vb st b _; rw [cow_loop_zero]
  | succ n ih =>
    intro vb st b
    rw [cow_loop_succ]
    split_ifs
    · exact ih (vb + 1) st b
    · intro _; rfl
    · intro hb
      simp only [List.mem_cons, not_or] at hb
      show (cow_loop A ib n (vb + 1) _).2.1.data b = st.data b
      rw [ih _ _ b hb.2, cow_copied_data, upd_other _ _ _ _ hb.1]
    · intro _
      show (ouichefs_link_block (set_free st _) _).2.data b = st.data b
      rw [link_set_free_data]
    · intro _
      show (ouichefs_link_block (set_free st _) _).2.data b = st.data b
      rw [link_set_free_data]
    · intro _; rfl

/-- Only the entries `vb .. vb + n - 1` of the index block `ib` can change. -/
theorem cow_loop_index_frame (A : Allocator) (ib : Nat) :
    ∀ (n vb : Nat) (st : FsState) (ib1 m : Nat), (ib1 ≠ ib ∨ m < vb ∨ vb + n ≤ m) →
      (cow_loop A ib n vb st).2.1.index ib1 m = st.index ib1 m := by
  intro n
  induction n with
  | zero => intro vb st ib1 m _; rw [cow_loop_zero]
  | succ n ih =>
    intro vb st ib1 m hm
    rw [cow_loop_succ]
    split_ifs
    · exact ih (vb + 1) st ib1 m (by omega)
    · rfl
    · show (cow_loop A ib n (vb + 1) _).2.1.index ib1 m = st.index ib1 m
      rw [ih _ _ ib1 m (by omega), cow_copied_index, upd2_other]
      intro h
      omega
    · show (ouichefs_link_block (set_free st _) _).2.index ib1 m = st.index ib1 m
      rw [link_set_free_index]
    · show (ouichefs_link_block (set_free st _) _).2.index ib1 m = st.index ib1 m
      rw [link_set_free_index]
    · rfl

/-- Every entry of the index block names, after the loop, a block holding the bytes that
the block it named before held, provided the blocks handed out are pairwise distinct and
the entry did not already name one of them. -/
theorem cow_loop_entry_bytes (A : Allocator) (ib : Nat) :
    ∀ (n vb : Nat) (st : FsState), (cow_loop A ib n vb st).2.2.Nodup →
      ∀ m, st.index ib m ∉ (cow_loop A ib n vb st).2.2 →
      ∀ i, i < OUICHEFS_BLOCK_SIZE →
        (cow_loop A ib n vb st).2.1.data ((cow_loop A ib n vb st).2.1.index ib m) i
          = st.data (st.index ib m) i := by
  intro n
  induction n with
  | zero => intro vb st _ m _ i _; rw [cow_loop_zero]
  | succ n ih =>
    intro vb st
    rw [cow_loop_succ]
    split_ifs
    · exact ih (vb + 1) st
    · intro _ m _ i _; rfl
    · intro hnd m hm i hi
      simp only [List.nodup_cons] at hnd
      simp only [List.mem_cons, not_or] at hm
      show (cow_loop A ib n (vb + 1) _).2.1.data
        ((cow_loop A ib n (vb + 1) _).2.1.index ib m) i = st.data (st.index ib m) i
      by_cases hmv : m = vb
      · subst hmv
        rw [cow_loop_index_frame A ib n (m + 1) _ ib m (by omega), cow_copied_index,
          upd2_same, cow_loop_data_frame A ib n (m + 1) _ _ hnd.1, cow_copied_data, upd_same]
        unfold memcpy_block
        rw [if_pos hi]
      · have hidx : (cow_copied A st ib vb (A.get_free_block st.sbi.free).1
            (A.get_free_block st.sbi.free).2).index ib m = st.index ib m := by
          rw [cow_copied_index, upd2_other]
          intro h
          exact hmv h.2
        rw [ih (vb + 1) _ hnd.2 m (by rw [hidx]; exact hm.2) i hi, hidx, cow_copied_data,
          upd_other _ _ _ _ hm.1]
    · intro _ m hm i _
      show (ouichefs_link_block (set_free st _) _).2.data
        ((ouichefs_link_block (set_free st _) _).2.index ib m) i = st.data (st.index ib m) i
      rw [link_set_free_data, link_set_free_index]
    · intro _ m hm i _
      show (ouichefs_link_block (set_free st _) _).2.data
        ((ouichefs_link_block (set_free st _) _).2.index ib m) i = st.data (st.index ib m) i
      rw [link_set_free_data, link_set_free_index]
    · intro _ m _ i _; rfl

/-! ## C2: copy-on-write preserves the bytes seen through every index entry -/

/-- C2: for `ouichefs_cow(file, k, n)` in which the blocks handed out by the allocator are
referenced by no data entry of any inode before the call and are pairwise distinct (so
none is referenced by an entry written earlier in the call): for every logical index `m`
of the file, the 4096 bytes of the block that `index[m]` names after the call equal the
bytes of the block that `index[m]` named before the call, and every block that was
referenced by some inode before the call keeps its contents.  This holds whatever value
the call returns, in particular when it succeeds. -/
theorem cow_preserves_contents (A : Allocator) (st : FsState) (f : file) (k n : Nat)
    (inodes : List inode) (hf : f.f_inode ∈ inodes)
    (hfresh : ∀ b, b ∈ cow_allocs A st f k n → ¬ referenced st inodes b)
    (hnodup : (cow_allocs A st f k n).Nodup) :
    (∀ m, m < nr_data_entries f.f_inode → ∀ i, i < OUICHEFS_BLOCK_SIZE →
      (ouichefs_cow A st f k n).2.data
          ((ouichefs_cow A st f k n).2.index f.f_inode.index_block m) i
        = st.data (st.index f.f_inode.index_block m) i) ∧
    (∀ b, referenced st inodes b → (ouichefs_cow A st f k n).2.data b = st.data b) := by
  unfold cow_allocs at hfresh hnodup
  unfold ouichefs_cow
  unfold ouichefs_cow_run at *
  by_cases hr : st.bread_ok f.f_inode.index_block = true
  · rw [if_pos hr] at hfresh hnodup ⊢
    refine ⟨fun m hm i hi => ?_, fun b hb => ?_⟩
    · exact cow_loop_entry_bytes A _ n k st hnodup m
        (fun h => hfresh _ h ⟨f.f_inode, hf, m, hm, rfl⟩) i hi
    · exact cow_loop_data_frame A _ n k st b (fun h => hfresh b h hb)
  · rw [if_neg hr]
    exact ⟨fun _ _ _ _ => rfl, fun _ _ => rfl⟩

theorem cow_preserves_contents_witness :
    (mk_file 1 20 1 3).f_inode ∈ [(mk_file 1 20 1 3).f_inode, (mk_file 2 21 1 3).f_inode] ∧
    cow_allocs (bitmap_allocator 64) st_two_files (mk_file 1 20 1 3) 0 1 = [11] ∧
    (∀ b, b ∈ cow_allocs (bitmap_allocator 64) st_two_files (mk_file 1 20 1 3) 0 1 →
      ¬ referenced st_two_files
        [(mk_file 1 20 1 3).f_inode, (mk_file 2 21 1 3).f_inode] b) ∧
    (ouichefs_cow (bitmap_allocator 64) st_two_files (mk_file 1 20 1 3) 0 1).2.index 20 0
      = 11 ∧
    (ouichefs_cow (bitmap_allocator 64) st_two_files (mk_file 1 20 1 3) 0 1).2.data
        ((ouichefs_cow (bitmap_allocator 64) st_two_files (mk_file 1 20 1 3) 0 1).2.index
          (mk_file 1 20 1 3).f_inode.index_block 0) 1
      = st_two_files.data (st_two_files.index (mk_file 1 20 1 3).f_inode.index_block 0) 1 := by
  have hall : cow_allocs (bitmap_allocator 64) st_two_files (mk_file 1 20 1 3) 0 1 = [11] := by
    decide
  have hfresh : ∀ b, b ∈ cow_allocs (bitmap_allocator 64) st_two_files (mk_file 1 20 1 3) 0 1 →
      ¬ referenced st_two_files
        [(mk_file 1 20 1 3).f_inode, (mk_file 2 21 1 3).f_inode] b := by
    intro b hb
    rw [hall, List.mem_singleton] at hb
    subst hb
    unfold referenced
    decide
  exact ⟨List.mem_cons_self _ _, hall, hfresh, by decide,
    (cow_preserves_contents (bitmap_allocator 64) st_two_files (mk_file 1 20 1 3) 0 1
      [(mk_file 1 20 1 3).f_inode, (mk_file 2 21 1 3).f_inode] (List.mem_cons_self _ _)
      hfresh (by rw [hall]; exact List.nodup_singleton _)).1 0 (by decide) 1 (by decide)⟩

/-! ## The loops of `deduplicate_file`: unfolding and frame properties -/

theorem dedup_inner_zero (A : Allocator) (sib dib i sbh_b len j : Nat) (st : FsState)
    (c : Int) : dedup_inner A sib dib i sbh_b len 0 j st c = ⟨true, st, c⟩ := by
  rw [dedup_inner]

/-- One unfolding of the inner loop, with the collapsed state named. -/
theorem dedup_inner_succ (A : Allocator) (sib dib i sbh_b len n j : Nat) (st : FsState)
    (c : Int) :
    dedup_inner A sib dib i sbh_b len (n + 1) j st c =
      if st.index sib i = st.index dib j then
        dedup_inner A sib dib i sbh_b len n (j + 1) st c
      else if st.bread_ok (st.index dib j) = true then
        if memcmp_eq (st.data sbh_b) (st.data (st.index dib j)) len = true then
          dedup_inner A sib dib i sbh_b len n (j + 1)
            (dedup_collapsed A st dib j (st.index sib i) (st.index dib j)) (c + 1)
        else
          dedup_inner A sib dib i sbh_b len n (j + 1) st c
      else ⟨false, st, c⟩ := by
  rw [dedup_inner]
  rfl

theorem dedup_outer_zero (A : Allocator) (src dup : inode) (i len : Nat) (st : FsState)
    (c : Int) : dedup_outer A src dup 0 i len st c = ⟨true, st, c⟩ := by
  rw [dedup_outer]

/-- One unfolding of the outer loop. -/
theorem dedup_outer_succ (A : Allocator) (src dup : inode) (n i len : Nat) (st : FsState)
    (c : Int) :
    dedup_outer A src dup (n + 1) i len st c =
      if st.bread_ok (st.index src.index_block i) = true then
        if (dedup_inner A src.index_block dup.index_block i (st.index src.index_block i)
              (compare_len src i len) (nr_data_entries dup) 0 st c).ok = true then
          dedup_outer A src dup n (i + 1) (compare_len src i len)
            (dedup_inner A src.index_block dup.index_block i (st.index src.index_block i)
              (compare_len src i len) (nr_data_entries dup) 0 st c).st
            (dedup_inner A src.index_block dup.index_block i (st.index src.index_block i)
              (compare_len src i len) (nr_data_entries dup) 0 st c).count
        else
          dedup_inner A src.index_block dup.index_block i (st.index src.index_block i)
              (compare_len src i len) (nr_data_entries dup) 0 st c
      else ⟨false, st, c⟩ := by
  rw [dedup_outer]
  rfl

theorem dedup_collapsed_index (A : Allocator) (st : FsState) (dib j src_b dup_b : Nat) :
    (dedup_collapsed A st dib j src_b dup_b).index = upd2 st.index dib j src_b := by
  simp only [dedup_collapsed, link_index, unlink_index]

theorem dedup_collapsed_data (A : Allocator) (st : FsState) (dib j src_b dup_b : Nat) :
    (dedup_collapsed A st dib j src_b dup_b).data = st.data := by
  simp only [dedup_collapsed, link_data, unlink_data]

theorem dedup_collapsed_bread (A : Allocator) (st : FsState) (dib j src_b dup_b : Nat) :
    (dedup_collapsed A st dib j src_b dup_b).bread_ok = st.bread_ok := by
  simp only [dedup_collapsed, link_bread, unlink_bread]

theorem dedup_collapsed_layout (A : Allocator) (st : FsState) (dib j src_b dup_b : Nat) :
    same_layout (dedup_collapsed A st dib j src_b dup_b).sbi st.sbi := by
  simp only [dedup_collapsed]
  exact same_layout_trans (link_layout _ _) (unlink_layout A st dup_b)

/-- Refcounts after one collapse: those left by the link of `src_b` on the state left by the
unlink of `dup_b`. -/
theorem dedup_collapsed_refcount (A : Allocator) (st : FsState) (dib j src_b dup_b b : Nat) :
    refcount (dedup_collapsed A st dib j src_b dup_b) b =
      refcount (ouichefs_link_block (ouichefs_unlink_block A st dup_b).2 src_b).2 b := by
  have hl : same_layout (dedup_collapsed A st dib j src_b dup_b).sbi
      (ouichefs_link_block (ouichefs_unlink_block A st dup_b).2 src_b).2.sbi := by
    exact same_layout_trans (dedup_collapsed_layout A st dib j src_b dup_b)
      (same_layout_symm (same_layout_trans (link_layout _ _) (unlink_layout A st dup_b)))
  refine refcount_congr ?_ hl b
  simp only [dedup_collapsed]
  unfold ouichefs_link_block
  dsimp only
  split_ifs <;> rfl

/-! ## C3: the short compare at the tail of `src` -/

/-- C3 (failing input): `src` is a one-byte file whose block starts with the byte 65, `dup`
a 4000-byte file whose block starts with 65, 7, 7.  `deduplicate_file(src, dup)` compares
one byte only, collapses the block of `dup` onto the block of `src`, and byte 1 of the
first logical block of `dup`, visible through `dup` (1 < min(4096, 4000)), changes from 7
to 0. -/
theorem dedup_tail_compare_changes_bytes :
    ino_tail_src.index_block ≠ ino_tail_dup.index_block ∧
    (∀ b, st_tail.bread_ok b = true) ∧
    (deduplicate_file (bitmap_allocator 64) st_tail ino_tail_src ino_tail_dup).1 = 1 ∧
    1 < min OUICHEFS_BLOCK_SIZE (ino_tail_dup.i_size - OUICHEFS_BLOCK_SIZE * 0) ∧
    st_tail.data (st_tail.index ino_tail_dup.index_block 0) 1 = 7 ∧
    (deduplicate_file (bitmap_allocator 64) st_tail ino_tail_src ino_tail_dup).2.data
      ((deduplicate_file (bitmap_allocator 64) st_tail ino_tail_src ino_tail_dup).2.index
        ino_tail_dup.index_block 0) 1 = 0 :=
  ⟨by decide, fun _ => rfl, by decide, by decide, by decide, by decide⟩

/-! ## C9: `deduplicate_file(F, F)` -/

theorem memcmp_eq_of_block (a b : Nat → Nat) (len : Nat)
    (h : ∀ i, i < OUICHEFS_BLOCK_SIZE → a i = b i) (hlen : len ≤ OUICHEFS_BLOCK_SIZE) :
    memcmp_eq a b len = true := by
  unfold memcmp_eq
  rw [decide_eq_true_iff]
  exact fun i hi => h i (by omega)

theorem compare_len_le (src : inode) (i len : Nat) (h : len ≤ OUICHEFS_BLOCK_SIZE) :
    compare_len src i len ≤ OUICHEFS_BLOCK_SIZE := by
  unfold compare_len
  split_ifs
  · exact (Nat.mod_lt _ (by unfold OUICHEFS_BLOCK_SIZE; norm_num)).le
  · exact h

/-- On a file with two data entries naming distinct blocks with equal bytes,
`deduplicate_file(F, F)` performs exactly one collapse: entry 1 is rewritten to the block
of entry 0. -/
theorem dedup_self_two (A : Allocator) (st : FsState) (F : inode) (b0 b1 : Nat)
    (hn : nr_data_entries F = 2) (h0 : st.index F.index_block 0 = b0)
    (h1 : st.index F.index_block 1 = b1) (hne : b0 ≠ b1)
    (hread : ∀ b, st.bread_ok b = true)
    (hbytes : ∀ i, i < OUICHEFS_BLOCK_SIZE → st.data b0 i = st.data b1 i) :
    deduplicate_file A st F F =
      (1, mark_buffer_dirty (dedup_collapsed A st F.index_block 1 b0 b1) F.index_block) := by
  have hc0 : (dedup_collapsed A st F.index_block 1 b0 b1).index F.index_block 0 = b0 := by
    rw [dedup_collapsed_index, upd2_other _ _ _ _ _ _ (by omega), h0]
  have hc1 : (dedup_collapsed A st F.index_block 1 b0 b1).index F.index_block 1 = b0 := by
    rw [dedup_collapsed_index, upd2_same]
  have hcr : ∀ b, (dedup_collapsed A st F.index_block 1 b0 b1).bread_ok b = true := by
    intro b; rw [dedup_collapsed_bread]; exact hread b
  have hm : ∀ len, len ≤ OUICHEFS_BLOCK_SIZE →
      memcmp_eq (st.data b0) (st.data b1) len = true :=
    fun len hlen => memcmp_eq_of_block _ _ len hbytes hlen
  unfold deduplicate_file
  simp only [hn, hread, if_true, dedup_outer_succ, dedup_outer_zero, dedup_inner_succ,
    dedup_inner_zero, h0, h1, hne, if_false, zero_add,
    hm _ (compare_len_le F 0 OUICHEFS_BLOCK_SIZE le_rfl), hc0, hc1, hcr]

theorem same_record_unlink (A : Allocator) (st : FsState) (x a b : Nat) :
    same_record (ouichefs_unlink_block A st x).2.sbi a b ↔ same_record st.sbi a b := by
  unfold same_record
  rw [same_layout_nr (unlink_layout A st x), same_layout_nr (unlink_layout A st x),
    same_layout_shift (unlink_layout A st x), same_layout_shift (unlink_layout A st x)]

theorem same_record_symm {sbi : ouichefs_sb_info} {a b : Nat} (h : same_record sbi a b) :
    same_record sbi b a := ⟨h.1.symm, h.2.symm⟩

theorem dedup_collapsed_refcount_other (A : Allocator) (st : FsState)
    (dib j src_b dup_b b : Nat) (h1 : ¬ same_record st.sbi b src_b)
    (h2 : ¬ same_record st.sbi b dup_b) :
    refcount (dedup_collapsed A st dib j src_b dup_b) b = refcount st b := by
  rw [dedup_collapsed_refcount, link_refcount_loc, unlink_refcount_loc]
  · exact h2
  · exact fun h => h1 ((same_record_unlink A st dup_b _ _).1 h)

theorem dedup_collapsed_refcount_src (A : Allocator) (st : FsState)
    (dib j src_b dup_b : Nat) (hr : st.bread_ok (binfo_nr st.sbi src_b) = true)
    (h : ¬ same_record st.sbi src_b dup_b) :
    refcount (dedup_collapsed A st dib j src_b dup_b) src_b = u32_inc (refcount st src_b) := by
  rw [dedup_collapsed_refcount, link_refcount_self, unlink_refcount_loc]
  · exact h
  · rw [unlink_bread, same_layout_nr (unlink_layout A st dup_b)]
    exact hr

theorem dedup_collapsed_refcount_dup (A : Allocator) (st : FsState)
    (dib j src_b dup_b : Nat) (hr : st.bread_ok (binfo_nr st.sbi dup_b) = true)
    (h : ¬ same_record st.sbi dup_b src_b) :
    refcount (dedup_collapsed A st dib j src_b dup_b) dup_b = refcount st dup_b - 1 := by
  rw [dedup_collapsed_refcount, link_refcount_loc, unlink_refcount_self]
  · exact hr
  · exact fun h1 => h ((same_record_unlink A st dup_b _ _).1 h1)

/-- Effect of `deduplicate_file(F, F)` on a file with two data entries naming distinct
blocks with equal bytes. -/
theorem dedup_self_two_effect (A : Allocator) (st : FsState) (F : inode) (b0 b1 : Nat)
    (hn : nr_data_entries F = 2) (h0 : st.index F.index_block 0 = b0)
    (h1 : st.index F.index_block 1 = b1) (hne : b0 ≠ b1)
    (hu0 : b0 < 2 ^ 32) (hu1 : b1 < 2 ^ 32)
    (hread : ∀ b, st.bread_ok b = true)
    (hbytes : ∀ i, i < OUICHEFS_BLOCK_SIZE → st.data b0 i = st.data b1 i) :
    (deduplicate_file A st F F).1 = 1 ∧
    (deduplicate_file A st F F).2.index F.index_block 0 = b0 ∧
    (deduplicate_file A st F F).2.index F.index_block 1 = b0 ∧
    refcount (deduplicate_file A st F F).2 b1 = refcount st b1 - 1 ∧
    refcount (deduplicate_file A st F F).2 b0 = (refcount st b0 + 1) % 2 ^ 32 := by
  have hrec : ¬ same_record st.sbi b0 b1 := fun h => hne (same_record_u32 st.sbi hu0 hu1 h)
  rw [dedup_self_two A st F b0 b1 hn h0 h1 hne hread hbytes]
  refine ⟨rfl, ?_, ?_, ?_, ?_⟩
  · show (dedup_collapsed A st _ 1 b0 b1).index _ 0 = b0
    rw [dedup_collapsed_index, upd2_other _ _ _ _ _ _ (by omega), h0]
  · show (dedup_collapsed A st _ 1 b0 b1).index _ 1 = b0
    rw [dedup_collapsed_index, upd2_same]
  · show refcount (dedup_collapsed A st _ 1 b0 b1) b1 = _
    exact dedup_collapsed_refcount_dup A st _ 1 b0 b1 (hread _)
      (fun h => hrec (same_record_symm h))
  · show refcount (dedup_collapsed A st _ 1 b0 b1) b0 = _
    exact dedup_collapsed_refcount_src A st _ 1 b0 b1 (hread _) hrec

/-! ## C10: the candidate lists are capped at 511 entries -/

theorem registry_add_inv (bm : Nat → Bool) (arr : Nat → Nat) (seen d : List Nat) (x : Nat)
    (hx : x < 2 ^ 32) (h : registry_inv bm arr seen d) :
    registry_inv (registry_add bm arr x).1 (registry_add bm arr x).2 (seen ++ [x])
      (if x ∈ d then d else d ++ [x]) := by
  obtain ⟨hbm, hd, hc, he⟩ := h
  have hbm1 : ∀ y, upd bm x true y = true ↔ y ∈ seen ++ [x] := by
    intro y
    unfold upd
    by_cases hy : y = x
    · simp [hy]
    · simp [hy, hbm y]
  by_cases hmem : x ∈ d
  · have hset : bm x = true := (hbm x).2 ((hd x).1 hmem)
    have hreg : (registry_add bm arr x).2 = arr := by
      unfold registry_add
      simp [hset]
    rw [if_pos hmem, hreg]
    refine ⟨hbm1, fun y => ?_, hc, he⟩
    rw [hd y, List.mem_append, List.mem_singleton]
    constructor
    · exact fun h => Or.inl h
    · rintro (h | h)
      · exact h
      · rw [h]; exact (hd x).1 hmem
  · have hclr : bm x = false := by
      have : ¬ bm x = true := fun h => hmem ((hd x).2 ((hbm x).1 h))
      simpa using this
    rw [if_neg hmem]
    have hmem1 : ∀ y, y ∈ d ++ [x] ↔ y ∈ seen ++ [x] := by
      intro y
      rw [List.mem_append, List.mem_append, hd y]
    have hinc : u32_inc (arr 0) = min d.length 511 + 1 := by
      rw [hc]
      exact u32_inc_lt _ (by have := Nat.min_le_right d.length 511; omega)
    by_cases hfull : d.length < 511
    · have hmin : min d.length 511 = d.length := Nat.min_eq_left hfull.le
      have hreg : (registry_add bm arr x).2 =
          upd (upd arr (d.length + 1) x) 0 (d.length + 1) := by
        unfold registry_add DUP_LIST_LEN
        rw [hinc, hmin, if_pos ⟨hclr, by omega⟩, Nat.mod_eq_of_lt hx]
      refine ⟨hbm1, hmem1, ?_, ?_⟩
      · rw [hreg, upd_same, List.length_append, List.length_singleton]
        omega
      · intro i hi
        rw [List.length_append, List.length_singleton] at hi
        rw [hreg, upd_other _ _ _ _ (by omega)]
        by_cases hil : i = d.length
        · subst hil
          rw [upd_same]
          simp [List.getD_eq_getElem?_getD]
        · have hlt : i < d.length := by omega
          rw [upd_other _ _ _ _ (by omega), he i (by omega)]
          simp [List.getD_eq_getElem?_getD, List.getElem?_append_left hlt]
    · have hmin : min d.length 511 = 511 := Nat.min_eq_right (by omega)
      have hreg : (registry_add bm arr x).2 = arr := by
        unfold registry_add DUP_LIST_LEN
        rw [hinc, hmin, if_neg (by omega)]
      rw [hreg]
      refine ⟨hbm1, hmem1, ?_, ?_⟩
      · rw [hc, hmin, List.length_append, List.length_singleton]
        omega
      · intro i hi
        have hlt : i < d.length := by omega
        rw [he i (by omega)]
        simp [List.getD_eq_getElem?_getD, List.getElem?_append_left hlt]

/-- The call `dupblock_add_isrc` is `registry_add` on `isrc_bitmap` and `isources`. -/
theorem dupblock_add_isrc_eq (st : FsState) (ino : inode)
    (h : st.bread_ok st.sbi.index_dupblock = true) :
    (dupblock_add_isrc st ino).1 = 0 ∧
    (dupblock_add_isrc st ino).2.sbi.isrc_bitmap =
      (registry_add st.sbi.isrc_bitmap (st.dupblock st.sbi.index_dupblock).isources
        ino.i_ino).1 ∧
    ((dupblock_add_isrc st ino).2.dupblock st.sbi.index_dupblock).isources =
      (registry_add st.sbi.isrc_bitmap (st.dupblock st.sbi.index_dupblock).isources
        ino.i_ino).2 ∧
    (dupblock_add_isrc st ino).2.bread_ok = st.bread_ok ∧
    (dupblock_add_isrc st ino).2.sbi.index_dupblock = st.sbi.index_dupblock := by
  unfold dupblock_add_isrc registry_add
  simp only [h, if_true]
  split_ifs <;> simp [mark_buffer_dirty]

/-- The call `dupblock_add_idup` is `registry_add` on `idup_bitmap` and `iduplicated`. -/
theorem dupblock_add_idup_eq (st : FsState) (ino : inode)
    (h : st.bread_ok st.sbi.index_dupblock = true) :
    (dupblock_add_idup st ino).1 = 0 ∧
    (dupblock_add_idup st ino).2.sbi.idup_bitmap =
      (registry_add st.sbi.idup_bitmap (st.dupblock st.sbi.index_dupblock).iduplicated
        ino.i_ino).1 ∧
    ((dupblock_add_idup st ino).2.dupblock st.sbi.index_dupblock).iduplicated =
      (registry_add st.sbi.idup_bitmap (st.dupblock st.sbi.index_dupblock).iduplicated
        ino.i_ino).2 ∧
    (dupblock_add_idup st ino).2.bread_ok = st.bread_ok ∧
    (dupblock_add_idup st ino).2.sbi.index_dupblock = st.sbi.index_dupblock := by
  unfold dupblock_add_idup registry_add
  simp only [h, if_true]
  split_ifs <;> simp [mark_buffer_dirty]

theorem add_isrc_all_inv : ∀ (inos : List inode) (st : FsState) (seen d : List Nat),
    st.bread_ok st.sbi.index_dupblock = true →
    (∀ ino, ino ∈ inos → ino.i_ino < 2 ^ 32) →
    registry_inv st.sbi.isrc_bitmap (st.dupblock st.sbi.index_dupblock).isources seen d →
    registry_inv (add_isrc_all st inos).sbi.isrc_bitmap
      ((add_isrc_all st inos).dupblock st.sbi.index_dupblock).isources
      (seen ++ inos.map inode.i_ino)
      ((inos.map inode.i_ino).foldl (fun acc x => if x ∈ acc then acc else acc ++ [x]) d) := by
  intro inos
  induction inos with
  | nil =>
    intro st seen d _ _ h
    simpa [add_isrc_all] using h
  | cons ino rest ih =>
    intro st seen d hr hu h
    obtain ⟨_, hbm, harr, hbr, hidx⟩ := dupblock_add_isrc_eq st ino hr
    have hstep := registry_add_inv _ _ seen d ino.i_ino
      (hu ino (List.mem_cons_self _ _)) h
    rw [← hbm, ← harr, ← hidx] at hstep
    have := ih (dupblock_add_isrc st ino).2 (seen ++ [ino.i_ino])
      (if ino.i_ino ∈ d then d else d ++ [ino.i_ino]) (by rw [hbr, hidx]; exact hr)
      (fun i hi => hu i (List.mem_cons_of_mem _ hi)) hstep
    rw [hidx] at this
    simpa [add_isrc_all] using this

theorem add_idup_all_inv : ∀ (inos : List inode) (st : FsState) (seen d : List Nat),
    st.bread_ok st.sbi.index_dupblock = true →
    (∀ ino, ino ∈ inos → ino.i_ino < 2 ^ 32) →
    registry_inv st.sbi.idup_bitmap (st.dupblock st.sbi.index_dupblock).iduplicated seen d →
    registry_inv (add_idup_all st inos).sbi.idup_bitmap
      ((add_idup_all st inos).dupblock st.sbi.index_dupblock).iduplicated
      (seen ++ inos.map inode.i_ino)
      ((inos.map inode.i_ino).foldl (fun acc x => if x ∈ acc then acc else acc ++ [x]) d) := by
  intro inos
  induction inos with
  | nil =>
    intro st seen d _ _ h
    simpa [add_idup_all] using h
  | cons ino rest ih =>
    intro st seen d hr hu h
    obtain ⟨_, hbm, harr, hbr, hidx⟩ := dupblock_add_idup_eq st ino hr
    have hstep := registry_add_inv _ _ seen d ino.i_ino
      (hu ino (List.mem_cons_self _ _)) h
    rw [← hbm, ← harr, ← hidx] at hstep
    have := ih (dupblock_add_idup st ino).2 (seen ++ [ino.i_ino])
      (if ino.i_ino ∈ d then d else d ++ [ino.i_ino]) (by rw [hbr, hidx]; exact hr)
      (fun i hi => hu i (List.mem_cons_of_mem _ hi)) hstep
    rw [hidx] at this
    simpa [add_idup_all] using this

/-- Once the cursor of `isources` is 511 a call changes no candidate block. -/
theorem dupblock_add_isrc_full (st : FsState) (ino : inode)
    (hr : st.bread_ok st.sbi.index_dupblock = true)
    (hfull : (st.dupblock st.sbi.index_dupblock).isources 0 = 511) :
    (dupblock_add_isrc st ino).1 = 0 ∧ (dupblock_add_isrc st ino).2.dupblock = st.dupblock := by
  have h512 : ¬ u32_inc 511 < DUP_LIST_LEN := by decide
  unfold dupblock_add_isrc
  simp only [hr, if_true, hfull, h512, and_false, if_false, and_self]

/-- Once the cursor of `iduplicated` is 511 a call changes no candidate block. -/
theorem dupblock_add_idup_full (st : FsState) (ino : inode)
    (hr : st.bread_ok st.sbi.index_dupblock = true)
    (hfull : (st.dupblock st.sbi.index_dupblock).iduplicated 0 = 511) :
    (dupblock_add_idup st ino).1 = 0 ∧ (dupblock_add_idup st ino).2.dupblock = st.dupblock := by
  have h512 : ¬ u32_inc 511 < DUP_LIST_LEN := by decide
  unfold dupblock_add_idup
  simp only [hr, if_true, hfull, h512, and_false, if_false, and_self]

/-- C10 (counterexample to the claim as stated): from a zeroed candidate block and empty
bitmaps, when the candidate block cannot be read, `dupblock_add_isrc` returns `-EIO` and
records nothing: after a call on one inode the cursor `sources[0]` is still 0, not
`min(1, 511)`. -/
theorem candidate_list_unreadable_counterexample :
    (∀ x, st_unreadable.sbi.isrc_bitmap x = false) ∧
    (∀ k, (st_unreadable.dupblock st_unreadable.sbi.index_dupblock).isources k = 0) ∧
    (first_occurrences ([mk_inode 1].map inode.i_ino)).length = 1 ∧
    (dupblock_add_isrc st_unreadable (mk_inode 1)).1 = - EIO ∧
    (dupblock_add_isrc st_unreadable (mk_inode 1)).1 ≠ 0 ∧
    ((add_isrc_all st_unreadable [mk_inode 1]).dupblock
        st_unreadable.sbi.index_dupblock).isources 0 = 0 ∧
    ((add_isrc_all st_unreadable [mk_inode 1]).dupblock
        st_unreadable.sbi.index_dupblock).isources 0
      ≠ min (first_occurrences ([mk_inode 1].map inode.i_ino)).length 511 :=
  ⟨fun _ => rfl, fun _ => rfl, by decide, by decide, by decide, by decide, by decide⟩

/-- C10 (amended): provided the candidate block can be read (otherwise a call returns
`-EIO` and records nothing), starting from a zeroed candidate block and an empty
`isrc_bitmap`, after `dupblock_add_isrc` has been called on any sequence of inodes (with
32-bit inode numbers) containing `n` distinct inode numbers, `sources[0] = min(n, 511)` and
slots `1 .. min(n, 511)` hold the first `min(n, 511)` distinct inode numbers in order of
first occurrence; once `sources[0] = 511` a further call leaves every candidate block
unchanged and returns 0.  The same holds for `dupblock_add_idup` with `iduplicated` and
`idup_bitmap`. -/
theorem candidate_list_cap (st : FsState) (inos : List inode)
    (hread : st.bread_ok st.sbi.index_dupblock = true)
    (hu : ∀ ino, ino ∈ inos → ino.i_ino < 2 ^ 32) :
    ((∀ x, st.sbi.isrc_bitmap x = false) →
      (∀ k, (st.dupblock st.sbi.index_dupblock).isources k = 0) →
      ((add_isrc_all st inos).dupblock st.sbi.index_dupblock).isources 0
        = min (first_occurrences (inos.map inode.i_ino)).length 511 ∧
      ∀ i, i < min (first_occurrences (inos.map inode.i_ino)).length 511 →
        ((add_isrc_all st inos).dupblock st.sbi.index_dupblock).isources (i + 1)
          = (first_occurrences (inos.map inode.i_ino)).getD i 0) ∧
    ((∀ x, st.sbi.idup_bitmap x = false) →
      (∀ k, (st.dupblock st.sbi.index_dupblock).iduplicated k = 0) →
      ((add_idup_all st inos).dupblock st.sbi.index_dupblock).iduplicated 0
        = min (first_occurrences (inos.map inode.i_ino)).length 511 ∧
      ∀ i, i < min (first_occurrences (inos.map inode.i_ino)).length 511 →
        ((add_idup_all st inos).dupblock st.sbi.index_dupblock).iduplicated (i + 1)
          = (first_occurrences (inos.map inode.i_ino)).getD i 0) ∧
    (∀ ino, (st.dupblock st.sbi.index_dupblock).isources 0 = 511 →
      (dupblock_add_isrc st ino).1 = 0 ∧ (dupblock_add_isrc st ino).2.dupblock = st.dupblock) ∧
    (∀ ino, (st.dupblock st.sbi.index_dupblock).iduplicated 0 = 511 →
      (dupblock_add_idup st ino).1 = 0 ∧
      (dupblock_add_idup st ino).2.dupblock = st.dupblock) := by
  refine ⟨fun hbm hz => ?_, fun hbm hz => ?_, fun ino h => dupblock_add_isrc_full st ino hread h,
    fun ino h => dupblock_add_idup_full st ino hread h⟩
  · have h0 : registry_inv st.sbi.isrc_bitmap (st.dupblock st.sbi.index_dupblock).isources
        [] [] := by
      refine ⟨fun x => ?_, fun x => Iff.rfl, ?_, fun i hi => ?_⟩
      · simp [hbm x]
      · simpa using hz 0
      · simp at hi
    have h := add_isrc_all_inv inos st [] [] hread hu h0
    exact ⟨h.2.2.1, h.2.2.2⟩
  · have h0 : registry_inv st.sbi.idup_bitmap (st.dupblock st.sbi.index_dupblock).iduplicated
        [] [] := by
      refine ⟨fun x => ?_, fun x => Iff.rfl, ?_, fun i hi => ?_⟩
      · simp [hbm x]
      · simpa using hz 0
      · simp at hi
    have h := add_idup_all_inv inos st [] [] hread hu h0
    exact ⟨h.2.2.1, h.2.2.2⟩

theorem candidate_list_cap_witness :
    st0.bread_ok st0.sbi.index_dupblock = true ∧
    (∀ ino, ino ∈ [mk_inode 3, mk_inode 5, mk_inode 3] → ino.i_ino < 2 ^ 32) ∧
    (∀ x, st0.sbi.isrc_bitmap x = false) ∧
    (∀ k, (st0.dupblock st0.sbi.index_dupblock).isources k = 0) ∧
    first_occurrences ([mk_inode 3, mk_inode 5, mk_inode 3].map inode.i_ino) = [3, 5] ∧
    ((add_isrc_all st0 [mk_inode 3, mk_inode 5, mk_inode 3]).dupblock
        st0.sbi.index_dupblock).isources 0
      = min (first_occurrences
          ([mk_inode 3, mk_inode 5, mk_inode 3].map inode.i_ino)).length 511 :=
  ⟨rfl, by decide, fun _ => rfl, fun _ => rfl, by decide,
   ((candidate_list_cap st0 [mk_inode 3, mk_inode 5, mk_inode 3] rfl (by decide)).1
      (fun _ => rfl) (fun _ => rfl)).1⟩

/-! ## Frame properties of the inner loop of `deduplicate_file` -/

theorem dedup_inner_data (A : Allocator) (sib dib i sbh_b len : Nat) :
    ∀ (n j : Nat) (st : FsState) (c : Int),
      (dedup_inner A sib dib i sbh_b len n j st c).st.data = st.data := by
  intro n
  induction n with
  | zero => intro j st c; rw [dedup_inner_zero]
  | succ n ih =>
    intro j st c
    rw [dedup_inner_succ]
    split_ifs
    · exact ih _ _ _
    · rw [ih, dedup_collapsed_data]
    · exact ih _ _ _
    · rfl

theorem dedup_inner_bread (A : Allocator) (sib dib i sbh_b len : Nat) :
    ∀ (n j : Nat) (st : FsState) (c : Int),
      (dedup_inner A sib dib i sbh_b len n j st c).st.bread_ok = st.bread_ok := by
  intro n
  induction n with
  | zero => intro j st c; rw [dedup_inner_zero]
  | succ n ih =>
    intro j st c
    rw [dedup_inner_succ]
    split_ifs
    · exact ih _ _ _
    · rw [ih, dedup_collapsed_bread]
    · exact ih _ _ _
    · rfl

theorem dedup_inner_layout (A : Allocator) (sib dib i sbh_b len : Nat) :
    ∀ (n j : Nat) (st : FsState) (c : Int),
      same_layout (dedup_inner A sib dib i sbh_b len n j st c).st.sbi st.sbi := by
  intro n
  induction n with
  | zero => intro j st c; rw [dedup_inner_zero]; exact same_layout_refl _
  | succ n ih =>
    intro j st c
    rw [dedup_inner_succ]
    split_ifs
    · exact ih _ _ _
    · exact same_layout_trans (ih _ _ _) (dedup_collapsed_layout A st dib j _ _)
    · exact ih _ _ _
    · exact same_layout_refl _

/-- The inner loop writes only entries `j .. j + n - 1` of the index block `dib`. -/
theorem dedup_inner_index_frame (A : Allocator) (sib dib i sbh_b len : Nat) :
    ∀ (n j : Nat) (st : FsState) (c : Int) (ib m : Nat), (ib ≠ dib ∨ m < j ∨ j + n ≤ m) →
      (dedup_inner A sib dib i sbh_b len n j st c).st.index ib m = st.index ib m := by
  intro n
  induction n with
  | zero => intro j st c ib m _; rw [dedup_inner_zero]
  | succ n ih =>
    intro j st c ib m hm
    rw [dedup_inner_succ]
    split_ifs
    · exact ih _ _ _ ib m (by omega)
    · rw [ih _ _ _ ib m (by omega), dedup_collapsed_index, upd2_other]
      intro h
      omega
    · exact ih _ _ _ ib m (by omega)
    · rfl

theorem dedup_inner_count (A : Allocator) (sib dib i sbh_b len : Nat) :
    ∀ (n j : Nat) (st : FsState) (c : Int),
      c ≤ (dedup_inner A sib dib i sbh_b len n j st c).count := by
  intro n
  induction n with
  | zero => intro j st c; rw [dedup_inner_zero]
  | succ n ih =>
    intro j st c
    rw [dedup_inner_succ]
    split_ifs
    · exact ih _ _ _
    · have := ih (j + 1) (dedup_collapsed A st dib j (st.index sib i) (st.index dib j)) (c + 1)
      omega
    · exact ih _ _ _
    · exact le_refl c

/-- With all reads succeeding the inner loop runs to completion. -/
theorem dedup_inner_ok (A : Allocator) (sib dib i sbh_b len : Nat) :
    ∀ (n j : Nat) (st : FsState) (c : Int), (∀ b, st.bread_ok b = true) →
      (dedup_inner A sib dib i sbh_b len n j st c).ok = true := by
  intro n
  induction n with
  | zero => intro j st c _; rw [dedup_inner_zero]
  | succ n ih =>
    intro j st c hr
    rw [dedup_inner_succ]
    split_ifs with h1 h2 h3
    · exact ih _ _ _ hr
    · exact ih _ _ _ (fun b => by rw [dedup_collapsed_bread]; exact hr b)
    · exact ih _ _ _ hr
    · exact absurd (hr _) h2

/-- Each entry of `dib` is, after the inner loop for source entry `i`, either what it was or
the block of source entry `i`; the entries in range whose block differs from the source
block and agrees with the compared buffer on `len` bytes are rewritten when the loop
completes. -/
theorem dedup_inner_entry (A : Allocator) (sib dib i sbh_b len : Nat) (hne : sib ≠ dib) :
    ∀ (n j : Nat) (st : FsState) (c : Int),
      (∀ m, (dedup_inner A sib dib i sbh_b len n j st c).st.index dib m = st.index dib m ∨
        (dedup_inner A sib dib i sbh_b len n j st c).st.index dib m = st.index sib i) ∧
      ((dedup_inner A sib dib i sbh_b len n j st c).ok = true →
        ∀ m, j ≤ m → m < j + n → st.index dib m ≠ st.index sib i →
          memcmp_eq (st.data sbh_b) (st.data (st.index dib m)) len = true →
          (dedup_inner A sib dib i sbh_b len n j st c).st.index dib m = st.index sib i) := by
  intro n
  induction n with
  | zero =>
    intro j st c
    rw [dedup_inner_zero]
    exact ⟨fun m => Or.inl rfl, fun _ m h1 h2 => by omega⟩
  | succ n ih =>
    intro j st c
    have hfr := dedup_inner_index_frame A sib dib i sbh_b len n (j + 1)
    rw [dedup_inner_succ]
    split_ifs with h1 h2 h3
    · refine ⟨(ih (j + 1) st c).1, fun hok m hm1 hm2 hd hc => ?_⟩
      by_cases hmj : m = j
      · subst hmj
        exact absurd h1.symm hd
      · exact (ih (j + 1) st c).2 hok m (by omega) (by omega) hd hc
    · have hcs : ∀ m, (dedup_collapsed A st dib j (st.index sib i) (st.index dib j)).index
          sib m = st.index sib m := by
        intro m
        rw [dedup_collapsed_index, upd2_other _ _ _ _ _ _ (fun h => hne h.1)]
      have hcd : ∀ m, m ≠ j →
          (dedup_collapsed A st dib j (st.index sib i) (st.index dib j)).index dib m
            = st.index dib m := by
        intro m hm
        rw [dedup_collapsed_index, upd2_other _ _ _ _ _ _ (fun h => hm h.2)]
      have hcj : (dedup_collapsed A st dib j (st.index sib i) (st.index dib j)).index dib j
          = st.index sib i := by
        rw [dedup_collapsed_index, upd2_same]
      have hih := ih (j + 1) (dedup_collapsed A st dib j (st.index sib i) (st.index dib j))
        (c + 1)
      rw [hcs i] at hih
      refine ⟨fun m => ?_, fun hok m hm1 hm2 hd hc => ?_⟩
      · by_cases hmj : m = j
        · subst hmj
          right
          rw [hfr _ _ dib m (by omega), hcj]
        · have := hih.1 m
          rw [hcd m hmj] at this
          exact this
      · by_cases hmj : m = j
        · subst hmj
          rw [hfr _ _ dib m (by omega), hcj]
        · have := hih.2 hok m (by omega) (by omega)
          rw [hcd m hmj, dedup_collapsed_data] at this
          exact this hd hc
    · refine ⟨(ih (j + 1) st c).1, fun hok m hm1 hm2 hd hc => ?_⟩
      by_cases hmj : m = j
      · subst hmj
        exact absurd hc h3
      · exact (ih (j + 1) st c).2 hok m (by omega) (by omega) hd hc
    · exact ⟨fun m => Or.inl rfl, fun hok => by simp at hok⟩

/-! ## Counting entries -/

theorem count_below_congr (p q : Nat → Bool) :
    ∀ n, (∀ m, m < n → p m = q m) → count_below p n = count_below q n := by
  intro n
  induction n with
  | zero => intro _; rfl
  | succ n ih =>
    intro h
    rw [count_below, count_below, ih (fun m hm => h m (by omega)), h n (by omega)]

/-- Changing the predicate at one point `j < n` changes the count by the difference at
that point. -/
theorem count_below_update (p q : Nat → Bool) (j : Nat) :
    ∀ n, j < n → (∀ m, m < n → m ≠ j → p m = q m) →
      count_below p n + (if q j then 1 else 0) = count_below q n + (if p j then 1 else 0) := by
  intro n
  induction n with
  | zero => intro h; omega
  | succ n ih =>
    intro hj h
    rw [count_below, count_below]
    by_cases hjn : j = n
    · subst hjn
      rw [count_below_congr p q j (fun m hm => h m (by omega) (by omega))]
      omega
    · have := ih (by omega) (fun m hm hmj => h m (by omega) hmj)
      rw [h n (by omega) (fun h => hjn h.symm)]
      omega

theorem count_below_le (p : Nat → Bool) : ∀ n, count_below p n ≤ n := by
  intro n
  induction n with
  | zero => exact le_refl 0
  | succ n ih =>
    rw [count_below]
    split_ifs <;> omega

theorem count_below_all (p : Nat → Bool) :
    ∀ n, (∀ m, m < n → p m = true) → count_below p n = n := by
  intro n
  induction n with
  | zero => intro _; rfl
  | succ n ih =>
    intro h
    rw [count_below, ih (fun m hm => h m (by omega)), h n (by omega)]
    rfl

theorem count_below_none (p : Nat → Bool) :
    ∀ n, (∀ m, m < n → p m = false) → count_below p n = 0 := by
  intro n
  induction n with
  | zero => intro _; rfl
  | succ n ih =>
    intro h
    rw [count_below, ih (fun m hm => h m (by omega)), h n (by omega)]
    rfl

theorem count_below_pos (p : Nat → Bool) (j : Nat) :
    ∀ n, j < n → p j = true → 1 ≤ count_below p n := by
  intro n
  induction n with
  | zero => intro h; omega
  | succ n ih =>
    intro hj hp
    rw [count_below]
    by_cases hjn : j = n
    · subst hjn
      rw [hp]
      simp
    · have := ih (by omega) hp
      omega

/-! ## C8: complete collapse of a file onto an identical one -/

/-- Collapses are counted: the counter plus the number of entries of `dib` that still hold
their original block `D m` never decreases. -/
theorem dedup_inner_potential (A : Allocator) (sib dib i sbh_b len : Nat) (D : Nat → Nat)
    (nb : Nat) :
    ∀ (n j : Nat) (st : FsState) (c K : Int), j + n ≤ nb →
      K ≤ c + count_below (fun m => decide (st.index dib m = D m)) nb →
      K ≤ (dedup_inner A sib dib i sbh_b len n j st c).count +
        count_below (fun m => decide
          ((dedup_inner A sib dib i sbh_b len n j st c).st.index dib m = D m)) nb := by
  intro n
  induction n with
  | zero => intro j st c K _ h; rw [dedup_inner_zero]; exact h
  | succ n ih =>
    intro j st c K hj h
    rw [dedup_inner_succ]
    split_ifs
    · exact ih _ _ _ K (by omega) h
    · refine ih _ _ _ K (by omega) ?_
      have hupd := count_below_update
        (fun m => decide (st.index dib m = D m))
        (fun m => decide ((dedup_collapsed A st dib j (st.index sib i)
          (st.index dib j)).index dib m = D m)) j nb (by omega)
        (fun m _ hmj => by
          simp only [dedup_collapsed_index]
          rw [upd2_other _ _ _ _ _ _ (fun h => hmj h.2)])
      simp only [] at hupd
      have h1 : (if decide (st.index dib j = D j) = true then 1 else 0) ≤ 1 := by
        split_ifs <;> omega
      have h2 : count_below (fun m => decide (st.index dib m = D m)) nb ≤
          count_below (fun m => decide ((dedup_collapsed A st dib j (st.index sib i)
            (st.index dib j)).index dib m = D m)) nb + 1 := by
        omega
      omega
    · exact ih _ _ _ K (by omega) h
    · exact h

theorem dedup_outer_potential (A : Allocator) (src dup : inode) (D : Nat → Nat) :
    ∀ (n i len : Nat) (st : FsState) (c K : Int),
      K ≤ c + count_below (fun m => decide (st.index dup.index_block m = D m))
        (nr_data_entries dup) →
      K ≤ (dedup_outer A src dup n i len st c).count +
        count_below (fun m => decide
          ((dedup_outer A src dup n i len st c).st.index dup.index_block m = D m))
          (nr_data_entries dup) := by
  intro n
  induction n with
  | zero => intro i len st c K h; rw [dedup_outer_zero]; exact h
  | succ n ih =>
    intro i len st c K h
    have hin := dedup_inner_potential A src.index_block dup.index_block i
      (st.index src.index_block i)
      (compare_len src i len)
      D (nr_data_entries dup) (nr_data_entries dup) 0 st c K (by omega) h
    rw [dedup_outer_succ]
    split_ifs
    · exact ih _ _ _ _ K hin
    · exact hin
    · exact h

/-- Frame of the outer loop: data, readability, and every index block but that of `dup`. -/
theorem dedup_outer_frame (A : Allocator) (src dup : inode) :
    ∀ (n i len : Nat) (st : FsState) (c : Int),
      (dedup_outer A src dup n i len st c).st.data = st.data ∧
      (dedup_outer A src dup n i len st c).st.bread_ok = st.bread_ok ∧
      same_layout (dedup_outer A src dup n i len st c).st.sbi st.sbi ∧
      (∀ ib m, (ib ≠ dup.index_block ∨ nr_data_entries dup ≤ m) →
        (dedup_outer A src dup n i len st c).st.index ib m = st.index ib m) ∧
      c ≤ (dedup_outer A src dup n i len st c).count := by
  intro n
  induction n with
  | zero =>
    intro i len st c
    rw [dedup_outer_zero]
    exact ⟨rfl, rfl, same_layout_refl _, fun _ _ _ => rfl, le_refl c⟩
  | succ n ih =>
    intro i len st c
    have hd := dedup_inner_data A src.index_block dup.index_block i
      (st.index src.index_block i)
      (compare_len src i len)
      (nr_data_entries dup) 0 st c
    have hb := dedup_inner_bread A src.index_block dup.index_block i
      (st.index src.index_block i)
      (compare_len src i len)
      (nr_data_entries dup) 0 st c
    have hl := dedup_inner_layout A src.index_block dup.index_block i
      (st.index src.index_block i)
      (compare_len src i len)
      (nr_data_entries dup) 0 st c
    have hf := dedup_inner_index_frame A src.index_block dup.index_block i
      (st.index src.index_block i)
      (compare_len src i len)
      (nr_data_entries dup) 0 st c
    have hc := dedup_inner_count A src.index_block dup.index_block i
      (st.index src.index_block i)
      (compare_len src i len)
      (nr_data_entries dup) 0 st c
    have hf1 : ∀ ib m, (ib ≠ dup.index_block ∨ nr_data_entries dup ≤ m) →
        (dedup_inner A src.index_block dup.index_block i (st.index src.index_block i)
          (compare_len src i len) (nr_data_entries dup) 0 st c).st.index ib m = st.index ib m := by
      intro ib m hm
      exact hf ib m (by omega)
    rw [dedup_outer_succ]
    split_ifs
    · obtain ⟨i1, i2, i3, i4, i5⟩ := ih (i + 1)
        (compare_len src i len)
        (dedup_inner A src.index_block dup.index_block i (st.index src.index_block i)
          (compare_len src i len) (nr_data_entries dup) 0 st c).st
        (dedup_inner A src.index_block dup.index_block i (st.index src.index_block i)
          (compare_len src i len) (nr_data_entries dup) 0 st c).count
      refine ⟨i1.trans hd, i2.trans hb, same_layout_trans i3 hl, fun ib m hm => ?_,
        le_trans hc i5⟩
      rw [i4 ib m hm, hf1 ib m hm]
    · exact ⟨hd, hb, hl, hf1, hc⟩
    · exact ⟨rfl, rfl, same_layout_refl _, fun _ _ _ => rfl, le_refl c⟩

theorem compare_len_mono (src : inode) (i len : Nat) (h : len ≤ OUICHEFS_BLOCK_SIZE) :
    compare_len src i len ≤ compare_len src i OUICHEFS_BLOCK_SIZE := by
  unfold compare_len
  split_ifs
  · exact le_refl _
  · exact h

/-- When every entry `m` of `dup` originally names a block `D m` that agrees with the block
`S m` of `src` on the compared bytes, and no `D m` is a block of `src`, a completed outer
loop leaves every data entry of `dup` naming a block of `src`. -/
theorem dedup_outer_collapse (A : Allocator) (src dup : inode)
    (hne : src.index_block ≠ dup.index_block) (S D : Nat → Nat) (dat : Nat → Nat → Nat)
    (hdisj : ∀ x m, x < nr_data_entries dup → m < nr_data_entries dup → S x ≠ D m)
    (hbytes : ∀ m, m < nr_data_entries dup →
      ∀ k, k < compare_len src m OUICHEFS_BLOCK_SIZE → dat (S m) k = dat (D m) k) :
    ∀ (n i len : Nat) (st : FsState) (c : Int), i + n = nr_data_entries dup →
      len ≤ OUICHEFS_BLOCK_SIZE → st.data = dat →
      (∀ x, st.index src.index_block x = S x) →
      (∀ m, m < nr_data_entries dup → st.index dup.index_block m = D m ∨
        ∃ x, x < nr_data_entries dup ∧ st.index dup.index_block m = S x) →
      (∀ m, m < i → ∃ x, x < nr_data_entries dup ∧ st.index dup.index_block m = S x) →
      (dedup_outer A src dup n i len st c).ok = true →
      ∀ m, m < nr_data_entries dup → ∃ x, x < nr_data_entries dup ∧
        (dedup_outer A src dup n i len st c).st.index dup.index_block m = S x := by
  intro n
  induction n with
  | zero =>
    intro i len st c hi _ _ _ _ hproc _ m hm
    rw [dedup_outer_zero]
    exact hproc m (by omega)
  | succ n ih =>
    intro i len st c hi hlen hdat hS hinv hproc
    have he := dedup_inner_entry A src.index_block dup.index_block i
      (st.index src.index_block i) (compare_len src i len) hne (nr_data_entries dup) 0 st c
    have hfr := dedup_inner_index_frame A src.index_block dup.index_block i
      (st.index src.index_block i) (compare_len src i len) (nr_data_entries dup) 0 st c
    have hd := dedup_inner_data A src.index_block dup.index_block i
      (st.index src.index_block i) (compare_len src i len) (nr_data_entries dup) 0 st c
    rw [dedup_outer_succ]
    split_ifs with hb hok1
    · refine ih (i + 1) _ _ _ (by omega) (compare_len_le src i len hlen) (hd.trans hdat)
        (fun x => ?_) (fun m hm => ?_) (fun m hm => ?_)
      · rw [hfr _ x (Or.inl hne), hS x]
      · rcases he.1 m with h | h
        · rw [h]; exact hinv m hm
        · right
          exact ⟨i, by omega, by rw [h, hS i]⟩
      · by_cases hmi : m = i
        · subst hmi
          rcases hinv m (by omega) with h | ⟨x, hx, h⟩
          · refine ⟨m, by omega, ?_⟩
            rw [← hS m]
            refine he.2 hok1 m (by omega) (by omega) ?_ ?_
            · rw [h, hS m]
              exact fun h1 => hdisj m m (by omega) (by omega) h1.symm
            · unfold memcmp_eq
              rw [decide_eq_true_iff, hdat, h, hS m]
              intro k hk
              exact hbytes m (by omega) k
                (lt_of_lt_of_le hk (compare_len_mono src m len hlen))
          · rcases he.1 m with h1 | h1
            · exact ⟨x, hx, by rw [h1, h]⟩
            · exact ⟨m, by omega, by rw [h1, hS m]⟩
        · obtain ⟨x, hx, h⟩ := hproc m (by omega)
          rcases he.1 m with h1 | h1
          · exact ⟨x, hx, by rw [h1, h]⟩
          · exact ⟨i, by omega, by rw [h1, hS i]⟩
    · intro hok
      exact absurd hok hok1
    · intro hok
      simp at hok

/-- With all reads succeeding the outer loop runs to completion. -/
theorem dedup_outer_ok (A : Allocator) (src dup : inode) :
    ∀ (n i len : Nat) (st : FsState) (c : Int), (∀ b, st.bread_ok b = true) →
      (dedup_outer A src dup n i len st c).ok = true := by
  intro n
  induction n with
  | zero => intro i len st c _; rw [dedup_outer_zero]
  | succ n ih =>
    intro i len st c hr
    have hok := dedup_inner_ok A src.index_block dup.index_block i
      (st.index src.index_block i) (compare_len src i len) (nr_data_entries dup) 0 st c hr
    have hb := dedup_inner_bread A src.index_block dup.index_block i
      (st.index src.index_block i) (compare_len src i len) (nr_data_entries dup) 0 st c
    rw [dedup_outer_succ]
    split_ifs with h1
    · exact ih _ _ _ _ (fun b => by rw [hb]; exact hr b)
    · exact absurd (hr _) h1

/-- The value returned by `deduplicate_file` is the collapse count when the loops run to
completion and `-EIO` otherwise. -/
theorem dedup_file_ok_of_nonneg (A : Allocator) (st : FsState) (src dup : inode)
    (h : 0 ≤ (deduplicate_file A st src dup).1) :
    (dedup_outer A src dup (nr_data_entries src) 0 OUICHEFS_BLOCK_SIZE st 0).ok = true ∧
    deduplicate_file A st src dup =
      ((dedup_outer A src dup (nr_data_entries src) 0 OUICHEFS_BLOCK_SIZE st 0).count,
       mark_buffer_dirty
         (dedup_outer A src dup (nr_data_entries src) 0 OUICHEFS_BLOCK_SIZE st 0).st
         dup.index_block) := by
  have hneg : ¬ (0 : Int) ≤ - EIO := by decide
  unfold deduplicate_file at h ⊢
  by_cases h1 : st.bread_ok src.index_block = true
  · by_cases h2 : st.bread_ok dup.index_block = true
    · by_cases h3 : (dedup_outer A src dup (nr_data_entries src) 0 OUICHEFS_BLOCK_SIZE st
          0).ok = true
      · simp only [h1, h2, h3, if_true]
        exact ⟨trivial, trivial⟩
      · simp only [h1, h2, h3, if_true, if_false] at h
        exact absurd h hneg
    · simp only [h1, h2, if_true, if_false] at h
      exact absurd h hneg
  · simp only [h1, if_false] at h
    exact absurd h hneg

theorem dedup_file_of_read (A : Allocator) (st : FsState) (src dup : inode)
    (hr : ∀ b, st.bread_ok b = true) :
    deduplicate_file A st src dup =
      ((dedup_outer A src dup (nr_data_entries src) 0 OUICHEFS_BLOCK_SIZE st 0).count,
       mark_buffer_dirty
         (dedup_outer A src dup (nr_data_entries src) 0 OUICHEFS_BLOCK_SIZE st 0).st
         dup.index_block) := by
  unfold deduplicate_file
  rw [if_pos (hr _), if_pos (hr _), if_pos (dedup_outer_ok A src dup _ _ _ st 0 hr)]

/-- C8: for distinct inodes `src` and `dup` of equal size and equal block count, whose
blocks are distinct (no data block of `src` is a data block of `dup`) and such that, for
each logical block `j`, the block `j` of `dup` equals the block `j` of `src` on its
compared bytes (all 4096 bytes, or `size mod 4096` bytes at the logical block
`size / 4096`), a successful `deduplicate_file(src, dup)` collapses every data block of
`dup`: afterwards every data entry of the index of `dup` names a block of `src`, none of the
original blocks of `dup` is still named by a data entry of `dup`, and the returned count is
at least the number of data blocks of `dup`. -/
theorem dedup_complete_collapse (A : Allocator) (st : FsState) (src dup : inode)
    (hne : src.index_block ≠ dup.index_block)
    (hsize : src.i_size = dup.i_size) (hblocks : src.i_blocks = dup.i_blocks)
    (hdisj : ∀ x m, x < nr_data_entries src → m < nr_data_entries dup →
      st.index src.index_block x ≠ st.index dup.index_block m)
    (hbytes : ∀ m, m < nr_data_entries dup →
      ∀ k, k < (if m = dup.i_size / OUICHEFS_BLOCK_SIZE then dup.i_size % OUICHEFS_BLOCK_SIZE
                else OUICHEFS_BLOCK_SIZE) →
        st.data (st.index src.index_block m) k = st.data (st.index dup.index_block m) k)
    (hsucc : 0 ≤ (deduplicate_file A st src dup).1) :
    (∀ m, m < nr_data_entries dup → ∃ x, x < nr_data_entries src ∧
      (deduplicate_file A st src dup).2.index dup.index_block m
        = (deduplicate_file A st src dup).2.index src.index_block x) ∧
    (∀ m m1, m < nr_data_entries dup → m1 < nr_data_entries dup →
      (deduplicate_file A st src dup).2.index dup.index_block m
        ≠ st.index dup.index_block m1) ∧
    (nr_data_entries dup : Int) ≤ (deduplicate_file A st src dup).1 := by
  have hnb : nr_data_entries src = nr_data_entries dup := by
    unfold nr_data_entries
    rw [hblocks]
  obtain ⟨hok, heq⟩ := dedup_file_ok_of_nonneg A st src dup hsucc
  have hfr := (dedup_outer_frame A src dup (nr_data_entries src) 0 OUICHEFS_BLOCK_SIZE st
    0).2.2.2.1
  have hcol := dedup_outer_collapse A src dup hne (st.index src.index_block)
    (st.index dup.index_block) st.data (fun x m hx hm => hdisj x m (by omega) hm)
    (fun m hm k hk => hbytes m hm k (by
      by_cases hmq : m = dup.i_size / OUICHEFS_BLOCK_SIZE
      · rw [if_pos hmq]
        unfold compare_len dedup_last at hk
        rw [hsize, ← hmq, if_pos rfl] at hk
        exact hk
      · rw [if_neg hmq]
        exact lt_of_lt_of_le hk (compare_len_le src m _ (le_refl _))))
    (nr_data_entries src) 0 OUICHEFS_BLOCK_SIZE st 0 (by omega) (le_refl _) rfl
    (fun _ => rfl) (fun m _ => Or.inl rfl) (fun m hm => by omega) hok
  have hpot := dedup_outer_potential A src dup (st.index dup.index_block)
    (nr_data_entries src) 0 OUICHEFS_BLOCK_SIZE st 0 (nr_data_entries dup) (by
      rw [count_below_all _ _ (fun m _ => by simp)]
      omega)
  rw [count_below_none _ _ (fun m hm => by
    obtain ⟨x, hx, h⟩ := hcol m hm
    rw [h]
    exact decide_eq_false (hdisj x m (by omega) hm))] at hpot
  rw [heq]
  refine ⟨fun m hm => ?_, fun m m1 hm hm1 => ?_, ?_⟩
  · obtain ⟨x, hx, h⟩ := hcol m hm
    refine ⟨x, by omega, ?_⟩
    show (dedup_outer A src dup _ 0 _ st 0).st.index dup.index_block m
      = (dedup_outer A src dup _ 0 _ st 0).st.index src.index_block x
    rw [h, hfr _ x (Or.inl hne)]
  · obtain ⟨x, hx, h⟩ := hcol m hm
    show (dedup_outer A src dup _ 0 _ st 0).st.index dup.index_block m ≠ _
    rw [h]
    exact hdisj x m1 (by omega) hm1
  · show (nr_data_entries dup : Int) ≤ (dedup_outer A src dup _ 0 _ st 0).count
    simpa using hpot

/-- With all reads succeeding `deduplicate_file` succeeds. -/
theorem dedup_file_nonneg_of_read (A : Allocator) (st : FsState) (src dup : inode)
    (hr : ∀ b, st.bread_ok b = true) : 0 ≤ (deduplicate_file A st src dup).1 := by
  rw [dedup_file_of_read A st src dup hr]
  exact (dedup_outer_frame A src dup (nr_data_entries src) 0 OUICHEFS_BLOCK_SIZE st
    0).2.2.2.2

theorem dedup_complete_collapse_witness :
    ino_4097_src.index_block ≠ ino_4097_dup.index_block ∧
    ino_4097_src.i_size = ino_4097_dup.i_size ∧
    ino_4097_src.i_blocks = ino_4097_dup.i_blocks ∧
    nr_data_entries ino_4097_dup = 2 ∧
    (2 : Int) ≤ (deduplicate_file (bitmap_allocator 64) st_4097 ino_4097_src ino_4097_dup).1 := by
  have h2 : nr_data_entries ino_4097_dup = 2 := by decide
  have h2s : nr_data_entries ino_4097_src = 2 := by decide
  have hsucc : 0 ≤ (deduplicate_file (bitmap_allocator 64) st_4097 ino_4097_src
      ino_4097_dup).1 :=
    dedup_file_nonneg_of_read (bitmap_allocator 64) st_4097 ino_4097_src ino_4097_dup
      (fun _ => rfl)
  have h := (dedup_complete_collapse (bitmap_allocator 64) st_4097 ino_4097_src ino_4097_dup
    (by decide) rfl rfl
    (fun x m hx hm => by
      rw [h2s] at hx
      rw [h2] at hm
      interval_cases x <;> interval_cases m <;> decide)
    (fun m hm k hk => by
      rw [h2] at hm
      interval_cases m
      · rfl
      · have hk1 : k < 1 := hk
        interval_cases k
        decide)
    hsucc).2.2
  rw [h2] at h
  exact ⟨by decide, rfl, rfl, h2, h⟩

/-! ## C7: running out of blocks in the middle of `ouichefs_cow` -/

theorem neg_EIO_ne_zero : (- EIO : Int) ≠ 0 := by decide

theorem neg_ENOSPC_ne_zero : (- ENOSPC : Int) ≠ 0 := by decide

theorem cow_loop_bread (A : Allocator) (ib : Nat) :
    ∀ (n vb : Nat) (st : FsState),
      (cow_loop A ib n vb st).2.1.bread_ok = st.bread_ok := by
  intro n
  induction n with
  | zero => intro vb st; rw [cow_loop_zero]
  | succ n ih =>
    intro vb st
    rw [cow_loop_succ]
    split_ifs
    · exact ih _ _
    · rfl
    · show (cow_loop A ib n (vb + 1) _).2.1.bread_ok = st.bread_ok
      rw [ih, cow_copied_bread]
    · show (ouichefs_link_block (set_free st _) _).2.bread_ok = st.bread_ok
      rw [link_bread]; rfl
    · show (ouichefs_link_block (set_free st _) _).2.bread_ok = st.bread_ok
      rw [link_bread]; rfl
    · rfl

/-- A loop of `m + p` iterations whose first `m` iterations succeed is the loop of `m`
iterations followed by the loop of `p` iterations. -/
theorem cow_loop_append (A : Allocator) (ib : Nat) :
    ∀ (m p k : Nat) (st : FsState), (cow_loop A ib m k st).1 = 0 →
      cow_loop A ib (m + p) k st =
        ((cow_loop A ib p (k + m) (cow_loop A ib m k st).2.1).1,
         (cow_loop A ib p (k + m) (cow_loop A ib m k st).2.1).2.1,
         (cow_loop A ib m k st).2.2 ++
           (cow_loop A ib p (k + m) (cow_loop A ib m k st).2.1).2.2) := by
  intro m
  induction m with
  | zero =>
    intro p k st _
    rw [cow_loop_zero]
    simp
  | succ m ih =>
    intro p k st
    have hmp : m + 1 + p = (m + p) + 1 := by omega
    have hk : k + (m + 1) = k + 1 + m := by omega
    rw [hmp, cow_loop_succ A ib (m + p), cow_loop_succ A ib m, hk]
    split_ifs
    · intro h
      exact ih p (k + 1) st h
    · intro h
      exact absurd h neg_ENOSPC_ne_zero
    · intro h
      have h1 : (cow_loop A ib m (k + 1) (cow_copied A st ib k
          (A.get_free_block st.sbi.free).1 (A.get_free_block st.sbi.free).2)).1 = 0 := h
      rw [ih p (k + 1) _ h1]
      rfl
    · intro h
      exact absurd h neg_EIO_ne_zero
    · intro h
      exact absurd h neg_EIO_ne_zero
    · intro h
      exact absurd h neg_EIO_ne_zero

/-- Effect of a successful run of the loop over entries `k .. k + m - 1` that name pairwise
distinct blocks, when every block handed out is fresh (refcount 0, named by none of these
entries) and the blocks handed out are pairwise distinct: every entry whose block was
shared is replaced by a block handed out, whose refcount becomes 1, and the refcount of
its old block drops by one; the refcount of every other block is unchanged. -/
theorem cow_loop_replaces (A : Allocator) (ib : Nat) :
    ∀ (m k : Nat) (st : FsState), (∀ b, st.bread_ok b = true) →
      (∀ j, k ≤ j → j < k + m → st.index ib j < 2 ^ 32) →
      (∀ i j, k ≤ i → i < j → j < k + m → st.index ib i ≠ st.index ib j) →
      (cow_loop A ib m k st).1 = 0 →
      (∀ b, b ∈ (cow_loop A ib m k st).2.2 → b < 2 ^ 32 ∧ refcount st b = 0 ∧
        ∀ j, k ≤ j → j < k + m → st.index ib j ≠ b) →
      (cow_loop A ib m k st).2.2.Nodup →
      (∀ j, k ≤ j → j < k + m → 2 ≤ refcount st (st.index ib j) →
        (cow_loop A ib m k st).2.1.index ib j ∈ (cow_loop A ib m k st).2.2 ∧
        refcount (cow_loop A ib m k st).2.1 ((cow_loop A ib m k st).2.1.index ib j) = 1 ∧
        refcount (cow_loop A ib m k st).2.1 (st.index ib j)
          = refcount st (st.index ib j) - 1) ∧
      (∀ b, b < 2 ^ 32 → b ∉ (cow_loop A ib m k st).2.2 →
        (∀ j, k ≤ j → j < k + m → st.index ib j ≠ b) →
        refcount (cow_loop A ib m k st).2.1 b = refcount st b) := by
  intro m
  induction m with
  | zero =>
    intro k st _ _ _ _ _ _
    rw [cow_loop_zero]
    exact ⟨fun j h1 h2 => by omega, fun b _ _ _ => rfl⟩
  | succ m ih =>
    intro k st hread hu hdist
    have hold_u : st.index ib k < 2 ^ 32 := hu k (le_refl k) (by omega)
    rw [cow_loop_succ]
    generalize A.get_free_block st.sbi.free = g
    split_ifs with h0 h1 h2 h3 h4
    · intro hsucc hfresh hnodup
      obtain ⟨ia, ib1⟩ := ih (k + 1) st hread (fun j hj1 hj2 => hu j (by omega) (by omega))
        (fun i j hi hij hj => hdist i j (by omega) hij (by omega)) hsucc
        (fun b hb => ⟨(hfresh b hb).1, (hfresh b hb).2.1,
          fun j hj1 hj2 => (hfresh b hb).2.2 j (by omega) (by omega)⟩) hnodup
      refine ⟨fun j hj1 hj2 hsh => ?_, fun b hb hnb hne => ?_⟩
      · by_cases hjk : j = k
        · subst hjk
          omega
        · exact ia j (by omega) (by omega) hsh
      · exact ib1 b hb hnb (fun j hj1 hj2 => hne j (by omega) (by omega))
    · intro hsucc
      exact absurd hsucc neg_ENOSPC_ne_zero
    · intro hsucc hfresh hnodup
      dsimp only at hsucc hfresh hnodup ⊢
      have hnew := hfresh g.1 (List.mem_cons_self _ _)
      have hnd := List.nodup_cons.1 hnodup
      have hno : ¬ same_record st.sbi g.1 (st.index ib k) := fun h =>
        hnew.2.2 k (le_refl k) (by omega) (same_record_u32 st.sbi hnew.1 hold_u h).symm
      have hidx6 : ∀ j, j ≠ k → (cow_copied A st ib k g.1 g.2).index ib j = st.index ib j := by
        intro j hj
        rw [cow_copied_index, upd2_other _ _ _ _ _ _ (fun h => hj h.2)]
      have href6 : ∀ b, b < 2 ^ 32 → b ≠ g.1 → b ≠ st.index ib k →
          refcount (cow_copied A st ib k g.1 g.2) b = refcount st b := by
        intro b hb hb1 hb2
        exact cow_copied_refcount_other A st ib k g.1 g.2 b
          (fun h => hb1 (same_record_u32 st.sbi hb hnew.1 h))
          (fun h => hb2 (same_record_u32 st.sbi hb hold_u h))
      have hrest_ne : ∀ b, b ∈ (cow_loop A ib m (k + 1) (cow_copied A st ib k g.1 g.2)).2.2 →
          b ≠ g.1 := fun b hb h => hnd.1 (h ▸ hb)
      obtain ⟨ia, ib1⟩ := ih (k + 1) (cow_copied A st ib k g.1 g.2)
        (fun b => by rw [cow_copied_bread]; exact hread b)
        (fun j hj1 hj2 => by rw [hidx6 j (by omega)]; exact hu j (by omega) (by omega))
        (fun i j hi hij hj => by
          rw [hidx6 i (by omega), hidx6 j (by omega)]
          exact hdist i j (by omega) hij (by omega))
        hsucc
        (fun b hb => by
          have hb1 := hfresh b (List.mem_cons_of_mem _ hb)
          refine ⟨hb1.1, ?_, fun j hj1 hj2 => ?_⟩
          · rw [href6 b hb1.1 (hrest_ne b hb) (fun h => hb1.2.2 k (le_refl k) (by omega) h.symm)]
            exact hb1.2.1
          · rw [hidx6 j (by omega)]
            exact hb1.2.2 j (by omega) (by omega))
        hnd.2
      have hfk := cow_loop_index_frame A ib m (k + 1) (cow_copied A st ib k g.1 g.2) ib k
        (by omega)
      have hk6 : (cow_copied A st ib k g.1 g.2).index ib k = g.1 := by
        rw [cow_copied_index, upd2_same]
      refine ⟨fun j hj1 hj2 hsh => ?_, fun b hb hnb hne => ?_⟩
      · by_cases hjk : j = k
        · subst hjk
          rw [hfk, hk6]
          refine ⟨List.mem_cons_self _ _, ?_, ?_⟩
          · rw [ib1 g.1 hnew.1 hnd.1 (fun i hi1 hi2 => by
              rw [hidx6 i (by omega)]
              exact hnew.2.2 i (by omega) (by omega)),
              cow_copied_refcount_new A st ib j g.1 g.2 (hread _) hno, hnew.2.1]
            rfl
          · rw [ib1 (st.index ib j) hold_u
              (fun h => (hfresh _ (List.mem_cons_of_mem _ h)).2.2 j (le_refl j) (by omega) rfl)
              (fun i hi1 hi2 => by
                rw [hidx6 i (by omega)]
                exact fun h => hdist j i (le_refl j) (by omega) (by omega) h.symm),
              cow_copied_refcount_old A st ib j g.1 g.2 (hread _)
                (fun h => hno (same_record_symm h))]
        · have hju : st.index ib j < 2 ^ 32 := hu j hj1 hj2
          have hjr : refcount (cow_copied A st ib k g.1 g.2) (st.index ib j)
              = refcount st (st.index ib j) :=
            href6 _ hju (hnew.2.2 j hj1 hj2)
              (fun h => hdist k j (le_refl k) (by omega) hj2 h.symm)
          have := ia j (by omega) (by omega) (by rw [hidx6 j hjk, hjr]; exact hsh)
          rw [hidx6 j hjk, hjr] at this
          exact ⟨List.mem_cons_of_mem _ this.1, this.2.1, this.2.2⟩
      · simp only [List.mem_cons, not_or] at hnb
        rw [ib1 b hb hnb.2 (fun j hj1 hj2 => by
          rw [hidx6 j (by omega)]
          exact hne j (by omega) (by omega))]
        exact href6 b hb hnb.1 (fun h => hne k (le_refl k) (by omega) h.symm)
    · intro hsucc
      exact absurd hsucc neg_EIO_ne_zero
    · intro hsucc
      exact absurd hsucc neg_EIO_ne_zero
    · intro hsucc
      exact absurd hsucc neg_EIO_ne_zero

/-- C7 (counterexample to the claim as stated): both entries of the file name block 10,
whose refcount is 3, and one block is free.  `ouichefs_cow(F, 0, 2)` copies entry 0 and
returns `-ENOSPC` at entry 1 (`m = 1`); entry 1 still names block 10, but the refcount of
that block is 2, not 3 as before the call. -/
theorem cow_enospc_refcount_counterexample :
    (∀ b, st_twice.bread_ok b = true) ∧
    (ouichefs_cow (bitmap_allocator 64) st_twice (mk_file 1 20 2 8000) 0 1).1 = 0 ∧
    (ouichefs_cow (bitmap_allocator 64) st_twice (mk_file 1 20 2 8000) 0 2).1 = - ENOSPC ∧
    (ouichefs_cow (bitmap_allocator 64) st_twice (mk_file 1 20 2 8000) 0 2).2.index 20 0 = 11 ∧
    (ouichefs_cow (bitmap_allocator 64) st_twice (mk_file 1 20 2 8000) 0 2).2.index 20 1
      = st_twice.index 20 1 ∧
    refcount st_twice (st_twice.index 20 1) = 3 ∧
    refcount (ouichefs_cow (bitmap_allocator 64) st_twice (mk_file 1 20 2 8000) 0 2).2
      (st_twice.index 20 1) = 2 :=
  ⟨fun _ => rfl, by decide, by decide, by decide, by decide, by decide, by decide⟩

/-- C7 (amended): all block reads succeed, the entries `k .. k + m - 1` name pairwise
distinct blocks, the first `m` iterations succeed with fresh blocks (pairwise distinct,
refcount 0, named by none of these entries), and when the loop reaches entry `k + m`
(`m < n`) that entry is shared (refcount not 1) and the allocator has no block left.  Then
`ouichefs_cow(file, k, n)` returns `-ENOSPC`; every entry in `[k, k + m)` whose block was
shared has been replaced by a fresh block with refcount 1 and the refcount of its old
block is one less; the entries `k + m` and beyond are as before the call, and so is the
refcount of each block they name that is neither named by an entry of `[k, k + m)` nor one
of the fresh blocks. -/
theorem cow_enospc (A : Allocator) (st : FsState) (f : file) (k n m : Nat)
    (hread : ∀ b, st.bread_ok b = true) (hm : m < n)
    (hu : ∀ j, k ≤ j → j < k + m → st.index f.f_inode.index_block j < 2 ^ 32)
    (hdist : ∀ i j, k ≤ i → i < j → j < k + m →
      st.index f.f_inode.index_block i ≠ st.index f.f_inode.index_block j)
    (hfirst : (ouichefs_cow A st f k m).1 = 0)
    (hfresh : ∀ b, b ∈ cow_allocs A st f k m → b < 2 ^ 32 ∧ refcount st b = 0 ∧
      ∀ j, k ≤ j → j < k + m → st.index f.f_inode.index_block j ≠ b)
    (hnodup : (cow_allocs A st f k m).Nodup)
    (hshared : refcount (ouichefs_cow A st f k m).2
      (st.index f.f_inode.index_block (k + m)) ≠ 1)
    (hnone : (A.get_free_block (ouichefs_cow A st f k m).2.sbi.free).1 = 0) :
    (ouichefs_cow A st f k n).1 = - ENOSPC ∧
    (∀ j, k ≤ j → j < k + m → 2 ≤ refcount st (st.index f.f_inode.index_block j) →
      (ouichefs_cow A st f k n).2.index f.f_inode.index_block j ∈ cow_allocs A st f k m ∧
      refcount (ouichefs_cow A st f k n).2
        ((ouichefs_cow A st f k n).2.index f.f_inode.index_block j) = 1 ∧
      refcount (ouichefs_cow A st f k n).2 (st.index f.f_inode.index_block j)
        = refcount st (st.index f.f_inode.index_block j) - 1) ∧
    (∀ j, k + m ≤ j →
      (ouichefs_cow A st f k n).2.index f.f_inode.index_block j
        = st.index f.f_inode.index_block j) ∧
    (∀ j, k + m ≤ j → st.index f.f_inode.index_block j < 2 ^ 32 →
      st.index f.f_inode.index_block j ∉ cow_allocs A st f k m →
      (∀ i, k ≤ i → i < k + m →
        st.index f.f_inode.index_block i ≠ st.index f.f_inode.index_block j) →
      refcount (ouichefs_cow A st f k n).2 (st.index f.f_inode.index_block j)
        = refcount st (st.index f.f_inode.index_block j)) := by
  unfold cow_allocs at hfresh hnodup ⊢
  unfold ouichefs_cow at hfirst hshared hnone ⊢
  unfold ouichefs_cow_run at *
  simp only [hread, if_true] at hfirst hfresh hnodup hshared hnone ⊢
  obtain ⟨p, rfl⟩ : ∃ p, n = m + (p + 1) := ⟨n - m - 1, by omega⟩
  have hfr := cow_loop_index_frame A f.f_inode.index_block m k st f.f_inode.index_block
  have hstep : cow_loop A f.f_inode.index_block (p + 1) (k + m)
      (cow_loop A f.f_inode.index_block m k st).2.1 =
      (- ENOSPC, set_free (cow_loop A f.f_inode.index_block m k st).2.1
        (A.get_free_block (cow_loop A f.f_inode.index_block m k st).2.1.sbi.free).2, []) := by
    refine cow_loop_nospc A _ p (k + m) _ ?_ ?_ hnone
    · rw [cow_loop_bread]
      exact hread _
    · rw [hfr (k + m) (by omega)]
      exact hshared
  obtain ⟨ha, hb⟩ := cow_loop_replaces A f.f_inode.index_block m k st hread hu hdist hfirst
    hfresh hnodup
  rw [cow_loop_append A _ m (p + 1) k st hfirst, hstep]
  refine ⟨rfl, fun j hj1 hj2 hsh => ?_, fun j hj => ?_, fun j hj hju hja hji => ?_⟩
  · obtain ⟨a1, a2, a3⟩ := ha j hj1 hj2 hsh
    exact ⟨a1, (refcount_set_free _ _ _).trans a2, (refcount_set_free _ _ _).trans a3⟩
  · exact hfr j (by omega)
  · exact (refcount_set_free _ _ _).trans (hb _ hju hja (fun i hi1 hi2 => hji i hi1 hi2))

theorem cow_enospc_witness :
    (∀ b, st_enospc.bread_ok b = true) ∧
    (ouichefs_cow (bitmap_allocator 64) st_enospc (mk_file 1 20 2 8000) 0 1).1 = 0 ∧
    cow_allocs (bitmap_allocator 64) st_enospc (mk_file 1 20 2 8000) 0 1 = [11] ∧
    (ouichefs_cow (bitmap_allocator 64) st_enospc (mk_file 1 20 2 8000) 0 2).1 = - ENOSPC := by
  have hall : cow_allocs (bitmap_allocator 64) st_enospc (mk_file 1 20 2 8000) 0 1 = [11] := by
    decide
  refine ⟨fun _ => rfl, by decide, hall, ?_⟩
  refine (cow_enospc (bitmap_allocator 64) st_enospc (mk_file 1 20 2 8000) 0 2 1
    (fun _ => rfl) (by norm_num) (fun j hj1 hj2 => ?_) (fun i j hi hij hj => by omega)
    (by decide) (fun b hb => ?_) (by rw [hall]; exact List.nodup_singleton _) (by decide)
    (by decide)).1
  · have : j = 0 := by omega
    subst this
    decide
  · rw [hall, List.mem_singleton] at hb
    subst hb
    refine ⟨by norm_num, by decide, fun j hj1 hj2 => ?_⟩
    have : j = 0 := by omega
    subst this
    decide

/-! ## C4: the refcount invariant -/

/-- Writing one data entry `(ib0, j)` moves one reference from the block it named to the
block it now names. -/
theorem block_refs_write (st st1 : FsState) (ib0 j v b : Nat)
    (hidx : st1.index = upd2 st.index ib0 j v) :
    ∀ (inodes : List inode), (inodes.map inode.index_block).Nodup →
      ∀ ino0, ino0 ∈ inodes → ino0.index_block = ib0 → j < nr_data_entries ino0 →
      block_refs st1 inodes b + (if decide (st.index ib0 j = b) = true then 1 else 0)
        = block_refs st inodes b + (if decide (v = b) = true then 1 else 0) := by
  have hsame : ∀ ino : inode, ino.index_block ≠ ib0 → entry_refs st1 ino b = entry_refs st ino b := by
    intro ino hne
    unfold entry_refs
    refine count_below_congr _ _ _ (fun m _ => ?_)
    rw [hidx, upd2_other _ _ _ _ _ _ (fun h => hne h.1)]
  have hall : ∀ (l : List inode), (∀ ino, ino ∈ l → ino.index_block ≠ ib0) →
      block_refs st1 l b = block_refs st l b := by
    intro l
    induction l with
    | nil => intro _; rfl
    | cons a l ih =>
      intro h
      unfold block_refs at ih ⊢
      rw [List.map_cons, List.map_cons, List.sum_cons, List.sum_cons,
        hsame a (h a (List.mem_cons_self _ _)),
        ih (fun ino hi => h ino (List.mem_cons_of_mem _ hi))]
  intro inodes
  induction inodes with
  | nil => intro _ ino0 h0; exact absurd h0 (List.not_mem_nil _)
  | cons a l ih =>
    intro hnd ino0 h0 hib hj
    rw [List.map_cons, List.nodup_cons] at hnd
    have hcons : ∀ s : FsState, block_refs s (a :: l) b = entry_refs s a b + block_refs s l b := by
      intro s
      unfold block_refs
      rw [List.map_cons, List.sum_cons]
    rw [hcons, hcons]
    by_cases ha : a.index_block = ib0
    · have hl : ∀ ino, ino ∈ l → ino.index_block ≠ ib0 := by
        intro ino hi h
        exact hnd.1 (List.mem_map.2 ⟨ino, hi, h.trans ha.symm⟩)
      have hja : j < nr_data_entries a := by
        rcases List.mem_cons.1 h0 with h | h
        · rw [← h]; exact hj
        · exact absurd hib (hl ino0 h)
      rw [hall l hl]
      have e1 : entry_refs st1 a b =
          count_below (fun m => decide (upd2 st.index ib0 j v ib0 m = b))
            (nr_data_entries a) := by
        unfold entry_refs
        rw [ha, hidx]
      have e2 : entry_refs st a b =
          count_below (fun m => decide (st.index ib0 m = b)) (nr_data_entries a) := by
        unfold entry_refs
        rw [ha]
      have hup := count_below_update
        (fun m => decide (upd2 st.index ib0 j v ib0 m = b))
        (fun m => decide (st.index ib0 m = b)) j (nr_data_entries a) hja
        (fun m _ hmj => by
          simp only []
          rw [upd2_other _ _ _ _ _ _ (fun h => hmj h.2)])
      simp only [upd2_same] at hup
      rw [e1, e2]
      omega
    · have h0l : ino0 ∈ l := by
        rcases List.mem_cons.1 h0 with h | h
        · rw [h] at hib; exact absurd hib ha
        · exact h
      have := ih hnd.2 ino0 h0l hib hj
      rw [hsame a ha]
      omega

theorem entry_refs_le (st : FsState) (ino : inode) (b : Nat) :
    entry_refs st ino b ≤ nr_data_entries ino :=
  count_below_le _ _

theorem block_refs_le (st : FsState) (b : Nat) :
    ∀ (inodes : List inode), block_refs st inodes b ≤ (inodes.map nr_data_entries).sum := by
  intro inodes
  induction inodes with
  | nil => exact le_refl 0
  | cons a l ih =>
    unfold block_refs at ih ⊢
    rw [List.map_cons, List.map_cons, List.sum_cons, List.sum_cons]
    have := entry_refs_le st a b
    omega

/-- A referenced block is counted at least once. -/
theorem block_refs_pos (st : FsState) (b : Nat) :
    ∀ (inodes : List inode), referenced st inodes b → 1 ≤ block_refs st inodes b := by
  intro inodes
  induction inodes with
  | nil =>
    rintro ⟨ino, hi, _⟩
    exact absurd hi (List.not_mem_nil _)
  | cons a l ih =>
    rintro ⟨ino, hi, m, hm, he⟩
    unfold block_refs at ih ⊢
    rw [List.map_cons, List.sum_cons]
    rcases List.mem_cons.1 hi with h | h
    · subst h
      have : 1 ≤ entry_refs st ino b :=
        count_below_pos _ m _ hm (by simp [he])
      omega
    · have := ih ⟨ino, h, m, hm, he⟩
      omega

theorem block_refs_zero_not_referenced (st : FsState) (inodes : List inode) (b : Nat)
    (h : block_refs st inodes b = 0) : ¬ referenced st inodes b := by
  intro hr
  have := block_refs_pos st b inodes hr
  omega

theorem upd2_lt (f : Nat → Nat → Nat) (a b v : Nat) (hf : ∀ x y, f x y < 2 ^ 32)
    (hv : v < 2 ^ 32) : ∀ x y, upd2 f a b v x y < 2 ^ 32 := by
  intro x y
  unfold upd2
  split_ifs
  · exact hv
  · exact hf x y

/-- One copy step keeps the refcount of every block equal to its number of references,
when the block handed out is fresh (refcount 0, unreferenced). -/
theorem cow_copied_exact (A : Allocator) (st : FsState) (inodes : List inode) (ino0 : inode)
    (k new : Nat) (fm : FreeMap) (hnd : (inodes.map inode.index_block).Nodup)
    (h0 : ino0 ∈ inodes) (hk : k < nr_data_entries ino0) (hread : ∀ b, st.bread_ok b = true)
    (hold : st.index ino0.index_block k < 2 ^ 32) (hnew : new < 2 ^ 32)
    (hr0 : refcount st new = 0) (hb0 : block_refs st inodes new = 0) :
    ∀ b, b < 2 ^ 32 → refcount_exact st inodes b →
      refcount_exact (cow_copied A st ino0.index_block k new fm) inodes b := by
  intro b hb hex
  unfold refcount_exact at hex ⊢
  have hpos : 1 ≤ block_refs st inodes (st.index ino0.index_block k) :=
    block_refs_pos st _ inodes ⟨ino0, h0, k, hk, rfl⟩
  have hne : st.index ino0.index_block k ≠ new := by
    intro h
    rw [h] at hpos
    omega
  have hno : ¬ same_record st.sbi new (st.index ino0.index_block k) := fun h =>
    hne (same_record_u32 st.sbi hnew hold h).symm
  have hw := block_refs_write st (cow_copied A st ino0.index_block k new fm)
    ino0.index_block k new b (cow_copied_index A st _ k new fm) inodes hnd ino0 h0 rfl hk
  by_cases hbn : b = new
  · subst hbn
    rw [cow_copied_refcount_new A st _ k b fm (hread _) hno, hr0]
    rw [if_neg (by simpa using hne), if_pos (by simp), hb0] at hw
    rw [show u32_inc 0 = 1 from rfl]
    omega
  · by_cases hbo : b = st.index ino0.index_block k
    · subst hbo
      rw [cow_copied_refcount_old A st _ k new fm (hread _)
        (fun h => hno (same_record_symm h)), hex]
      rw [if_pos (by simp), if_neg (by simpa using fun h : new = _ => hbn h.symm)] at hw
      omega
    · rw [cow_copied_refcount_other A st _ k new fm b
        (fun h => hbn (same_record_u32 st.sbi hb hnew h))
        (fun h => hbo (same_record_u32 st.sbi hb hold h)), hex]
      rw [if_neg (by simpa using fun h : _ = b => hbo h.symm),
        if_neg (by simpa using fun h : new = b => hbn h.symm)] at hw
      omega

/-- A successful run of the loop of `ouichefs_cow` over data entries of an inode keeps the
refcount of every block equal to its number of references, when the blocks handed out are
fresh and pairwise distinct. -/
theorem cow_loop_exact (A : Allocator) (inodes : List inode) (ino0 : inode)
    (hnd : (inodes.map inode.index_block).Nodup) (h0 : ino0 ∈ inodes) :
    ∀ (n k : Nat) (st : FsState), k + n ≤ nr_data_entries ino0 →
      (∀ b, st.bread_ok b = true) → (∀ ib m, st.index ib m < 2 ^ 32) →
      (cow_loop A ino0.index_block n k st).1 = 0 →
      (∀ b, b ∈ (cow_loop A ino0.index_block n k st).2.2 →
        b < 2 ^ 32 ∧ refcount st b = 0 ∧ block_refs st inodes b = 0) →
      (cow_loop A ino0.index_block n k st).2.2.Nodup →
      ∀ b, b < 2 ^ 32 → refcount_exact st inodes b →
        refcount_exact (cow_loop A ino0.index_block n k st).2.1 inodes b := by
  intro n
  induction n with
  | zero =>
    intro k st _ _ _ _ _ _ b _ h
    rw [cow_loop_zero]
    exact h
  | succ n ih =>
    intro k st hk hread hu
    rw [cow_loop_succ]
    generalize A.get_free_block st.sbi.free = g
    split_ifs with h1 h2 h3 h4 h5
    · intro hsucc hfresh hnodup
      exact ih (k + 1) st (by omega) hread hu hsucc hfresh hnodup
    · intro hsucc
      exact absurd hsucc neg_ENOSPC_ne_zero
    · intro hsucc hfresh hnodup b hb hex
      dsimp only at hsucc hfresh hnodup ⊢
      have hnew := hfresh g.1 (List.mem_cons_self _ _)
      have hnd1 := List.nodup_cons.1 hnodup
      have hpos : 1 ≤ block_refs st inodes (st.index ino0.index_block k) :=
        block_refs_pos st _ inodes ⟨ino0, h0, k, by omega, rfl⟩
      refine ih (k + 1) (cow_copied A st ino0.index_block k g.1 g.2) (by omega)
        (fun b1 => by rw [cow_copied_bread]; exact hread b1)
        (fun ib m => by
          rw [cow_copied_index]
          exact upd2_lt _ _ _ _ hu hnew.1 ib m)
        hsucc (fun b1 hb1 => ?_) hnd1.2 b hb
        (cow_copied_exact A st inodes ino0 k g.1 g.2 hnd h0 (by omega) hread (hu _ _)
          hnew.1 hnew.2.1 hnew.2.2 b hb hex)
      have hf1 := hfresh b1 (List.mem_cons_of_mem _ hb1)
      have hb1n : b1 ≠ g.1 := fun h => hnd1.1 (h ▸ hb1)
      have hb1o : b1 ≠ st.index ino0.index_block k := by
        intro h
        rw [← h] at hpos
        omega
      refine ⟨hf1.1, ?_, ?_⟩
      · rw [cow_copied_refcount_other A st _ k g.1 g.2 b1
          (fun h => hb1n (same_record_u32 st.sbi hf1.1 hnew.1 h))
          (fun h => hb1o (same_record_u32 st.sbi hf1.1 (hu _ _) h))]
        exact hf1.2.1
      · have hw := block_refs_write st (cow_copied A st ino0.index_block k g.1 g.2)
          ino0.index_block k g.1 b1 (cow_copied_index A st _ k g.1 g.2) inodes hnd ino0 h0
          rfl (by omega)
        rw [if_neg (by simpa using fun h : _ = b1 => hb1o h.symm),
          if_neg (by simpa using fun h : g.1 = b1 => hb1n h.symm)] at hw
        omega
    · intro hsucc
      exact absurd hsucc neg_EIO_ne_zero
    · intro hsucc
      exact absurd hsucc neg_EIO_ne_zero
    · intro hsucc
      exact absurd hsucc neg_EIO_ne_zero

/-- One collapse keeps the refcount of every block equal to its number of references. -/
theorem dedup_collapsed_exact (A : Allocator) (st : FsState) (inodes : List inode)
    (dup : inode) (j src_b : Nat) (hnd : (inodes.map inode.index_block).Nodup)
    (hdup : dup ∈ inodes) (hj : j < nr_data_entries dup) (hread : ∀ b, st.bread_ok b = true)
    (hsrc : src_b < 2 ^ 32) (hdupb : st.index dup.index_block j < 2 ^ 32)
    (hne : src_b ≠ st.index dup.index_block j)
    (htotal : (inodes.map nr_data_entries).sum < 2 ^ 32) :
    ∀ b, b < 2 ^ 32 → refcount_exact st inodes b →
      refcount_exact
        (dedup_collapsed A st dup.index_block j src_b (st.index dup.index_block j)) inodes b := by
  intro b hb hex
  unfold refcount_exact at hex ⊢
  have hno : ¬ same_record st.sbi src_b (st.index dup.index_block j) := fun h =>
    hne (same_record_u32 st.sbi hsrc hdupb h)
  have hw := block_refs_write st
    (dedup_collapsed A st dup.index_block j src_b (st.index dup.index_block j))
    dup.index_block j src_b b (dedup_collapsed_index A st _ j src_b _) inodes hnd dup hdup rfl hj
  have hle := block_refs_le
    (dedup_collapsed A st dup.index_block j src_b (st.index dup.index_block j)) b inodes
  by_cases hbs : b = src_b
  · subst hbs
    rw [dedup_collapsed_refcount_src A st _ j b _ (hread _) hno, hex]
    rw [if_neg (by simpa using fun h : _ = b => hne h.symm), if_pos (by simp)] at hw
    rw [u32_inc_lt _ (by omega)]
    omega
  · by_cases hbd : b = st.index dup.index_block j
    · rw [hbd]
      rw [hbd] at hw hex
      rw [dedup_collapsed_refcount_dup A st _ j src_b _ (hread _)
        (fun h => hno (same_record_symm h)), hex]
      rw [if_pos (by simp), if_neg (by simpa using hne)] at hw
      omega
    · rw [dedup_collapsed_refcount_other A st _ j src_b _ b
        (fun h => hbs (same_record_u32 st.sbi hb hsrc h))
        (fun h => hbd (same_record_u32 st.sbi hb hdupb h)), hex]
      rw [if_neg (by simpa using fun h : _ = b => hbd h.symm),
        if_neg (by simpa using fun h : src_b = b => hbs h.symm)] at hw
      omega

theorem dedup_inner_exact (A : Allocator) (inodes : List inode) (dup : inode)
    (sib i sbh_b len : Nat) (hnd : (inodes.map inode.index_block).Nodup) (hdup : dup ∈ inodes)
    (htotal : (inodes.map nr_data_entries).sum < 2 ^ 32) :
    ∀ (n j : Nat) (st : FsState) (c : Int), j + n ≤ nr_data_entries dup →
      (∀ b, st.bread_ok b = true) → (∀ ib m, st.index ib m < 2 ^ 32) →
      (∀ ib m, (dedup_inner A sib dup.index_block i sbh_b len n j st c).st.index ib m
        < 2 ^ 32) ∧
      ∀ b, b < 2 ^ 32 → refcount_exact st inodes b →
        refcount_exact (dedup_inner A sib dup.index_block i sbh_b len n j st c).st inodes b := by
  intro n
  induction n with
  | zero =>
    intro j st c _ _ hu
    rw [dedup_inner_zero]
    exact ⟨hu, fun b _ h => h⟩
  | succ n ih =>
    intro j st c hj hread hu
    rw [dedup_inner_succ]
    split_ifs with h1 h2 h3
    · exact ih (j + 1) st c (by omega) hread hu
    · have hu1 : ∀ ib m, (dedup_collapsed A st dup.index_block j (st.index sib i)
          (st.index dup.index_block j)).index ib m < 2 ^ 32 := by
        intro ib m
        rw [dedup_collapsed_index]
        exact upd2_lt _ _ _ _ hu (hu _ _) ib m
      obtain ⟨ia, ib1⟩ := ih (j + 1) (dedup_collapsed A st dup.index_block j (st.index sib i)
        (st.index dup.index_block j)) (c + 1) (by omega)
        (fun b => by rw [dedup_collapsed_bread]; exact hread b) hu1
      refine ⟨ia, fun b hb hex => ib1 b hb ?_⟩
      exact dedup_collapsed_exact A st inodes dup j (st.index sib i) hnd hdup (by omega) hread
        (hu _ _) (hu _ _) h1 htotal b hb hex
    · exact ih (j + 1) st c (by omega) hread hu
    · exact ⟨hu, fun b _ h => h⟩

theorem dedup_outer_exact (A : Allocator) (inodes : List inode) (src dup : inode)
    (hnd : (inodes.map inode.index_block).Nodup) (hdup : dup ∈ inodes)
    (htotal : (inodes.map nr_data_entries).sum < 2 ^ 32) :
    ∀ (n i len : Nat) (st : FsState) (c : Int),
      (∀ b, st.bread_ok b = true) → (∀ ib m, st.index ib m < 2 ^ 32) →
      ∀ b, b < 2 ^ 32 → refcount_exact st inodes b →
        refcount_exact (dedup_outer A src dup n i len st c).st inodes b := by
  intro n
  induction n with
  | zero =>
    intro i len st c _ _ b _ h
    rw [dedup_outer_zero]
    exact h
  | succ n ih =>
    intro i len st c hread hu b hb hex
    obtain ⟨hu1, hex1⟩ := dedup_inner_exact A inodes dup src.index_block i
      (st.index src.index_block i) (compare_len src i len) hnd hdup htotal
      (nr_data_entries dup) 0 st c (by omega) hread hu
    have hb1 := dedup_inner_bread A src.index_block dup.index_block i
      (st.index src.index_block i) (compare_len src i len) (nr_data_entries dup) 0 st c
    rw [dedup_outer_succ]
    split_ifs
    · exact ih _ _ _ _ (fun b1 => by rw [hb1]; exact hread b1) hu1 b hb (hex1 b hb hex)
    · exact hex1 b hb hex
    · exact hex

/-- Marking a buffer dirty changes neither refcounts nor references. -/
theorem refcount_exact_dirty (st : FsState) (inodes : List inode) (x b : Nat)
    (h : refcount_exact st inodes b) : refcount_exact (mark_buffer_dirty st x) inodes b := h

/-- Refcounts of a state built by `mk_state`. -/
theorem mk_state_refcount (refs : List (Nat × Nat)) (idx dat : List (Nat × List Nat))
    (fr : List Nat) (b : Nat) (_hb : b < 2 ^ 32) :
    refcount (mk_state refs idx dat fr) b =
      if 6 ≤ b ∧ b < 1030 then assoc refs 0 b else 0 := by
  have h1 : binfo_nr (mk_state refs idx dat fr).sbi b
      = ((b + 2 ^ 32 - 6) % 2 ^ 32 / 1024 + 4) % 2 ^ 32 := by
    simp [binfo_nr, OUICHEFS_BINFO_INDEX, OUICHEFS_FIRST_DT_BLOCK, OUICHEFS_FIRST_BINFO_STORE,
      OUICHEFS_BINFO_PER_BLOCK, mk_state, sbi0]
  have h2 : binfo_shift (mk_state refs idx dat fr).sbi b
      = (b + 2 ^ 32 - 6) % 2 ^ 32 % 1024 := by
    simp [binfo_shift, OUICHEFS_BINFO_INDEX, OUICHEFS_FIRST_DT_BLOCK,
      OUICHEFS_BINFO_PER_BLOCK, mk_state, sbi0]
  unfold refcount
  rw [h1, h2]
  show (if ((b + 2 ^ 32 - 6) % 2 ^ 32 / 1024 + 4) % 2 ^ 32 = 4
    then assoc refs 0 ((b + 2 ^ 32 - 6) % 2 ^ 32 % 1024 + 6) else 0) = _
  by_cases hc : 6 ≤ b ∧ b < 1030
  · have e1 : ((b + 2 ^ 32 - 6) % 2 ^ 32 / 1024 + 4) % 2 ^ 32 = 4 := by omega
    have e2 : (b + 2 ^ 32 - 6) % 2 ^ 32 % 1024 + 6 = b := by omega
    rw [if_pos e1, if_pos hc, e2]
  · have e1 : ((b + 2 ^ 32 - 6) % 2 ^ 32 / 1024 + 4) % 2 ^ 32 ≠ 4 := by omega
    rw [if_neg e1, if_neg hc]

/-- C4 (counterexample to the claim as stated): in `st_beyond` the refcount of every block
equals the number of data entries referencing it.  `ouichefs_cow(F, 1, 1)` on the entry
just beyond the data entries succeeds with the fresh block 11 (refcount 0, unreferenced);
afterwards block 11 has refcount 1 but no data entry references it. -/
theorem refcount_inv_cow_counterexample :
    refcount_inv st_beyond [ino_beyond] ∧
    (ouichefs_cow (bitmap_allocator 64) st_beyond { f_inode := ino_beyond } 1 1).1 = 0 ∧
    cow_allocs (bitmap_allocator 64) st_beyond { f_inode := ino_beyond } 1 1 = [11] ∧
    refcount st_beyond 11 = 0 ∧ ¬ referenced st_beyond [ino_beyond] 11 ∧
    ¬ refcount_inv (ouichefs_cow (bitmap_allocator 64) st_beyond { f_inode := ino_beyond }
        1 1).2 [ino_beyond] := by
  refine ⟨fun b hb => ?_, by decide, by decide, by decide,
    block_refs_zero_not_referenced _ _ _ (by decide), fun h => ?_⟩
  · unfold refcount_exact st_beyond
    rw [mk_state_refcount _ _ _ _ b hb.2.2]
    by_cases hb10 : b = 10
    · subst hb10
      decide
    · have h10 : ¬ (10 = b) := fun h => hb10 h.symm
      simp [assoc, block_refs, entry_refs, count_below, nr_data_entries, ino_beyond,
        mk_state, h10]
  · have h11 := h 11 (by unfold data_block; decide)
    revert h11
    unfold refcount_exact
    decide

theorem data_block_congr {s t : ouichefs_sb_info} (h : same_layout s t) (b : Nat) :
    data_block s b ↔ data_block t b := by
  unfold data_block
  rw [h.1, h.2.2]

theorem cow_loop_layout (A : Allocator) (ib : Nat) :
    ∀ (n vb : Nat) (st : FsState), same_layout (cow_loop A ib n vb st).2.1.sbi st.sbi := by
  intro n
  induction n with
  | zero => intro vb st; rw [cow_loop_zero]; exact same_layout_refl _
  | succ n ih =>
    intro vb st
    rw [cow_loop_succ]
    split_ifs
    · exact ih _ _
    · exact same_layout_set_free _ _
    · exact same_layout_trans (ih _ _) (cow_copied_layout A st ib vb _ _)
    · exact same_layout_trans (link_layout _ _) (same_layout_set_free _ _)
    · exact same_layout_trans (same_layout_set_free _ _)
        (same_layout_trans (link_layout _ _) (same_layout_set_free _ _))
    · exact same_layout_refl _

/-- A block that no data entry references is counted zero times. -/
theorem block_refs_zero_of_not_referenced (st : FsState) (b : Nat) :
    ∀ (inodes : List inode), ¬ referenced st inodes b → block_refs st inodes b = 0 := by
  intro inodes
  induction inodes with
  | nil => intro _; rfl
  | cons a l ih =>
    intro h
    unfold block_refs at ih ⊢
    rw [List.map_cons, List.sum_cons,
      ih (fun ⟨ino, hi, hm⟩ => h ⟨ino, List.mem_cons_of_mem _ hi, hm⟩)]
    have : entry_refs st a b = 0 := by
      unfold entry_refs
      refine count_below_none _ _ (fun m hm => ?_)
      exact decide_eq_false (fun he => h ⟨a, List.mem_cons_self _ _, m, hm, he⟩)
    omega

theorem cow_exact_of_inv (A : Allocator) (st : FsState) (inodes : List inode)
    (hnd : (inodes.map inode.index_block).Nodup) (hread : ∀ b, st.bread_ok b = true)
    (hu : ∀ ib m, st.index ib m < 2 ^ 32) (hinv : refcount_inv st inodes)
    (f : file) (k n : Nat) (hf : f.f_inode ∈ inodes) (hk : k + n ≤ nr_data_entries f.f_inode)
    (hsucc : (ouichefs_cow A st f k n).1 = 0)
    (hfresh : ∀ b, b ∈ cow_allocs A st f k n →
      b < 2 ^ 32 ∧ refcount st b = 0 ∧ ¬ referenced st inodes b)
    (hnodup : (cow_allocs A st f k n).Nodup) :
    refcount_inv (ouichefs_cow A st f k n).2 inodes := by
  unfold cow_allocs at hfresh hnodup
  unfold ouichefs_cow at hsucc ⊢
  unfold ouichefs_cow_run at *
  simp only [hread, if_true] at hsucc hfresh hnodup ⊢
  intro b hb
  have hb0 : data_block st.sbi b := (data_block_congr (cow_loop_layout A _ n k st) b).1 hb
  refine cow_loop_exact A inodes f.f_inode hnd hf n k st hk hread hu hsucc (fun b1 hb1 => ?_)
    hnodup b hb0.2.2 (hinv b hb0)
  have h1 := hfresh b1 hb1
  exact ⟨h1.1, h1.2.1, block_refs_zero_of_not_referenced st b1 inodes h1.2.2⟩

theorem dedup_exact_of_inv (A : Allocator) (st : FsState) (inodes : List inode)
    (hnd : (inodes.map inode.index_block).Nodup) (hread : ∀ b, st.bread_ok b = true)
    (hu : ∀ ib m, st.index ib m < 2 ^ 32) (hinv : refcount_inv st inodes)
    (src dup : inode) (hdup : dup ∈ inodes)
    (htotal : (inodes.map nr_data_entries).sum < 2 ^ 32) :
    refcount_inv (deduplicate_file A st src dup).2 inodes := by
  rw [dedup_file_of_read A st src dup hread]
  intro b hb
  have hl : same_layout
      (dedup_outer A src dup (nr_data_entries src) 0 OUICHEFS_BLOCK_SIZE st 0).st.sbi st.sbi :=
    (dedup_outer_frame A src dup (nr_data_entries src) 0 OUICHEFS_BLOCK_SIZE st 0).2.2.1
  have hb0 : data_block st.sbi b := (data_block_congr hl b).1 hb
  exact refcount_exact_dirty _ inodes _ b
    (dedup_outer_exact A inodes src dup hnd hdup htotal _ _ _ st 0 hread hu b hb0.2.2
      (hinv b hb0))

theorem refcount_pos_of_inv (st : FsState) (inodes : List inode) (b : Nat)
    (hinv : refcount_inv st inodes) (hb : data_block st.sbi b) (hr : referenced st inodes b) :
    1 ≤ refcount st b := by
  have h := hinv b hb
  unfold refcount_exact at h
  rw [h]
  exact block_refs_pos st b inodes hr

/-- C4 (amended): in a state where all block reads succeed, whose inodes have pairwise
distinct index blocks with 32-bit entries, if the refcount of every data block equals the
number of data entries (entries `0 .. blocks - 2` of all inodes) that reference it, then
the same holds after every successful `ouichefs_cow(file, k, n)` over data entries of the
file (`k + n ≤ blocks - 1`) in which the allocator returns pairwise distinct unreferenced
blocks with refcount 0, and after every `deduplicate_file(src, dup)` provided the inodes
have fewer than `2 ^ 32` data entries in total; consequently, in every state satisfying the
invariant, every data block referenced by a data entry has refcount at least 1. -/
theorem refcount_inv_preserved (A : Allocator) (st : FsState) (inodes : List inode)
    (hnd : (inodes.map inode.index_block).Nodup) (hread : ∀ b, st.bread_ok b = true)
    (hu : ∀ ib m, st.index ib m < 2 ^ 32) (hinv : refcount_inv st inodes) :
    (∀ (f : file) (k n : Nat), f.f_inode ∈ inodes → k + n ≤ nr_data_entries f.f_inode →
      (ouichefs_cow A st f k n).1 = 0 →
      (∀ b, b ∈ cow_allocs A st f k n →
        b < 2 ^ 32 ∧ refcount st b = 0 ∧ ¬ referenced st inodes b) →
      (cow_allocs A st f k n).Nodup →
      refcount_inv (ouichefs_cow A st f k n).2 inodes) ∧
    (∀ src dup : inode, dup ∈ inodes → (inodes.map nr_data_entries).sum < 2 ^ 32 →
      refcount_inv (deduplicate_file A st src dup).2 inodes) ∧
    (∀ (st1 : FsState) (b : Nat), refcount_inv st1 inodes → data_block st1.sbi b →
      referenced st1 inodes b → 1 ≤ refcount st1 b) :=
  ⟨fun f k n hf hk hsucc hfresh hnodup =>
      cow_exact_of_inv A st inodes hnd hread hu hinv f k n hf hk hsucc hfresh hnodup,
   fun src dup hdup htotal =>
      dedup_exact_of_inv A st inodes hnd hread hu hinv src dup hdup htotal,
   fun st1 b h1 hb hr => refcount_pos_of_inv st1 inodes b h1 hb hr⟩

/-- Index entries of a state built by `mk_state` from 32-bit block numbers. -/
theorem mk_state_index_lt (refs : List (Nat × Nat)) (idx dat : List (Nat × List Nat))
    (fr : List Nat) (h : ∀ p, p ∈ idx → ∀ v, v ∈ p.2 → v < 2 ^ 32) :
    ∀ ib m, (mk_state refs idx dat fr).index ib m < 2 ^ 32 := by
  intro ib m
  show (assoc idx [] ib).getD m 0 < 2 ^ 32
  have hl : ∀ v, v ∈ assoc idx [] ib → v < 2 ^ 32 := by
    intro v hv
    unfold assoc at hv
    split at hv
    · next p hp => exact h p (List.mem_of_find?_eq_some hp) v hv
    · exact absurd hv (List.not_mem_nil _)
  rw [List.getD_eq_getElem?_getD]
  cases hm : (assoc idx [] ib)[m]? with
  | none => simp
  | some v =>
    simp only [Option.getD_some]
    exact hl v (List.getElem?_mem hm)

theorem refcount_inv_preserved_witness :
    ((([(mk_file 1 20 1 3).f_inode, (mk_file 2 21 1 3).f_inode] : List inode).map
      inode.index_block).Nodup) ∧
    (∀ b, st_two_files.bread_ok b = true) ∧
    refcount_inv st_two_files [(mk_file 1 20 1 3).f_inode, (mk_file 2 21 1 3).f_inode] ∧
    (ouichefs_cow (bitmap_allocator 64) st_two_files (mk_file 1 20 1 3) 0 1).1 = 0 ∧
    refcount_inv (ouichefs_cow (bitmap_allocator 64) st_two_files (mk_file 1 20 1 3) 0 1).2
      [(mk_file 1 20 1 3).f_inode, (mk_file 2 21 1 3).f_inode] := by
  have hall : cow_allocs (bitmap_allocator 64) st_two_files (mk_file 1 20 1 3) 0 1 = [11] := by
    decide
  have hnd : (([(mk_file 1 20 1 3).f_inode, (mk_file 2 21 1 3).f_inode] : List inode).map
      inode.index_block).Nodup := by decide
  have hu : ∀ ib m, st_two_files.index ib m < 2 ^ 32 := by
    refine mk_state_index_lt _ _ _ _ (fun p hp v hv => ?_)
    simp only [List.mem_cons, List.mem_singleton, List.not_mem_nil, or_false] at hp
    rcases hp with rfl | rfl
    · simp only [List.mem_singleton] at hv
      subst hv
      norm_num
    · simp only [List.mem_singleton] at hv
      subst hv
      norm_num
  have hinv : refcount_inv st_two_files
      [(mk_file 1 20 1 3).f_inode, (mk_file 2 21 1 3).f_inode] := by
    intro b hb
    unfold refcount_exact st_two_files
    rw [mk_state_refcount _ _ _ _ b hb.2.2]
    by_cases hb10 : b = 10
    · subst hb10
      decide
    · have h10 : ¬ (10 = b) := fun h => hb10 h.symm
      simp [assoc, block_refs, entry_refs, count_below, nr_data_entries, mk_file,
        mk_state, h10]
  refine ⟨hnd, fun _ => rfl, hinv, by decide, ?_⟩
  refine (refcount_inv_preserved (bitmap_allocator 64) st_two_files _ hnd (fun _ => rfl) hu
    hinv).1 (mk_file 1 20 1 3) 0 1 (List.mem_cons_self _ _) (by decide) (by decide)
    (fun b hb => ?_) (by rw [hall]; exact List.nodup_singleton _)
  rw [hall, List.mem_singleton] at hb
  subst hb
  exact ⟨by norm_num, by decide, block_refs_zero_not_referenced _ _ _ (by decide)⟩

/-! ## C9, continued: `deduplicate_file(F, F)` collapses equal blocks of one file -/

/-- An inner loop that leaves the counter unchanged has found, for every entry in range,
either the same block number or differing bytes. -/
theorem dedup_inner_no_collapse (A : Allocator) (sib dib i sbh_b len : Nat) :
    ∀ (n j : Nat) (st : FsState) (c : Int), (∀ b, st.bread_ok b = true) →
      (dedup_inner A sib dib i sbh_b len n j st c).count = c →
      (dedup_inner A sib dib i sbh_b len n j st c).st = st ∧
      ∀ m, j ≤ m → m < j + n → st.index sib i = st.index dib m ∨
        memcmp_eq (st.data sbh_b) (st.data (st.index dib m)) len = false := by
  intro n
  induction n with
  | zero =>
    intro j st c _ _
    rw [dedup_inner_zero]
    exact ⟨rfl, fun m h1 h2 => by omega⟩
  | succ n ih =>
    intro j st c hread
    rw [dedup_inner_succ]
    split_ifs with h1 h2 h3
    · intro hc
      obtain ⟨ia, ib1⟩ := ih (j + 1) st c hread hc
      refine ⟨ia, fun m hm1 hm2 => ?_⟩
      by_cases hmj : m = j
      · subst hmj
        exact Or.inl h1
      · exact ib1 m (by omega) (by omega)
    · intro hc
      have := dedup_inner_count A sib dib i sbh_b len n (j + 1)
        (dedup_collapsed A st dib j (st.index sib i) (st.index dib j)) (c + 1)
      omega
    · intro hc
      obtain ⟨ia, ib1⟩ := ih (j + 1) st c hread hc
      refine ⟨ia, fun m hm1 hm2 => ?_⟩
      by_cases hmj : m = j
      · subst hmj
        right
        simpa using h3
      · exact ib1 m (by omega) (by omega)
    · exact absurd (hread _) h2

/-- An outer loop that leaves the counter unchanged has found no pair of distinct blocks
with equal compared bytes. -/
theorem dedup_outer_no_collapse (A : Allocator) (src dup : inode) :
    ∀ (n i len : Nat) (st : FsState) (c : Int), (∀ b, st.bread_ok b = true) →
      len ≤ OUICHEFS_BLOCK_SIZE →
      (dedup_outer A src dup n i len st c).count = c →
      ∀ i1 m, i ≤ i1 → i1 < i + n → m < nr_data_entries dup →
        st.index src.index_block i1 = st.index dup.index_block m ∨
        ∃ len1, len1 ≤ OUICHEFS_BLOCK_SIZE ∧
          memcmp_eq (st.data (st.index src.index_block i1))
            (st.data (st.index dup.index_block m)) len1 = false := by
  intro n
  induction n with
  | zero => intro i len st c _ _ _ i1 m h1 h2; omega
  | succ n ih =>
    intro i len st c hread hlen
    have hcnt := dedup_inner_count A src.index_block dup.index_block i
      (st.index src.index_block i) (compare_len src i len) (nr_data_entries dup) 0 st c
    have hok := dedup_inner_ok A src.index_block dup.index_block i
      (st.index src.index_block i) (compare_len src i len) (nr_data_entries dup) 0 st c hread
    have hno := dedup_inner_no_collapse A src.index_block dup.index_block i
      (st.index src.index_block i) (compare_len src i len) (nr_data_entries dup) 0 st c hread
    have hfr := (dedup_outer_frame A src dup n (i + 1) (compare_len src i len)
      (dedup_inner A src.index_block dup.index_block i (st.index src.index_block i)
        (compare_len src i len) (nr_data_entries dup) 0 st c).st
      (dedup_inner A src.index_block dup.index_block i (st.index src.index_block i)
        (compare_len src i len) (nr_data_entries dup) 0 st c).count).2.2.2.2
    rw [dedup_outer_succ, if_pos (hread _), if_pos hok]
    intro hc i1 m hi1 hi2 hm
    have hc1 : (dedup_inner A src.index_block dup.index_block i (st.index src.index_block i)
        (compare_len src i len) (nr_data_entries dup) 0 st c).count = c := by omega
    obtain ⟨hst, hpairs⟩ := hno hc1
    by_cases hii : i1 = i
    · subst hii
      rcases hpairs m (by omega) (by omega) with h | h
      · exact Or.inl h
      · exact Or.inr ⟨_, compare_len_le src i1 len hlen, h⟩
    · rw [hst, hc1] at hc
      exact ih (i + 1) _ st c hread (compare_len_le src i len hlen) hc i1 m (by omega)
        (by omega) hm

/-- When two data entries of `F` name distinct blocks with equal bytes,
`deduplicate_file(F, F)` counts at least one collapse. -/
theorem dedup_self_count_pos (A : Allocator) (st : FsState) (F : inode) (i0 i1 b0 b1 : Nat)
    (hi0 : i0 < nr_data_entries F) (hi1 : i1 < nr_data_entries F)
    (h0 : st.index F.index_block i0 = b0) (h1 : st.index F.index_block i1 = b1)
    (hne : b0 ≠ b1) (hread : ∀ b, st.bread_ok b = true)
    (hbytes : ∀ i, i < OUICHEFS_BLOCK_SIZE → st.data b0 i = st.data b1 i) :
    1 ≤ (deduplicate_file A st F F).1 := by
  rw [dedup_file_of_read A st F F hread]
  have hge := (dedup_outer_frame A F F (nr_data_entries F) 0 OUICHEFS_BLOCK_SIZE st
    0).2.2.2.2
  by_contra hlt
  have hz : (dedup_outer A F F (nr_data_entries F) 0 OUICHEFS_BLOCK_SIZE st 0).count = 0 := by
    have : (dedup_outer A F F (nr_data_entries F) 0 OUICHEFS_BLOCK_SIZE st 0).count < 1 := by
      simpa using hlt
    omega
  rcases dedup_outer_no_collapse A F F (nr_data_entries F) 0 OUICHEFS_BLOCK_SIZE st 0 hread
    (le_refl _) hz i0 i1 (by omega) (by omega) hi1 with h | ⟨len1, hl, h⟩
  · rw [h0, h1] at h
    exact hne h
  · rw [h0, h1, memcmp_eq_of_block _ _ len1 hbytes hl] at h
    exact absurd h (by decide)

/-- C9 (counterexample to the claim as stated): the file of `st_self` holds two distinct
blocks, 10 and 11, with the same bytes; `deduplicate_file(F, F)` returns a collapse count
of 1, not 0, and rewrites entry 1 of the index block from 11 to 10. -/
theorem dedup_self_counterexample :
    st_self.index ino_self.index_block 0 = 10 ∧ st_self.index ino_self.index_block 1 = 11 ∧
    (∀ i, st_self.data 10 i = st_self.data 11 i) ∧
    (deduplicate_file (bitmap_allocator 64) st_self ino_self ino_self).1 = 1 ∧
    (deduplicate_file (bitmap_allocator 64) st_self ino_self ino_self).1 ≠ 0 ∧
    (deduplicate_file (bitmap_allocator 64) st_self ino_self ino_self).2.index
      ino_self.index_block 1 = 10 := by
  have hb : ∀ i, st_self.data 10 i = st_self.data 11 i := fun _ => rfl
  have h := dedup_self_two_effect (bitmap_allocator 64) st_self ino_self 10 11 (by decide)
    (by decide) (by decide) (by decide) (by norm_num) (by norm_num) (fun _ => rfl)
    (fun i _ => hb i)
  refine ⟨by decide, by decide, hb, h.1, ?_, h.2.2.1⟩
  rw [h.1]
  decide

/-- C9 (amended): in a state where every block read succeeds, for a file `F` whose data
entries `i0 < i1` name distinct blocks `b0` and `b1` that hold the same bytes,
`deduplicate_file(F, F)` skips only the pairs that already name the same physical block
(the diagonal included) and so performs at least one collapse: the count returned is at
least 1.  When `F` has exactly two data entries the count is 1, entry 1 is rewritten to
`b0`, the refcount of `b1` is decremented and the refcount of `b0` incremented. -/
theorem dedup_self_collapses (A : Allocator) (st : FsState) (F : inode) (i0 i1 b0 b1 : Nat)
    (hi : i0 < i1) (hi1 : i1 < nr_data_entries F)
    (h0 : st.index F.index_block i0 = b0) (h1 : st.index F.index_block i1 = b1)
    (hne : b0 ≠ b1) (hu0 : b0 < 2 ^ 32) (hu1 : b1 < 2 ^ 32)
    (hread : ∀ b, st.bread_ok b = true)
    (hbytes : ∀ i, i < OUICHEFS_BLOCK_SIZE → st.data b0 i = st.data b1 i) :
    1 ≤ (deduplicate_file A st F F).1 ∧
    (nr_data_entries F = 2 →
      (deduplicate_file A st F F).1 = 1 ∧
      (deduplicate_file A st F F).2.index F.index_block 0 = b0 ∧
      (deduplicate_file A st F F).2.index F.index_block 1 = b0 ∧
      refcount (deduplicate_file A st F F).2 b1 = refcount st b1 - 1 ∧
      refcount (deduplicate_file A st F F).2 b0 = (refcount st b0 + 1) % 2 ^ 32) := by
  refine ⟨dedup_self_count_pos A st F i0 i1 b0 b1 (by omega) hi1 h0 h1 hne hread hbytes,
    fun hn => ?_⟩
  have e0 : i0 = 0 := by omega
  have e1 : i1 = 1 := by omega
  subst e0 e1
  exact dedup_self_two_effect A st F b0 b1 hn h0 h1 hne hu0 hu1 hread hbytes

theorem dedup_self_collapses_witness :
    nr_data_entries ino_self = 2 ∧ (10 : Nat) ≠ 11 ∧ (∀ b, st_self.bread_ok b = true) ∧
    (∀ i, i < OUICHEFS_BLOCK_SIZE → st_self.data 10 i = st_self.data 11 i) ∧
    (deduplicate_file (bitmap_allocator 64) st_self ino_self ino_self).1 = 1 :=
  ⟨by decide, by decide, fun _ => rfl, fun _ _ => rfl,
   ((dedup_self_collapses (bitmap_allocator 64) st_self ino_self 0 1 10 11 (by decide)
      (by decide) (by decide) (by decide) (by decide) (by norm_num) (by norm_num)
      (fun _ => rfl) (fun _ _ => rfl)).2 (by decide)).1⟩

/-! ## C15: addressing of the block-info store -/

/-- C15: for a geometry whose sum `nr_istore + nr_ifree + nr_bfree + nr_bstore + 2` does
not overflow 32 bits, `OUICHEFS_FIRST_BINFO_STORE = OUICHEFS_FIRST_DT_BLOCK - 1 -
nr_bstore_blocks`; for every 32-bit block number `bno` with `FIRST_DT_BLOCK ≤ bno <
FIRST_DT_BLOCK + nr_bstore_blocks * 1024`, the record location used by
`ouichefs_link_block`, `ouichefs_unlink_block` and `ouichefs_cow` is block
`FIRST_BINFO_STORE + (bno - FIRST_DT_BLOCK) / 1024`, slot `(bno - FIRST_DT_BLOCK) mod
1024`, the block lies in `[FIRST_BINFO_STORE, FIRST_BINFO_STORE + nr_bstore_blocks)` and
the slot is below 1024; and two different 32-bit block numbers never share a record. -/
theorem binfo_addressing (sbi : ouichefs_sb_info)
    (hgeo : sbi.nr_istore_blocks + sbi.nr_ifree_blocks + sbi.nr_bfree_blocks
      + sbi.nr_bstore_blocks + 2 < 2 ^ 32) :
    OUICHEFS_FIRST_BINFO_STORE sbi
      = OUICHEFS_FIRST_DT_BLOCK sbi - 1 - sbi.nr_bstore_blocks ∧
    (∀ bno, bno < 2 ^ 32 → OUICHEFS_FIRST_DT_BLOCK sbi ≤ bno →
      bno < OUICHEFS_FIRST_DT_BLOCK sbi + sbi.nr_bstore_blocks * OUICHEFS_BINFO_PER_BLOCK →
      binfo_nr sbi bno = OUICHEFS_FIRST_BINFO_STORE sbi
        + (bno - OUICHEFS_FIRST_DT_BLOCK sbi) / OUICHEFS_BINFO_PER_BLOCK ∧
      binfo_shift sbi bno = (bno - OUICHEFS_FIRST_DT_BLOCK sbi) % OUICHEFS_BINFO_PER_BLOCK ∧
      OUICHEFS_FIRST_BINFO_STORE sbi ≤ binfo_nr sbi bno ∧
      binfo_nr sbi bno < OUICHEFS_FIRST_BINFO_STORE sbi + sbi.nr_bstore_blocks ∧
      binfo_shift sbi bno < OUICHEFS_BINFO_PER_BLOCK) ∧
    (∀ a b, a < 2 ^ 32 → b < 2 ^ 32 → a ≠ b →
      ¬ (binfo_nr sbi a = binfo_nr sbi b ∧ binfo_shift sbi a = binfo_shift sbi b)) := by
  refine ⟨?_, fun bno hb h1 h2 => ?_,
    fun a b ha hb hne h => hne (binfo_loc_inj sbi a b ha hb h.1 h.2)⟩
  · unfold OUICHEFS_FIRST_BINFO_STORE OUICHEFS_FIRST_DT_BLOCK
    omega
  · unfold binfo_nr binfo_shift OUICHEFS_BINFO_INDEX OUICHEFS_FIRST_BINFO_STORE
      OUICHEFS_FIRST_DT_BLOCK OUICHEFS_BINFO_PER_BLOCK at *
    omega

theorem binfo_addressing_witness :
    sbi0.nr_istore_blocks + sbi0.nr_ifree_blocks + sbi0.nr_bfree_blocks
      + sbi0.nr_bstore_blocks + 2 < 2 ^ 32 ∧
    OUICHEFS_FIRST_DT_BLOCK sbi0 = 6 ∧ OUICHEFS_FIRST_BINFO_STORE sbi0 = 4 ∧
    binfo_nr sbi0 10 = 4 ∧ binfo_shift sbi0 10 = 4 ∧
    OUICHEFS_FIRST_BINFO_STORE sbi0
      = OUICHEFS_FIRST_DT_BLOCK sbi0 - 1 - sbi0.nr_bstore_blocks :=
  ⟨by decide, by decide, by decide, by decide, by decide,
   (binfo_addressing sbi0 (by decide)).1⟩

/-! ## C20: `ouichefs_unlink_block` on a block whose refcount is already 0 -/

/-- C20 (counterexample to the claim as stated): block 10 has refcount 0 and is already in
the free-block bitmap, `nr_free_blocks` being 1.  `ouichefs_unlink_block(sb, 10)` returns 0
and leaves the refcount 0, but it hands the block to `put_block` once more: with the
allocator that counts releases, `nr_free_blocks` becomes 2. -/
theorem unlink_zero_refcount_counterexample :
    st_freed.bread_ok (binfo_nr st_freed.sbi 10) = true ∧
    refcount st_freed 10 = 0 ∧
    st_freed.sbi.free.bfree_bitmap 10 = true ∧
    st_freed.sbi.free.nr_free_blocks = 1 ∧
    (ouichefs_unlink_block (bitmap_allocator 64) st_freed 10).1 = 0 ∧
    refcount (ouichefs_unlink_block (bitmap_allocator 64) st_freed 10).2 10 = 0 ∧
    (ouichefs_unlink_block (bitmap_allocator 64) st_freed 10).2.sbi.free.nr_free_blocks = 2 ∧
    (ouichefs_unlink_block (bitmap_allocator 64) st_freed 10).2.sbi.free.nr_free_blocks
      ≠ st_freed.sbi.free.nr_free_blocks :=
  ⟨by decide, by decide, by decide, by decide, by decide, by decide, by decide, by decide⟩

/-- C20 (amended): when the refcount of `bno` is already 0 and its block-info block can be
read, `ouichefs_unlink_block(sb, bno)` returns 0 and changes no refcount (that of `bno`
stays 0, nothing wraps), but the release is not skipped: the allocator fields afterwards
are exactly those left by `put_block(sbi, bno)`, and the block-info buffer is marked
dirty. -/
theorem unlink_zero_refcount (A : Allocator) (st : FsState) (bno : Nat)
    (hr : st.bread_ok (binfo_nr st.sbi bno) = true) (h0 : refcount st bno = 0) :
    (ouichefs_unlink_block A st bno).1 = 0 ∧
    refcount (ouichefs_unlink_block A st bno).2 bno = 0 ∧
    (ouichefs_unlink_block A st bno).2.binfo = st.binfo ∧
    (∀ b, refcount (ouichefs_unlink_block A st bno).2 b = refcount st b) ∧
    (ouichefs_unlink_block A st bno).2.sbi.free = A.put_block st.sbi.free bno ∧
    (ouichefs_unlink_block A st bno).2.dirty (binfo_nr st.sbi bno) = true := by
  have hb : (ouichefs_unlink_block A st bno).2.binfo = st.binfo := by
    rw [unlink_binfo A st bno hr, h0]
    have := upd2_self st.binfo (binfo_nr st.sbi bno) (binfo_shift st.sbi bno)
    unfold refcount at h0
    rw [h0] at this
    exact this
  refine ⟨?_, ?_, hb, fun b => refcount_congr hb (unlink_layout A st bno) b, ?_, ?_⟩
  · rw [unlink_ret A st bno hr, h0]
    decide
  · rw [unlink_refcount_self A st bno hr, h0]
  · rw [unlink_free A st bno hr, h0]
    simp
  · unfold refcount at h0
    simp [ouichefs_unlink_block, hr, h0, mark_buffer_dirty, set_free, upd]

theorem unlink_zero_refcount_witness :
    st_freed.bread_ok (binfo_nr st_freed.sbi 10) = true ∧ refcount st_freed 10 = 0 ∧
    (ouichefs_unlink_block (bitmap_allocator 64) st_freed 10).2.sbi.free
      = (bitmap_allocator 64).put_block st_freed.sbi.free 10 :=
  ⟨by decide, by decide,
   (unlink_zero_refcount (bitmap_allocator 64) st_freed 10 (by decide) (by decide)).2.2.2.2.1⟩

/-! ## C19: a read failure after a collapse in `deduplicate_file` -/

/-- C19 (failing input): in `st_partial` the first data block of `dup` (block 12) equals the
block of `src` (block 10) and the second (block 13) cannot be read.
`deduplicate_file(src, dup)` collapses entry 0 of `dup` (the entry is rewritten from 12 to
10, block 12 is unlinked, block 10 linked, the block-info block 4 is marked dirty), then
fails on block 13 and returns `-EIO` without marking the index block of `dup` (block 21)
dirty. -/
theorem dedup_partial_progress_not_dirty :
    st_partial.index ino_partial_dup.index_block 0 = 12 ∧
    st_partial.dirty ino_partial_dup.index_block = false ∧
    (deduplicate_file (bitmap_allocator 64) st_partial ino_partial_src ino_partial_dup).1
      = - EIO ∧
    (deduplicate_file (bitmap_allocator 64) st_partial ino_partial_src ino_partial_dup).2.index
      ino_partial_dup.index_block 0 = 10 ∧
    refcount (deduplicate_file (bitmap_allocator 64) st_partial ino_partial_src
      ino_partial_dup).2 12 = 0 ∧
    refcount (deduplicate_file (bitmap_allocator 64) st_partial ino_partial_src
      ino_partial_dup).2 10 = 2 ∧
    (deduplicate_file (bitmap_allocator 64) st_partial ino_partial_src ino_partial_dup).2.dirty
      (binfo_nr st_partial.sbi 12) = true ∧
    (deduplicate_file (bitmap_allocator 64) st_partial ino_partial_src ino_partial_dup).2.dirty
      ino_partial_dup.index_block = false :=
  ⟨by decide, by decide, by decide, by decide, by decide, by decide, by decide, by decide⟩

/-! ## C18: a read failure inside `ouichefs_cow` -/

/-- C18 (failing input): in `st_old_unreadable` entry 0 of the file names the shared block
10 (refcount 2), which cannot be read, and block 11 is free with refcount 0.
`ouichefs_cow(F, 0, 1)` allocates block 11, links it (refcount 1), fails to read block 10,
gives block 11 back with `put_block` and returns `-EIO`.  Entry 0 still names block 10,
whose refcount is still 2, but block 11 is in the free-block bitmap with refcount 1: the
next allocation hands it out again and the link that follows brings its refcount to 2. -/
theorem cow_eio_frees_linked_block :
    refcount st_old_unreadable 10 = 2 ∧ refcount st_old_unreadable 11 = 0 ∧
    st_old_unreadable.sbi.free.bfree_bitmap 11 = true ∧
    cow_allocs (bitmap_allocator 64) st_old_unreadable (mk_file 1 20 1 3) 0 1 = [11] ∧
    (ouichefs_cow (bitmap_allocator 64) st_old_unreadable (mk_file 1 20 1 3) 0 1).1 = - EIO ∧
    (ouichefs_cow (bitmap_allocator 64) st_old_unreadable (mk_file 1 20 1 3) 0 1).2.index 20 0
      = 10 ∧
    refcount (ouichefs_cow (bitmap_allocator 64) st_old_unreadable (mk_file 1 20 1 3) 0 1).2 10
      = 2 ∧
    (ouichefs_cow (bitmap_allocator 64) st_old_unreadable
      (mk_file 1 20 1 3) 0 1).2.sbi.free.bfree_bitmap 11 = true ∧
    refcount (ouichefs_cow (bitmap_allocator 64) st_old_unreadable (mk_file 1 20 1 3) 0 1).2 11
      = 1 ∧
    ((bitmap_allocator 64).get_free_block (ouichefs_cow (bitmap_allocator 64)
      st_old_unreadable (mk_file 1 20 1 3) 0 1).2.sbi.free).1 = 11 ∧
    refcount (ouichefs_link_block (ouichefs_cow (bitmap_allocator 64) st_old_unreadable
      (mk_file 1 20 1 3) 0 1).2 11).2 11 = 2 :=
  ⟨by decide, by decide, by decide, by decide, by decide, by decide, by decide, by decide,
   by decide, by decide, by decide⟩

/-! ## C14: frame of `deduplicate_file` -/

theorem u32_dec_inc (x : Nat) (h : x < 2 ^ 32) : u32_dec (u32_inc x) = x := by
  unfold u32_dec u32_inc
  split_ifs <;> omega

theorem u32_inc_dec (x : Nat) (h : x < 2 ^ 32) : u32_inc (u32_dec x) = x := by
  unfold u32_dec u32_inc
  split_ifs <;> omega

theorem data_block_not_same_record (sbi : ouichefs_sb_info) {a b : Nat}
    (ha : a < 2 ^ 32) (hb : b < 2 ^ 32) (hne : a ≠ b) : ¬ same_record sbi a b :=
  fun h => hne (same_record_u32 sbi ha hb h)

/-- The free-block counter after one collapse. -/
theorem dedup_collapsed_free (A : Allocator) (st : FsState) (dib j src_b dup_b : Nat)
    (hread : ∀ b, st.bread_ok b = true) :
    (dedup_collapsed A st dib j src_b dup_b).sbi.free =
      if 0 < refcount (ouichefs_unlink_block A st dup_b).2 src_b then
        { (ouichefs_unlink_block A st dup_b).2.sbi.free with
          nr_free_blocks := u32_dec (ouichefs_unlink_block A st dup_b).2.sbi.free.nr_free_blocks }
      else (ouichefs_unlink_block A st dup_b).2.sbi.free := by
  unfold dedup_collapsed
  have hr : ({ (ouichefs_unlink_block A st dup_b).2 with
      index := upd2 (ouichefs_unlink_block A st dup_b).2.index dib j src_b } : FsState).bread_ok
      (binfo_nr (ouichefs_unlink_block A st dup_b).2.sbi src_b) = true := by
    show (ouichefs_unlink_block A st dup_b).2.bread_ok _ = true
    rw [unlink_bread]
    exact hread _
  exact link_free _ src_b hr

/-- Accounting of one collapse: `nr_free_blocks` is unchanged while the number of data
blocks with refcount 0 grows by one when the refcount of the block given up was 1. -/
theorem collapse_accounting (A : Allocator) (hA : counting_allocator A) (st : FsState)
    (dib j src_b dup_b : Nat) (hread : ∀ b, st.bread_ok b = true)
    (hnb : st.sbi.nr_blocks ≤ 2 ^ 32) (hnf : st.sbi.free.nr_free_blocks < 2 ^ 32)
    (hsrc : data_block st.sbi src_b) (hdup : data_block st.sbi dup_b) (hne : src_b ≠ dup_b)
    (hs : 1 ≤ refcount st src_b) (hs2 : refcount st src_b + 1 < 2 ^ 32)
    (hd : 1 ≤ refcount st dup_b) :
    (dedup_collapsed A st dib j src_b dup_b).sbi.free.nr_free_blocks
      = st.sbi.free.nr_free_blocks ∧
    zero_refcount_blocks (dedup_collapsed A st dib j src_b dup_b)
      = zero_refcount_blocks st + (if refcount st dup_b = 1 then 1 else 0) := by
  have hrec : ¬ same_record st.sbi src_b dup_b :=
    data_block_not_same_record st.sbi hsrc.2.2 hdup.2.2 hne
  have hrec2 : ¬ same_record st.sbi dup_b src_b := fun h => hrec (same_record_symm h)
  constructor
  · rw [dedup_collapsed_free A st dib j src_b dup_b hread]
    have h1 : refcount (ouichefs_unlink_block A st dup_b).2 src_b = refcount st src_b :=
      unlink_refcount_loc A st dup_b src_b hrec
    rw [h1, if_pos (by omega), unlink_free A st dup_b (hread _)]
    by_cases h0 : refcount st dup_b - 1 = 0
    · rw [if_pos h0]
      show u32_dec (A.put_block st.sbi.free dup_b).nr_free_blocks = _
      rw [hA.2, u32_dec_inc _ hnf]
    · rw [if_neg h0]
      show u32_dec (u32_inc st.sbi.free.nr_free_blocks) = _
      rw [u32_dec_inc _ hnf]
  · have hl := dedup_collapsed_layout A st dib j src_b dup_b
    unfold zero_refcount_blocks
    rw [hl.1, hl.2.2]
    have hj : dup_b - OUICHEFS_FIRST_DT_BLOCK st.sbi
        < st.sbi.nr_blocks - OUICHEFS_FIRST_DT_BLOCK st.sbi := by
      have := hdup.1
      have := hdup.2.1
      omega
    have hup := count_below_update
      (fun k => decide (refcount st (OUICHEFS_FIRST_DT_BLOCK st.sbi + k) = 0))
      (fun k => decide (refcount (dedup_collapsed A st dib j src_b dup_b)
        (OUICHEFS_FIRST_DT_BLOCK st.sbi + k) = 0))
      (dup_b - OUICHEFS_FIRST_DT_BLOCK st.sbi) _ hj (fun m hm hmj => ?_)
    · simp only [] at hup
      have e : OUICHEFS_FIRST_DT_BLOCK st.sbi + (dup_b - OUICHEFS_FIRST_DT_BLOCK st.sbi)
          = dup_b := by
        have := hdup.1
        omega
      have hq1 : refcount (dedup_collapsed A st dib j src_b dup_b)
          (OUICHEFS_FIRST_DT_BLOCK st.sbi + (dup_b - OUICHEFS_FIRST_DT_BLOCK st.sbi))
          = refcount st dup_b - 1 := by
        rw [e]
        exact dedup_collapsed_refcount_dup A st dib j src_b dup_b (hread _) hrec2
      have hp1 : refcount st
          (OUICHEFS_FIRST_DT_BLOCK st.sbi + (dup_b - OUICHEFS_FIRST_DT_BLOCK st.sbi))
          = refcount st dup_b := by
        rw [e]
      simp only [hq1, hp1] at hup
      have hp0 : refcount st dup_b ≠ 0 := by omega
      by_cases h1 : refcount st dup_b = 1
      · simp [h1] at hup ⊢
        omega
      · have hq0 : refcount st dup_b - 1 ≠ 0 := by omega
        simp [h1, hp0, hq0] at hup ⊢
        omega
    · simp only []
      have hm32 : OUICHEFS_FIRST_DT_BLOCK st.sbi + m < 2 ^ 32 := by omega
      have hmd : OUICHEFS_FIRST_DT_BLOCK st.sbi + m ≠ dup_b := by
        have := hdup.1
        omega
      by_cases hms : OUICHEFS_FIRST_DT_BLOCK st.sbi + m = src_b
      · rw [hms, dedup_collapsed_refcount_src A st dib j src_b dup_b (hread _) hrec,
          u32_inc_lt _ hs2]
        rw [decide_eq_false (by omega), decide_eq_false (by omega)]
      · rw [dedup_collapsed_refcount_other A st dib j src_b dup_b _
          (data_block_not_same_record st.sbi hm32 hsrc.2.2 hms)
          (data_block_not_same_record st.sbi hm32 hdup.2.2 hmd)]

/-- The allocator fields after one copy step. -/
theorem cow_copied_free (A : Allocator) (st : FsState) (ib vb new : Nat) (fm : FreeMap) :
    (cow_copied A st ib vb new fm).sbi.free =
      (ouichefs_unlink_block A (ouichefs_link_block (set_free st fm) new).2
        (st.index ib vb)).2.sbi.free := by
  simp only [cow_copied, mark_buffer_dirty, link_index, set_free]
  unfold ouichefs_unlink_block
  dsimp only
  split_ifs <;> rfl

/-- Accounting of one copy step of `ouichefs_cow` on a shared block: `nr_free_blocks` is
unchanged while the number of data blocks with refcount 0 shrinks by one. -/
theorem cow_accounting (A : Allocator) (hA : counting_allocator A) (st : FsState)
    (ib vb : Nat) (hread : ∀ b, st.bread_ok b = true)
    (hnb : st.sbi.nr_blocks ≤ 2 ^ 32) (hnf : st.sbi.free.nr_free_blocks < 2 ^ 32)
    (hnew0 : (A.get_free_block st.sbi.free).1 ≠ 0)
    (hnew : data_block st.sbi (A.get_free_block st.sbi.free).1)
    (hfresh : refcount st (A.get_free_block st.sbi.free).1 = 0)
    (hold : data_block st.sbi (st.index ib vb))
    (hshared : 2 ≤ refcount st (st.index ib vb)) :
    (cow_copied A st ib vb (A.get_free_block st.sbi.free).1
      (A.get_free_block st.sbi.free).2).sbi.free.nr_free_blocks
      = st.sbi.free.nr_free_blocks ∧
    zero_refcount_blocks (cow_copied A st ib vb (A.get_free_block st.sbi.free).1
      (A.get_free_block st.sbi.free).2) + 1 = zero_refcount_blocks st := by
  generalize hn : (A.get_free_block st.sbi.free).1 = new at *
  have hfm : (A.get_free_block st.sbi.free).2.nr_free_blocks
      = u32_dec st.sbi.free.nr_free_blocks := hA.1 _ (by rw [hn]; exact hnew0)
  generalize (A.get_free_block st.sbi.free).2 = fm at *
  have hne : st.index ib vb ≠ new := by
    intro h
    rw [h] at hshared
    omega
  have hrec : ¬ same_record st.sbi (st.index ib vb) new :=
    data_block_not_same_record st.sbi hold.2.2 hnew.2.2 hne
  have hrec2 : ¬ same_record st.sbi new (st.index ib vb) := fun h => hrec (same_record_symm h)
  constructor
  · rw [cow_copied_free, unlink_free A _ _ (by rw [link_bread]; exact hread _)]
    have h1 : refcount (ouichefs_link_block (set_free st fm) new).2 (st.index ib vb)
        = refcount st (st.index ib vb) := by
      rw [link_refcount_loc, refcount_set_free]
      exact fun h => hrec ((same_record_set_free st fm _ _).1 h)
    rw [h1, if_neg (by omega)]
    show u32_inc (ouichefs_link_block (set_free st fm) new).2.sbi.free.nr_free_blocks = _
    rw [link_free (set_free st fm) new (hread _), refcount_set_free, hfresh,
      if_neg (by omega)]
    show u32_inc fm.nr_free_blocks = _
    rw [hfm, u32_inc_dec _ hnf]
  · have hl := cow_copied_layout A st ib vb new fm
    unfold zero_refcount_blocks
    rw [hl.1, hl.2.2]
    have hj : new - OUICHEFS_FIRST_DT_BLOCK st.sbi
        < st.sbi.nr_blocks - OUICHEFS_FIRST_DT_BLOCK st.sbi := by
      have := hnew.1
      have := hnew.2.1
      omega
    have hup := count_below_update
      (fun k => decide (refcount st (OUICHEFS_FIRST_DT_BLOCK st.sbi + k) = 0))
      (fun k => decide (refcount (cow_copied A st ib vb new fm)
        (OUICHEFS_FIRST_DT_BLOCK st.sbi + k) = 0))
      (new - OUICHEFS_FIRST_DT_BLOCK st.sbi) _ hj (fun m hm hmj => ?_)
    · simp only [] at hup
      have e : OUICHEFS_FIRST_DT_BLOCK st.sbi + (new - OUICHEFS_FIRST_DT_BLOCK st.sbi)
          = new := by
        have := hnew.1
        omega
      have hq1 : refcount (cow_copied A st ib vb new fm)
          (OUICHEFS_FIRST_DT_BLOCK st.sbi + (new - OUICHEFS_FIRST_DT_BLOCK st.sbi)) = 1 := by
        rw [e, cow_copied_refcount_new A st ib vb new fm (hread _) hrec2, hfresh]
        decide
      have hp1 : refcount st
          (OUICHEFS_FIRST_DT_BLOCK st.sbi + (new - OUICHEFS_FIRST_DT_BLOCK st.sbi)) = 0 := by
        rw [e]
        exact hfresh
      simp [hq1, hp1] at hup
      omega
    · simp only []
      have hm32 : OUICHEFS_FIRST_DT_BLOCK st.sbi + m < 2 ^ 32 := by omega
      have hmn : OUICHEFS_FIRST_DT_BLOCK st.sbi + m ≠ new := by
        have := hnew.1
        omega
      by_cases hmo : OUICHEFS_FIRST_DT_BLOCK st.sbi + m = st.index ib vb
      · rw [hmo, cow_copied_refcount_old A st ib vb new fm (hread _) hrec]
        rw [decide_eq_false (by omega), decide_eq_false (by omega)]
      · rw [cow_copied_refcount_other A st ib vb new fm _
          (data_block_not_same_record st.sbi hm32 hnew.2.2 hmn)
          (data_block_not_same_record st.sbi hm32 hold.2.2 hmo)]

/-- C13 (counterexample to the claim as stated): in `st_account` there are 54 data blocks
with refcount 0 and `nr_free_blocks` is 54.  `deduplicate_file(src, dup)` performs one
collapse, unlinking block 12 (refcount 1 to 0, released) and linking the live block 10
(refcount 1 to 2).  Afterwards 55 data blocks have refcount 0 but `nr_free_blocks` is
still 54: the release incremented it and the link of the shared block decremented it. -/
theorem free_block_accounting_counterexample :
    st_account.sbi.free.nr_free_blocks = 54 ∧ zero_refcount_blocks st_account = 54 ∧
    refcount st_account 10 = 1 ∧ refcount st_account 12 = 1 ∧
    (deduplicate_file (bitmap_allocator 64) st_account ino_account_src ino_account_dup).1
      = 1 ∧
    refcount (deduplicate_file (bitmap_allocator 64) st_account ino_account_src
      ino_account_dup).2 10 = 2 ∧
    refcount (deduplicate_file (bitmap_allocator 64) st_account ino_account_src
      ino_account_dup).2 12 = 0 ∧
    (deduplicate_file (bitmap_allocator 64) st_account ino_account_src
      ino_account_dup).2.sbi.free.nr_free_blocks = 54 ∧
    zero_refcount_blocks (deduplicate_file (bitmap_allocator 64) st_account ino_account_src
      ino_account_dup).2 = 55 :=
  ⟨by decide, by decide, by decide, by decide, by decide, by decide, by decide, by decide,
   by decide⟩

theorem bitmap_allocator_counting (limit : Nat) : counting_allocator (bitmap_allocator limit) := by
  refine ⟨fun fm h => ?_, fun fm b => rfl⟩
  unfold bitmap_allocator at h ⊢
  dsimp only at h ⊢
  split
  · rfl
  · rename_i h2
    rw [h2] at h
    exact absurd rfl h

/-- C13 (amended): with an allocator that decrements `nr_free_blocks` when it hands out a
block and increments it when a block is released, in a state where every block read
succeeds, a dedup collapse (unlink of a data block `dup_b` with refcount at least 1, then
link of a different live data block `src_b`) and a successful `ouichefs_cow(file, k, 1)`
of a shared data block onto a fresh data block both leave `nr_free_blocks` unchanged,
whereas the number of data blocks with refcount 0 grows by one in a collapse whose `dup_b`
had refcount 1 (it is unchanged when the refcount was at least 2) and shrinks by one in
the copy. -/
theorem free_block_accounting (A : Allocator) (hA : counting_allocator A) (st : FsState)
    (hread : ∀ b, st.bread_ok b = true) (hnb : st.sbi.nr_blocks ≤ 2 ^ 32)
    (hnf : st.sbi.free.nr_free_blocks < 2 ^ 32) :
    (∀ dib j src_b dup_b, data_block st.sbi src_b → data_block st.sbi dup_b →
      src_b ≠ dup_b → 1 ≤ refcount st src_b → refcount st src_b + 1 < 2 ^ 32 →
      1 ≤ refcount st dup_b →
      (dedup_collapsed A st dib j src_b dup_b).sbi.free.nr_free_blocks
        = st.sbi.free.nr_free_blocks ∧
      zero_refcount_blocks (dedup_collapsed A st dib j src_b dup_b)
        = zero_refcount_blocks st + (if refcount st dup_b = 1 then 1 else 0)) ∧
    (∀ (f : file) (k : Nat), (A.get_free_block st.sbi.free).1 ≠ 0 →
      data_block st.sbi (A.get_free_block st.sbi.free).1 →
      refcount st (A.get_free_block st.sbi.free).1 = 0 →
      data_block st.sbi (st.index f.f_inode.index_block k) →
      2 ≤ refcount st (st.index f.f_inode.index_block k) →
      (ouichefs_cow A st f k 1).1 = 0 ∧
      (ouichefs_cow A st f k 1).2.sbi.free.nr_free_blocks = st.sbi.free.nr_free_blocks ∧
      zero_refcount_blocks (ouichefs_cow A st f k 1).2 + 1 = zero_refcount_blocks st) := by
  refine ⟨fun dib j src_b dup_b h1 h2 h3 h4 h5 h6 =>
    collapse_accounting A hA st dib j src_b dup_b hread hnb hnf h1 h2 h3 h4 h5 h6,
    fun f k h1 h2 h3 h4 h5 => ?_⟩
  have hc := cow_accounting A hA st f.f_inode.index_block k hread hnb hnf h1 h2 h3 h4 h5
  unfold ouichefs_cow ouichefs_cow_run
  rw [if_pos (hread _), cow_loop_copy A _ 0 k st (hread _) (by omega) h1 (hread _) (hread _),
    cow_loop_zero]
  exact ⟨rfl, hc.1, hc.2⟩

theorem free_block_accounting_witness :
    counting_allocator (bitmap_allocator 64) ∧ (∀ b, st_account.bread_ok b = true) ∧
    data_block st_account.sbi 10 ∧ data_block st_account.sbi 12 ∧
    refcount st_account 12 = 1 ∧
    (dedup_collapsed (bitmap_allocator 64) st_account 21 0 10 12).sbi.free.nr_free_blocks
      = st_account.sbi.free.nr_free_blocks ∧
    zero_refcount_blocks (dedup_collapsed (bitmap_allocator 64) st_account 21 0 10 12)
      = zero_refcount_blocks st_account + 1 ∧
    2 ≤ refcount st_two_files (st_two_files.index (mk_file 1 20 1 3).f_inode.index_block 0) ∧
    (ouichefs_cow (bitmap_allocator 64) st_two_files (mk_file 1 20 1 3) 0 1).1 = 0 ∧
    (ouichefs_cow (bitmap_allocator 64) st_two_files
      (mk_file 1 20 1 3) 0 1).2.sbi.free.nr_free_blocks
      = st_two_files.sbi.free.nr_free_blocks ∧
    zero_refcount_blocks (ouichefs_cow (bitmap_allocator 64) st_two_files
      (mk_file 1 20 1 3) 0 1).2 + 1 = zero_refcount_blocks st_two_files := by
  have h10 : data_block st_account.sbi 10 := by unfold data_block; decide
  have h12 : data_block st_account.sbi 12 := by unfold data_block; decide
  have h := (free_block_accounting (bitmap_allocator 64) (bitmap_allocator_counting 64)
    st_account (fun _ => rfl) (by decide) (by decide)).1 21 0 10 12 h10 h12 (by decide)
    (by decide) (by decide) (by decide)
  have hc := (free_block_accounting (bitmap_allocator 64) (bitmap_allocator_counting 64)
    st_two_files (fun _ => rfl) (by decide) (by decide)).2 (mk_file 1 20 1 3) 0 (by decide)
    (by unfold data_block; decide) (by decide) (by unfold data_block; decide) (by decide)
  refine ⟨bitmap_allocator_counting 64, fun _ => rfl, h10, h12, by decide, h.1, ?_,
    by decide, hc.1, hc.2.1, hc.2.2⟩
  rw [h.2, if_pos (by decide)]

/-! ## C16: which source block wins when several match -/

theorem u32_to_int_eq_iff (a b : Nat) :
    u32_to_int a = u32_to_int b ↔ a % 2 ^ 32 = b % 2 ^ 32 := by
  unfold u32_to_int
  split_ifs <;> omega

/-- The test `i == last` of `deduplicate_file`, on the 32-bit residues. -/
theorem dedup_last_eq_iff (src : inode) (i : Nat) :
    u32_to_int i = dedup_last src ↔ i % 2 ^ 32 = (src.i_size / OUICHEFS_BLOCK_SIZE) % 2 ^ 32 := by
  unfold dedup_last
  rw [u32_to_int_eq_iff]

theorem compare_len_carried (src : inode) (i : Nat) :
    compare_len src i (carried_len src i) = compare_len_at src i := by
  unfold compare_len carried_len compare_len_at
  simp only [dedup_last_eq_iff]
  generalize src.i_size / OUICHEFS_BLOCK_SIZE = q
  split_ifs <;> first | rfl | omega

theorem carried_len_succ (src : inode) (i : Nat) :
    carried_len src (i + 1) = compare_len_at src i := by
  unfold carried_len compare_len_at
  split_ifs <;> first | rfl | omega

theorem carried_len_zero (src : inode) : carried_len src 0 = OUICHEFS_BLOCK_SIZE := by
  unfold carried_len
  rw [if_neg (Nat.not_lt_zero _)]

theorem compare_len_at_le_carried (src : inode) (i : Nat) :
    compare_len_at src i ≤ carried_len src i := by
  unfold carried_len compare_len_at OUICHEFS_BLOCK_SIZE
  split_ifs <;> omega

theorem compare_len_at_anti (src : inode) {i i1 : Nat} (h : i ≤ i1) :
    compare_len_at src i1 ≤ compare_len_at src i := by
  unfold compare_len_at OUICHEFS_BLOCK_SIZE
  split_ifs <;> omega

/-- The local `last` is an `int`: for a source of `2 ^ 44` bytes the quotient `2 ^ 32` is
stored as `0`, so that `i == last` holds at entry 0 and the compare length is
`2 ^ 44 % 4096 = 0` from there on.  In `st_wrap` the blocks 10 and 12 differ in their first
byte, yet `deduplicate_file` collapses entry 0 of inode 2 onto block 10 and returns 1. -/
theorem dedup_last_wraps :
    ino_wrap_src.i_size / OUICHEFS_BLOCK_SIZE = 2 ^ 32 ∧
    dedup_last ino_wrap_src = 0 ∧
    compare_len_at ino_wrap_src 0 = 0 ∧
    st_wrap.data 10 0 ≠ st_wrap.data 12 0 ∧
    (deduplicate_file (bitmap_allocator 64) st_wrap ino_wrap_src ino_wrap_dup).1 = 1 ∧
    (deduplicate_file (bitmap_allocator 64) st_wrap ino_wrap_src ino_wrap_dup).2.index 21 0
      = 10 ∧
    refcount (deduplicate_file (bitmap_allocator 64) st_wrap ino_wrap_src ino_wrap_dup).2 10
      = 2 ∧
    refcount (deduplicate_file (bitmap_allocator 64) st_wrap ino_wrap_src ino_wrap_dup).2 12
      = 0 := by
  refine ⟨by decide, by decide, by decide, by decide, by decide, by decide, by decide,
    by decide⟩

theorem memcmp_eq_iff (a b : Nat → Nat) (len : Nat) :
    memcmp_eq a b len = true ↔ ∀ k, k < len → a k = b k := by
  unfold memcmp_eq
  exact decide_eq_true_iff

/-- An entry of `dib` that already names the block of source entry `i`, or whose block
differs from the compared buffer within `len` bytes, is left alone by the inner loop. -/
theorem dedup_inner_entry_keep (A : Allocator) (sib dib i sbh_b len : Nat) (hne : sib ≠ dib) :
    ∀ (n j : Nat) (st : FsState) (c : Int) (m : Nat),
      (st.index dib m = st.index sib i ∨
        memcmp_eq (st.data sbh_b) (st.data (st.index dib m)) len = false) →
      (dedup_inner A sib dib i sbh_b len n j st c).st.index dib m = st.index dib m := by
  intro n
  induction n with
  | zero =>
    intro j st c m _
    rw [dedup_inner_zero]
  | succ n ih =>
    intro j st c m hm
    rw [dedup_inner_succ]
    split_ifs with h1 h2 h3
    · exact ih _ _ _ m hm
    · have hcs : (dedup_collapsed A st dib j (st.index sib i) (st.index dib j)).index sib i
          = st.index sib i := by
        rw [dedup_collapsed_index, upd2_other _ _ _ _ _ _ (fun h => hne h.1)]
      by_cases hmj : m = j
      · subst hmj
        rcases hm with hm | hm
        · exact absurd hm.symm h1
        · rw [h3] at hm
          exact absurd hm (by decide)
      · have hcd : (dedup_collapsed A st dib j (st.index sib i) (st.index dib j)).index dib m
            = st.index dib m := by
          rw [dedup_collapsed_index, upd2_other _ _ _ _ _ _ (fun h => hmj h.2)]
        have := ih (j + 1) (dedup_collapsed A st dib j (st.index sib i) (st.index dib j))
          (c + 1) m (by rw [hcd, hcs, dedup_collapsed_data]; exact hm)
        rw [this, hcd]
    · exact ih _ _ _ m hm
    · rfl

/-- An inner loop that meets an entry it must collapse counts at least one collapse. -/
theorem dedup_inner_count_collapse (A : Allocator) (sib dib i sbh_b len : Nat)
    (n j : Nat) (st : FsState) (c : Int) (m : Nat) (hread : ∀ b, st.bread_ok b = true)
    (h1 : j ≤ m) (h2 : m < j + n) (hd : st.index sib i ≠ st.index dib m)
    (hc : memcmp_eq (st.data sbh_b) (st.data (st.index dib m)) len = true) :
    c + 1 ≤ (dedup_inner A sib dib i sbh_b len n j st c).count := by
  have hle := dedup_inner_count A sib dib i sbh_b len n j st c
  by_contra hlt
  have heq : (dedup_inner A sib dib i sbh_b len n j st c).count = c := by omega
  rcases (dedup_inner_no_collapse A sib dib i sbh_b len n j st c hread heq).2 m h1 h2 with h | h
  · exact hd h
  · rw [hc] at h
    exact absurd h (by decide)

/-- Effect of the inner loop for source entry `i` on the data entry `j` of `dup`: the entry
is rewritten, and a collapse counted, exactly when it names another block than the source
entry and that block agrees with the source block on `len` bytes. -/
theorem dedup_inner_step (A : Allocator) (src dup : inode)
    (hne : src.index_block ≠ dup.index_block) (i len j : Nat) (st : FsState) (c : Int)
    (hread : ∀ b, st.bread_ok b = true) (hj : j < nr_data_entries dup) :
    (dedup_inner A src.index_block dup.index_block i (st.index src.index_block i) len
      (nr_data_entries dup) 0 st c).ok = true ∧
    (dedup_inner A src.index_block dup.index_block i (st.index src.index_block i) len
      (nr_data_entries dup) 0 st c).st.data = st.data ∧
    (∀ b, (dedup_inner A src.index_block dup.index_block i (st.index src.index_block i) len
      (nr_data_entries dup) 0 st c).st.bread_ok b = true) ∧
    (∀ x, (dedup_inner A src.index_block dup.index_block i (st.index src.index_block i) len
      (nr_data_entries dup) 0 st c).st.index src.index_block x = st.index src.index_block x) ∧
    c ≤ (dedup_inner A src.index_block dup.index_block i (st.index src.index_block i) len
      (nr_data_entries dup) 0 st c).count ∧
    ((st.index dup.index_block j ≠ st.index src.index_block i ∧
        ∀ k, k < len → st.data (st.index src.index_block i) k
          = st.data (st.index dup.index_block j) k) →
      (dedup_inner A src.index_block dup.index_block i (st.index src.index_block i) len
        (nr_data_entries dup) 0 st c).st.index dup.index_block j = st.index src.index_block i ∧
      c + 1 ≤ (dedup_inner A src.index_block dup.index_block i (st.index src.index_block i)
        len (nr_data_entries dup) 0 st c).count) ∧
    (¬ (st.index dup.index_block j ≠ st.index src.index_block i ∧
        ∀ k, k < len → st.data (st.index src.index_block i) k
          = st.data (st.index dup.index_block j) k) →
      (dedup_inner A src.index_block dup.index_block i (st.index src.index_block i) len
        (nr_data_entries dup) 0 st c).st.index dup.index_block j
        = st.index dup.index_block j) := by
  have hok := dedup_inner_ok A src.index_block dup.index_block i (st.index src.index_block i)
    len (nr_data_entries dup) 0 st c hread
  refine ⟨hok, dedup_inner_data _ _ _ _ _ _ _ _ _ _, fun b => ?_, fun x => ?_,
    dedup_inner_count _ _ _ _ _ _ _ _ _ _, fun h => ⟨?_, ?_⟩, fun h => ?_⟩
  · rw [dedup_inner_bread]
    exact hread b
  · exact dedup_inner_index_frame _ _ _ _ _ _ _ _ _ _ _ _ (Or.inl hne)
  · exact (dedup_inner_entry A _ _ i _ len hne (nr_data_entries dup) 0 st c).2 hok j
      (Nat.zero_le _) (by omega) h.1 ((memcmp_eq_iff _ _ _).2 h.2)
  · exact dedup_inner_count_collapse A _ _ i _ len _ 0 st c j hread (Nat.zero_le _) (by omega)
      (fun e => h.1 e.symm) ((memcmp_eq_iff _ _ _).2 h.2)
  · apply dedup_inner_entry_keep A _ _ i _ len hne
    by_cases h1 : st.index dup.index_block j = st.index src.index_block i
    · exact Or.inl h1
    · right
      by_contra hc
      rw [Bool.not_eq_false] at hc
      exact h ⟨h1, (memcmp_eq_iff _ _ _).1 hc⟩

theorem compare_len_at_le (src : inode) (i : Nat) : compare_len_at src i ≤ OUICHEFS_BLOCK_SIZE := by
  unfold compare_len_at OUICHEFS_BLOCK_SIZE
  split_ifs <;> omega

/-- Once the entry `j` of `dup` names a block `T`, it keeps naming it as long as every
later source entry names `T` itself or a block that differs from `T` within the compared
length. -/
theorem dedup_outer_entry_stays (A : Allocator) (src dup : inode)
    (hne : src.index_block ≠ dup.index_block) (j : Nat) (hj : j < nr_data_entries dup)
    (T : Nat) :
    ∀ (n i : Nat) (st : FsState) (c : Int), (∀ b, st.bread_ok b = true) →
      st.index dup.index_block j = T →
      (∀ x, i ≤ x → x < i + n → st.index src.index_block x = T ∨
        ∃ k, k < compare_len_at src x ∧ st.data (st.index src.index_block x) k ≠ st.data T k) →
      (dedup_outer A src dup n i (carried_len src i) st c).st.index dup.index_block j = T := by
  intro n
  induction n with
  | zero =>
    intro i st c _ hE _
    rw [dedup_outer_zero]
    exact hE
  | succ n ih =>
    intro i st c hread hE hx
    obtain ⟨s1, s2, s3, s4, _, _, s7⟩ :=
      dedup_inner_step A src dup hne i (compare_len_at src i) j st c hread hj
    rw [dedup_outer_succ, if_pos (hread _), compare_len_carried, if_pos s1]
    generalize dedup_inner A src.index_block dup.index_block i (st.index src.index_block i)
      (compare_len_at src i) (nr_data_entries dup) 0 st c = r at s1 s2 s3 s4 s7 ⊢
    rw [← carried_len_succ]
    refine ih (i + 1) _ _ s3 ?_ (fun x h1 h2 => ?_)
    · rw [s7 ?_, hE]
      rintro ⟨h1, h2⟩
      rcases hx i (le_refl _) (by omega) with h | ⟨k, hk, hd⟩
      · exact h1 (hE.trans h.symm)
      · rw [hE] at h2
        exact hd (h2 k hk)
    · rw [s4, s2]
      exact hx x (by omega) (by omega)

/-- The entry `j` of `dup` ends up naming the block `T` of the last source entry `istar`
whose block agrees with the block of the entry on the compared bytes. -/
theorem dedup_outer_last_wins (A : Allocator) (src dup : inode)
    (hne : src.index_block ≠ dup.index_block) (j : Nat) (hj : j < nr_data_entries dup)
    (istar T : Nat) :
    ∀ (n i : Nat) (st : FsState) (c : Int), (∀ b, st.bread_ok b = true) →
      i ≤ istar → istar < i + n → st.index src.index_block istar = T →
      (∀ k, k < compare_len_at src istar →
        st.data T k = st.data (st.index dup.index_block j) k) →
      (∀ x, istar < x → x < i + n → st.index src.index_block x = T ∨
        ∃ k, k < compare_len_at src x ∧ st.data (st.index src.index_block x) k ≠ st.data T k) →
      (dedup_outer A src dup n i (carried_len src i) st c).st.index dup.index_block j = T := by
  intro n
  induction n with
  | zero =>
    intro i st c _ h1 h2
    omega
  | succ n ih =>
    intro i st c hread h1 h2 hT hagree hx
    obtain ⟨s1, s2, s3, s4, _, s6, s7⟩ :=
      dedup_inner_step A src dup hne i (compare_len_at src i) j st c hread hj
    rw [dedup_outer_succ, if_pos (hread _), compare_len_carried, if_pos s1]
    generalize dedup_inner A src.index_block dup.index_block i (st.index src.index_block i)
      (compare_len_at src i) (nr_data_entries dup) 0 st c = r at s1 s2 s3 s4 s6 s7 ⊢
    rw [← carried_len_succ]
    by_cases hi : i = istar
    · subst hi
      refine dedup_outer_entry_stays A src dup hne j hj T n (i + 1) _ _ s3 ?_
        (fun x h3 h4 => ?_)
      · by_cases hc : st.index dup.index_block j ≠ st.index src.index_block i ∧
            ∀ k, k < compare_len_at src i → st.data (st.index src.index_block i) k
              = st.data (st.index dup.index_block j) k
        · rw [(s6 hc).1, hT]
        · rw [s7 hc]
          by_contra hE
          exact hc ⟨fun e => hE (e.trans hT), fun k hk => by rw [hT]; exact hagree k hk⟩
      · rw [s4, s2]
        exact hx x (by omega) (by omega)
    · refine ih (i + 1) _ _ s3 (by omega) (by omega) (by rw [s4]; exact hT) (fun k hk => ?_)
        (fun x h3 h4 => ?_)
      · rw [s2]
        by_cases hc : st.index dup.index_block j ≠ st.index src.index_block i ∧
            ∀ k, k < compare_len_at src i → st.data (st.index src.index_block i) k
              = st.data (st.index dup.index_block j) k
        · rw [(s6 hc).1, hc.2 k (lt_of_lt_of_le hk (compare_len_at_anti src (by omega)))]
          exact hagree k hk
        · rw [s7 hc]
          exact hagree k hk
      · rw [s4, s2]
        exact hx x (by omega) (by omega)

/-- Every source entry marked by `M` collapses the entry `j` of `dup` once more: the
marked entries name blocks that agree with the original block `D` of the entry on the
compared bytes, are distinct from `D` and from the blocks of the earlier source
entries. -/
theorem dedup_outer_count_matches (A : Allocator) (src dup : inode)
    (hne : src.index_block ≠ dup.index_block) (j : Nat) (hj : j < nr_data_entries dup)
    (M : Nat → Bool) (D N : Nat) (S : Nat → Nat) (dat : Nat → Nat → Nat)
    (hM : ∀ x, x < N → M x = true → S x ≠ D ∧ (∀ y, y < x → S y ≠ S x) ∧
      ∀ k, k < compare_len_at src x → dat (S x) k = dat D k) :
    ∀ (n i : Nat) (st : FsState) (c : Int), i + n ≤ N → (∀ b, st.bread_ok b = true) →
      st.data = dat → (∀ x, st.index src.index_block x = S x) →
      (st.index dup.index_block j = D ∨ ∃ y, y < i ∧ st.index dup.index_block j = S y) →
      (∀ k, k < carried_len src i → dat (st.index dup.index_block j) k = dat D k) →
      (count_below M i : Int) ≤ c →
      (count_below M (i + n) : Int)
        ≤ (dedup_outer A src dup n i (carried_len src i) st c).count := by
  intro n
  induction n with
  | zero =>
    intro i st c _ _ _ _ _ _ hc
    rw [dedup_outer_zero]
    exact hc
  | succ n ih =>
    intro i st c hN hread hdat hS hE hagree hc
    obtain ⟨s1, s2, s3, s4, s5, s6, s7⟩ :=
      dedup_inner_step A src dup hne i (compare_len_at src i) j st c hread hj
    rw [dedup_outer_succ, if_pos (hread _), compare_len_carried, if_pos s1]
    generalize dedup_inner A src.index_block dup.index_block i (st.index src.index_block i)
      (compare_len_at src i) (nr_data_entries dup) 0 st c = r at s1 s2 s3 s4 s5 s6 s7 ⊢
    rw [← carried_len_succ]
    have hidx : i + (n + 1) = i + 1 + n := by omega
    rw [hidx]
    have hcb : count_below M (i + 1) = count_below M i + (if M i then 1 else 0) := rfl
    by_cases hcnd : st.index dup.index_block j ≠ st.index src.index_block i ∧
        ∀ k, k < compare_len_at src i → st.data (st.index src.index_block i) k
          = st.data (st.index dup.index_block j) k
    · have hag : ∀ k, k < compare_len_at src i → dat (S i) k = dat D k := by
        intro k hk
        have := hcnd.2 k hk
        rw [hdat, hS] at this
        rw [this]
        exact hagree k (lt_of_lt_of_le hk (compare_len_at_le_carried src i))
      refine ih (i + 1) _ _ (by omega) s3 (s2.trans hdat) (fun x => by rw [s4, hS])
        (Or.inr ⟨i, by omega, by rw [(s6 hcnd).1, hS]⟩) (fun k hk => ?_) ?_
      · rw [(s6 hcnd).1, hS]
        rw [carried_len_succ] at hk
        exact hag k hk
      · rw [hcb]
        have := (s6 hcnd).2
        split_ifs <;> push_cast <;> omega
    · have hMi : M i = false := by
        by_contra hMt
        rw [Bool.not_eq_false] at hMt
        obtain ⟨m1, m2, m3⟩ := hM i (by omega) hMt
        apply hcnd
        refine ⟨fun e => ?_, fun k hk => ?_⟩
        · rcases hE with h | ⟨y, hy, h⟩
          · rw [h, hS] at e
            exact m1 e.symm
          · rw [h, hS] at e
            exact m2 y hy e
        · rw [hdat, hS, m3 k hk]
          exact (hagree k (lt_of_lt_of_le hk (compare_len_at_le_carried src i))).symm
      refine ih (i + 1) _ _ (by omega) s3 (s2.trans hdat) (fun x => by rw [s4, hS])
        ?_ (fun k hk => ?_) ?_
      · rw [s7 hcnd]
        rcases hE with h | ⟨y, hy, h⟩
        · exact Or.inl h
        · exact Or.inr ⟨y, by omega, h⟩
      · rw [s7 hcnd]
        rw [carried_len_succ] at hk
        exact hagree k (lt_of_lt_of_le hk (compare_len_at_le_carried src i))
      · rw [hcb, hMi]
        simp only [Bool.false_eq_true, if_false, Nat.add_zero]
        omega

/-- After `deduplicate_file(src, dup)` the entry `j` of `dup` names the block of the last
source entry whose block agrees with the block of the entry on the compared bytes. -/
theorem dedup_file_last_wins (A : Allocator) (st : FsState) (src dup : inode)
    (hne : src.index_block ≠ dup.index_block) (hread : ∀ b, st.bread_ok b = true)
    (j istar : Nat) (hj : j < nr_data_entries dup) (hi : istar < nr_data_entries src)
    (hmatch : ∀ k, k < compare_len_at src istar →
      st.data (st.index src.index_block istar) k = st.data (st.index dup.index_block j) k)
    (hlater : ∀ x, istar < x → x < nr_data_entries src →
      st.index src.index_block x = st.index src.index_block istar ∨
      ∃ k, k < compare_len_at src x ∧
        st.data (st.index src.index_block x) k ≠ st.data (st.index src.index_block istar) k) :
    (deduplicate_file A st src dup).2.index dup.index_block j
      = st.index src.index_block istar := by
  rw [dedup_file_of_read A st src dup hread]
  show (dedup_outer A src dup (nr_data_entries src) 0 OUICHEFS_BLOCK_SIZE st 0).st.index
    dup.index_block j = _
  rw [← carried_len_zero src]
  exact dedup_outer_last_wins A src dup hne j hj istar _ (nr_data_entries src) 0 st 0 hread
    (Nat.zero_le _) (by omega) rfl hmatch (fun x h1 h2 => hlater x h1 (by omega))

/-- The count returned by `deduplicate_file(src, dup)` is at least the number of source
entries marked by `M`, when each of them names a block that agrees with the block of the
entry `j` of `dup` on the compared bytes and is distinct from that block and from the
blocks of the earlier source entries. -/
theorem dedup_file_count_matches (A : Allocator) (st : FsState) (src dup : inode)
    (hne : src.index_block ≠ dup.index_block) (hread : ∀ b, st.bread_ok b = true)
    (j : Nat) (hj : j < nr_data_entries dup) (M : Nat → Bool)
    (hM : ∀ x, x < nr_data_entries src → M x = true →
      st.index src.index_block x ≠ st.index dup.index_block j ∧
      (∀ y, y < x → st.index src.index_block y ≠ st.index src.index_block x) ∧
      ∀ k, k < compare_len_at src x →
        st.data (st.index src.index_block x) k = st.data (st.index dup.index_block j) k) :
    (count_below M (nr_data_entries src) : Int) ≤ (deduplicate_file A st src dup).1 := by
  rw [dedup_file_of_read A st src dup hread]
  show _ ≤ (dedup_outer A src dup (nr_data_entries src) 0 OUICHEFS_BLOCK_SIZE st 0).count
  rw [← carried_len_zero src]
  have := dedup_outer_count_matches A src dup hne j hj M (st.index dup.index_block j)
    (nr_data_entries src) (fun x => st.index src.index_block x) st.data hM
    (nr_data_entries src) 0 st 0 (by omega) hread rfl (fun _ => rfl) (Or.inl rfl)
    (fun _ _ => rfl) (by simp [count_below])
  rw [Nat.zero_add] at this
  exact this

/-- C16 (counterexample to the claim as stated): in `st_tie` the block 12 of entry 0 of
`dup` has the same content as the two distinct blocks 10 and 11 of `src`.  After
`deduplicate_file(src, dup)` the entry names block 11, the last of them in the index order
of `src`, not block 10, and the count returned is at least 2: the entry was collapsed
twice. -/
theorem dedup_tie_break_counterexample :
    ino_tie_src.index_block ≠ ino_tie_dup.index_block ∧ (∀ b, st_tie.bread_ok b = true) ∧
    st_tie.index ino_tie_src.index_block 0 = 10 ∧
    st_tie.index ino_tie_src.index_block 1 = 11 ∧
    st_tie.index ino_tie_dup.index_block 0 = 12 ∧
    (∀ k, st_tie.data 10 k = st_tie.data 12 k ∧ st_tie.data 11 k = st_tie.data 12 k) ∧
    (deduplicate_file (bitmap_allocator 64) st_tie ino_tie_src ino_tie_dup).2.index
      ino_tie_dup.index_block 0 = 11 ∧
    (deduplicate_file (bitmap_allocator 64) st_tie ino_tie_src ino_tie_dup).2.index
      ino_tie_dup.index_block 0 ≠ st_tie.index ino_tie_src.index_block 0 ∧
    2 ≤ (deduplicate_file (bitmap_allocator 64) st_tie ino_tie_src ino_tie_dup).1 := by
  have hne : ino_tie_src.index_block ≠ ino_tie_dup.index_block := by decide
  have hread : ∀ b, st_tie.bread_ok b = true := fun _ => rfl
  have h11 : (deduplicate_file (bitmap_allocator 64) st_tie ino_tie_src ino_tie_dup).2.index
      ino_tie_dup.index_block 0 = 11 :=
    (dedup_file_last_wins (bitmap_allocator 64) st_tie ino_tie_src ino_tie_dup hne hread 0 1
      (by decide) (by decide) (fun _ _ => rfl)
      (fun x h1 h2 => absurd h2 (by
        have : nr_data_entries ino_tie_src = 2 := by decide
        omega))).trans (by decide)
  have hcount := dedup_file_count_matches (bitmap_allocator 64) st_tie ino_tie_src ino_tie_dup
    hne hread 0 (by decide) (fun _ => true) (fun x hx _ => by
      have hx2 : x < 2 := hx
      interval_cases x
      · exact ⟨by decide, fun y hy => absurd hy (by omega), fun _ _ => rfl⟩
      · refine ⟨by decide, fun y hy => ?_, fun _ _ => rfl⟩
        have : y = 0 := by omega
        subst this
        decide)
  refine ⟨hne, hread, by decide, by decide, by decide, fun _ => ⟨rfl, rfl⟩, h11, ?_, ?_⟩
  · rw [h11]
    decide
  · have h2 : count_below (fun _ => true) (nr_data_entries ino_tie_src) = 2 := by decide
    rw [h2] at hcount
    exact hcount

/-- C16 (amended): for `src` and `dup` with different index blocks, all reads succeeding,
let `istar` be the last data entry of `src` whose block has the same content as the block
of the data entry `j` of `dup`, every later entry of `src` naming either the same block as
`istar` or a block that differs from it within the compared length.  After
`deduplicate_file(src, dup)` the entry `j` of `dup` names the block of `istar`: the last
matching block in the index order of `src` wins, since the guard compares block numbers
and a later matching block, distinct from the earlier winner, collapses the entry again.
The compared length at an entry of `src` is `compare_len_at`, the length `memcmp` is
called with: the whole block before the entry `i == last`, `i_size % 4096` from it on,
`last` being the `int` that holds `i_size / 4096`.
Each of these collapses is counted: the value returned is at least the number of entries
of `src` whose block has the same content as the original block of entry `j`, is distinct
from it and is distinct from the blocks of the earlier entries of `src`. -/
theorem dedup_tie_break (A : Allocator) (st : FsState) (src dup : inode) (j istar : Nat)
    (hne : src.index_block ≠ dup.index_block) (hread : ∀ b, st.bread_ok b = true)
    (hj : j < nr_data_entries dup) (hi : istar < nr_data_entries src)
    (hmatch : ∀ k, k < OUICHEFS_BLOCK_SIZE →
      st.data (st.index src.index_block istar) k = st.data (st.index dup.index_block j) k)
    (hlater : ∀ x, istar < x → x < nr_data_entries src →
      st.index src.index_block x = st.index src.index_block istar ∨
      ∃ k, k < compare_len_at src x ∧
        st.data (st.index src.index_block x) k ≠ st.data (st.index src.index_block istar) k) :
    (deduplicate_file A st src dup).2.index dup.index_block j
      = st.index src.index_block istar ∧
    (∀ M : Nat → Bool,
      (∀ x, x < nr_data_entries src → M x = true →
        st.index src.index_block x ≠ st.index dup.index_block j ∧
        (∀ y, y < x → st.index src.index_block y ≠ st.index src.index_block x) ∧
        ∀ k, k < OUICHEFS_BLOCK_SIZE →
          st.data (st.index src.index_block x) k = st.data (st.index dup.index_block j) k) →
      (count_below M (nr_data_entries src) : Int) ≤ (deduplicate_file A st src dup).1) :=
  ⟨dedup_file_last_wins A st src dup hne hread j istar hj hi
      (fun k hk => hmatch k (lt_of_lt_of_le hk (compare_len_at_le src istar))) hlater,
   fun M hM => dedup_file_count_matches A st src dup hne hread j hj M
      (fun x hx hMx => ⟨(hM x hx hMx).1, (hM x hx hMx).2.1,
        fun k hk => (hM x hx hMx).2.2 k (lt_of_lt_of_le hk (compare_len_at_le src x))⟩)⟩

theorem dedup_tie_break_witness :
    ino_tie_src.index_block ≠ ino_tie_dup.index_block ∧ (∀ b, st_tie.bread_ok b = true) ∧
    0 < nr_data_entries ino_tie_dup ∧ 1 < nr_data_entries ino_tie_src ∧
    (∀ k, k < OUICHEFS_BLOCK_SIZE →
      st_tie.data (st_tie.index ino_tie_src.index_block 1) k
        = st_tie.data (st_tie.index ino_tie_dup.index_block 0) k) ∧
    (deduplicate_file (bitmap_allocator 64) st_tie ino_tie_src ino_tie_dup).2.index
      ino_tie_dup.index_block 0 = st_tie.index ino_tie_src.index_block 1 :=
  ⟨by decide, fun _ => rfl, by decide, by decide, fun _ _ => rfl,
   (dedup_tie_break (bitmap_allocator 64) st_tie ino_tie_src ino_tie_dup 0 1 (by decide)
      (fun _ => rfl) (by decide) (by decide) (fun _ _ => rfl)
      (fun x h1 h2 => absurd h2 (by
        have : nr_data_entries ino_tie_src = 2 := by decide
        omega))).1⟩

/-! ## C11: the candidate block after `ouichefs_deduplicate` -/

theorem same_registry_refl (s : FsState) : same_registry s s := ⟨rfl, rfl, rfl⟩

theorem same_registry_trans {s t u : FsState} (h1 : same_registry s t)
    (h2 : same_registry t u) : same_registry s u :=
  ⟨h2.1.trans h1.1, h2.2.1.trans h1.2.1, h2.2.2.trans h1.2.2⟩

theorem link_registry (st : FsState) (bno : Nat) :
    same_registry st (ouichefs_link_block st bno).2 := by
  unfold ouichefs_link_block
  dsimp only
  split_ifs <;> exact ⟨rfl, rfl, rfl⟩

theorem unlink_registry (A : Allocator) (st : FsState) (bno : Nat) :
    same_registry st (ouichefs_unlink_block A st bno).2 := by
  unfold ouichefs_unlink_block
  dsimp only
  split_ifs <;> exact ⟨rfl, rfl, rfl⟩

theorem dedup_collapsed_registry (A : Allocator) (st : FsState) (dib j src_b dup_b : Nat) :
    same_registry st (dedup_collapsed A st dib j src_b dup_b) := by
  unfold dedup_collapsed
  have h1 := unlink_registry A st dup_b
  have h2 := link_registry
    ({ (ouichefs_unlink_block A st dup_b).2 with
       index := upd2 (ouichefs_unlink_block A st dup_b).2.index dib j src_b } : FsState) src_b
  exact ⟨h2.1.trans h1.1, h2.2.1.trans h1.2.1, h2.2.2.trans h1.2.2⟩

theorem dedup_inner_registry (A : Allocator) (sib dib i sbh_b len : Nat) :
    ∀ (n j : Nat) (st : FsState) (c : Int),
      same_registry st (dedup_inner A sib dib i sbh_b len n j st c).st := by
  intro n
  induction n with
  | zero => intro j st c; rw [dedup_inner_zero]; exact same_registry_refl _
  | succ n ih =>
    intro j st c
    rw [dedup_inner_succ]
    split_ifs
    · exact ih _ _ _
    · exact same_registry_trans (dedup_collapsed_registry A st dib j _ _) (ih _ _ _)
    · exact ih _ _ _
    · exact same_registry_refl _

theorem dedup_outer_registry (A : Allocator) (src dup : inode) :
    ∀ (n i len : Nat) (st : FsState) (c : Int),
      same_registry st (dedup_outer A src dup n i len st c).st := by
  intro n
  induction n with
  | zero => intro i len st c; rw [dedup_outer_zero]; exact same_registry_refl _
  | succ n ih =>
    intro i len st c
    rw [dedup_outer_succ]
    split_ifs
    · exact same_registry_trans (dedup_inner_registry A _ _ _ _ _ _ _ st c) (ih _ _ _ _)
    · exact dedup_inner_registry A _ _ _ _ _ _ _ st c
    · exact same_registry_refl _

theorem dedup_file_registry (A : Allocator) (st : FsState) (src dup : inode) :
    same_registry st (deduplicate_file A st src dup).2 := by
  have h := dedup_outer_registry A src dup (nr_data_entries src) 0 OUICHEFS_BLOCK_SIZE st 0
  unfold deduplicate_file
  dsimp only
  split_ifs
  · exact h
  · exact h
  · exact same_registry_refl _
  · exact same_registry_refl _

theorem dedup_scan_zero (A : Allocator) (iget : FsState → Nat → Except Int inode) (b : Nat)
    (fd : Bool) (dindex : Nat) (idup : inode) (sindex : Nat) (st : FsState) (found : Int) :
    dedup_scan A iget b fd dindex idup 0 sindex st found = ⟨none, st, found⟩ := by
  rw [dedup_scan]

/-- The scan stops at a zero slot or at slot 512. -/
theorem dedup_scan_end (A : Allocator) (iget : FsState → Nat → Except Int inode) (b : Nat)
    (fd : Bool) (dindex : Nat) (idup : inode) (n sindex : Nat) (st : FsState) (found : Int)
    (h : ¬ (scanned fd (st.dupblock b) sindex ≠ 0 ∧ sindex < DUP_LIST_LEN)) :
    dedup_scan A iget b fd dindex idup n sindex st found = ⟨none, st, found⟩ := by
  cases n with
  | zero => rw [dedup_scan_zero]
  | succ n =>
    rw [dedup_scan]
    unfold scanned at h
    dsimp only
    rw [if_neg h]

/-- The scan skips the slot holding the inode number of the candidate itself. -/
theorem dedup_scan_same (A : Allocator) (iget : FsState → Nat → Except Int inode) (b : Nat)
    (fd : Bool) (dindex : Nat) (idup : inode) (n sindex : Nat) (st : FsState) (found : Int)
    (h : scanned fd (st.dupblock b) sindex ≠ 0 ∧ sindex < DUP_LIST_LEN)
    (hs : scanned fd (st.dupblock b) sindex = (st.dupblock b).iduplicated dindex) :
    dedup_scan A iget b fd dindex idup (n + 1) sindex st found
      = dedup_scan A iget b fd dindex idup n (sindex + 1) st found := by
  rw [dedup_scan]
  unfold scanned at h hs
  dsimp only
  rw [if_pos h, if_pos hs]

/-- The scan is left with the error code when the inode of the slot cannot be fetched. -/
theorem dedup_scan_fetch_err (A : Allocator) (iget : FsState → Nat → Except Int inode)
    (b : Nat) (fd : Bool) (dindex : Nat) (idup : inode) (n sindex : Nat) (st : FsState)
    (found : Int) (e : Int)
    (h : scanned fd (st.dupblock b) sindex ≠ 0 ∧ sindex < DUP_LIST_LEN)
    (hs : scanned fd (st.dupblock b) sindex ≠ (st.dupblock b).iduplicated dindex)
    (hg : iget st (scanned fd (st.dupblock b) sindex) = .error e) :
    dedup_scan A iget b fd dindex idup (n + 1) sindex st found = ⟨some e, st, found⟩ := by
  rw [dedup_scan]
  unfold scanned at h hs hg
  dsimp only
  rw [if_pos h, if_neg hs, hg]

/-- One iteration of the scan on a slot whose inode is fetched. -/
theorem dedup_scan_fetch_ok (A : Allocator) (iget : FsState → Nat → Except Int inode)
    (b : Nat) (fd : Bool) (dindex : Nat) (idup : inode) (n sindex : Nat) (st : FsState)
    (found : Int) (isrc : inode)
    (h : scanned fd (st.dupblock b) sindex ≠ 0 ∧ sindex < DUP_LIST_LEN)
    (hs : scanned fd (st.dupblock b) sindex ≠ (st.dupblock b).iduplicated dindex)
    (hg : iget st (scanned fd (st.dupblock b) sindex) = .ok isrc) :
    dedup_scan A iget b fd dindex idup (n + 1) sindex st found =
      if found + (deduplicate_file A st isrc idup).1 < 0 then
        ⟨some (-1), (deduplicate_file A st isrc idup).2,
          found + (deduplicate_file A st isrc idup).1⟩
      else if found + (deduplicate_file A st isrc idup).1 = (nr_data_entries idup : Int) then
        ⟨none, (deduplicate_file A st isrc idup).2,
          found + (deduplicate_file A st isrc idup).1⟩
      else
        dedup_scan A iget b fd dindex idup n (sindex + 1) (deduplicate_file A st isrc idup).2
          (found + (deduplicate_file A st isrc idup).1) := by
  rw [dedup_scan]
  unfold scanned at h hs hg
  dsimp only
  rw [if_pos h, if_neg hs, hg]

theorem dedup_pass_zero (A : Allocator) (iget : FsState → Nat → Except Int inode) (b : Nat)
    (dindex : Nat) (st : FsState) (ret : Int) :
    dedup_pass A iget b 0 dindex st ret = ⟨true, st, ret⟩ := by
  rw [dedup_pass]

/-- The outer loop stops at a zero slot or at slot 512. -/
theorem dedup_pass_end (A : Allocator) (iget : FsState → Nat → Except Int inode) (b : Nat)
    (n dindex : Nat) (st : FsState) (ret : Int)
    (h : ¬ ((st.dupblock b).iduplicated dindex ≠ 0 ∧ dindex < DUP_LIST_LEN)) :
    dedup_pass A iget b n dindex st ret = ⟨true, st, ret⟩ := by
  cases n with
  | zero => rw [dedup_pass_zero]
  | succ n =>
    rw [dedup_pass]
    rw [if_neg h]

/-- The outer loop jumps to `END` when the candidate cannot be fetched. -/
theorem dedup_pass_fetch_err (A : Allocator) (iget : FsState → Nat → Except Int inode)
    (b : Nat) (n dindex : Nat) (st : FsState) (ret e : Int)
    (h : (st.dupblock b).iduplicated dindex ≠ 0 ∧ dindex < DUP_LIST_LEN)
    (hg : iget st ((st.dupblock b).iduplicated dindex) = .error e) :
    dedup_pass A iget b (n + 1) dindex st ret = ⟨false, st, e⟩ := by
  rw [dedup_pass]
  rw [if_pos h, hg]

/-- One iteration of the outer loop on a candidate that is fetched. -/
theorem dedup_pass_fetch_ok (A : Allocator) (iget : FsState → Nat → Except Int inode)
    (b : Nat) (n dindex : Nat) (st : FsState) (ret : Int) (idup : inode)
    (h : (st.dupblock b).iduplicated dindex ≠ 0 ∧ dindex < DUP_LIST_LEN)
    (hg : iget st ((st.dupblock b).iduplicated dindex) = .ok idup) :
    dedup_pass A iget b (n + 1) dindex st ret =
      match (dedup_scans A iget b dindex idup st).err with
      | some e => ⟨false, (dedup_scans A iget b dindex idup st).st, e⟩
      | none => dedup_pass A iget b n (dindex + 1) (dedup_scans A iget b dindex idup st).st
          (ret + (dedup_scans A iget b dindex idup st).found) := by
  rw [dedup_pass]
  rw [if_pos h, hg]
  unfold dedup_scans
  dsimp only
  cases h1 : (dedup_scan A iget b false dindex idup DUP_LIST_LEN 1 st 0).err with
  | some e => simp [h1]
  | none =>
    by_cases h2 : (dedup_scan A iget b false dindex idup DUP_LIST_LEN 1 st 0).found = 0
    · simp only [h1, h2, and_self, if_true]
    · simp [h1, h2]

/-- The result of the scan loop does not depend on the number of iterations allowed, as
long as it reaches past slot 512: the loop always stops on its own condition. -/
theorem dedup_scan_fuel (A : Allocator) (iget : FsState → Nat → Except Int inode) (b : Nat)
    (fd : Bool) (dindex : Nat) (idup : inode) :
    ∀ (n m sindex : Nat) (st : FsState) (found : Int),
      DUP_LIST_LEN < sindex + n → DUP_LIST_LEN < sindex + m →
      dedup_scan A iget b fd dindex idup n sindex st found
        = dedup_scan A iget b fd dindex idup m sindex st found := by
  intro n
  induction n with
  | zero =>
    intro m sindex st found h1 _
    rw [dedup_scan_zero, dedup_scan_end A iget b fd dindex idup m sindex st found
      (fun h => by have := h.2; omega)]
  | succ n ih =>
    intro m sindex st found h1 h2
    by_cases h : scanned fd (st.dupblock b) sindex ≠ 0 ∧ sindex < DUP_LIST_LEN
    · obtain ⟨m, rfl⟩ : ∃ k, m = k + 1 := ⟨m - 1, by have := h.2; omega⟩
      by_cases hs : scanned fd (st.dupblock b) sindex = (st.dupblock b).iduplicated dindex
      · rw [dedup_scan_same A iget b fd dindex idup n sindex st found h hs,
          dedup_scan_same A iget b fd dindex idup m sindex st found h hs]
        exact ih m (sindex + 1) st found (by omega) (by omega)
      · cases hg : iget st (scanned fd (st.dupblock b) sindex) with
        | error e =>
          rw [dedup_scan_fetch_err A iget b fd dindex idup n sindex st found e h hs hg,
            dedup_scan_fetch_err A iget b fd dindex idup m sindex st found e h hs hg]
        | ok isrc =>
          rw [dedup_scan_fetch_ok A iget b fd dindex idup n sindex st found isrc h hs hg,
            dedup_scan_fetch_ok A iget b fd dindex idup m sindex st found isrc h hs hg,
            ih m (sindex + 1) _ _ (by omega) (by omega)]
    · rw [dedup_scan_end A iget b fd dindex idup (n + 1) sindex st found h,
        dedup_scan_end A iget b fd dindex idup m sindex st found h]

/-- The result of the outer loop does not depend on the number of iterations allowed, as
long as it reaches past slot 512. -/
theorem dedup_pass_fuel (A : Allocator) (iget : FsState → Nat → Except Int inode) (b : Nat) :
    ∀ (n m dindex : Nat) (st : FsState) (ret : Int),
      DUP_LIST_LEN < dindex + n → DUP_LIST_LEN < dindex + m →
      dedup_pass A iget b n dindex st ret = dedup_pass A iget b m dindex st ret := by
  intro n
  induction n with
  | zero =>
    intro m dindex st ret h1 _
    rw [dedup_pass_zero, dedup_pass_end A iget b m dindex st ret
      (fun h => by have := h.2; omega)]
  | succ n ih =>
    intro m dindex st ret h1 h2
    by_cases h : (st.dupblock b).iduplicated dindex ≠ 0 ∧ dindex < DUP_LIST_LEN
    · obtain ⟨m, rfl⟩ : ∃ k, m = k + 1 := ⟨m - 1, by have := h.2; omega⟩
      cases hg : iget st ((st.dupblock b).iduplicated dindex) with
      | error e =>
        rw [dedup_pass_fetch_err A iget b n dindex st ret e h hg,
          dedup_pass_fetch_err A iget b m dindex st ret e h hg]
      | ok idup =>
        rw [dedup_pass_fetch_ok A iget b n dindex st ret idup h hg,
          dedup_pass_fetch_ok A iget b m dindex st ret idup h hg,
          ih m (dindex + 1) _ _ (by omega) (by omega)]
    · rw [dedup_pass_end A iget b (n + 1) dindex st ret h,
        dedup_pass_end A iget b m dindex st ret h]

theorem dedup_scan_registry (A : Allocator) (iget : FsState → Nat → Except Int inode)
    (b : Nat) (fd : Bool) (dindex : Nat) (idup : inode) :
    ∀ (n sindex : Nat) (st : FsState) (found : Int),
      same_registry st (dedup_scan A iget b fd dindex idup n sindex st found).st := by
  intro n
  induction n with
  | zero => intro sindex st found; rw [dedup_scan_zero]; exact same_registry_refl _
  | succ n ih =>
    intro sindex st found
    by_cases h : scanned fd (st.dupblock b) sindex ≠ 0 ∧ sindex < DUP_LIST_LEN
    · by_cases hs : scanned fd (st.dupblock b) sindex = (st.dupblock b).iduplicated dindex
      · rw [dedup_scan_same A iget b fd dindex idup n sindex st found h hs]
        exact ih _ _ _
      · cases hg : iget st (scanned fd (st.dupblock b) sindex) with
        | error e =>
          rw [dedup_scan_fetch_err A iget b fd dindex idup n sindex st found e h hs hg]
          exact same_registry_refl _
        | ok isrc =>
          rw [dedup_scan_fetch_ok A iget b fd dindex idup n sindex st found isrc h hs hg]
          split_ifs
          · exact dedup_file_registry A st isrc idup
          · exact dedup_file_registry A st isrc idup
          · exact same_registry_trans (dedup_file_registry A st isrc idup) (ih _ _ _)
    · rw [dedup_scan_end A iget b fd dindex idup (n + 1) sindex st found h]
      exact same_registry_refl _

/-- A scan left normally has a non-negative `found`; a scan left through an error has
assigned a negative value to `ret`, error pointers carrying negative codes. -/
theorem dedup_scan_sign (A : Allocator) (iget : FsState → Nat → Except Int inode)
    (hneg : ∀ s n e, iget s n = .error e → e < 0)
    (b : Nat) (fd : Bool) (dindex : Nat) (idup : inode) :
    ∀ (n sindex : Nat) (st : FsState) (found : Int), 0 ≤ found →
      ((dedup_scan A iget b fd dindex idup n sindex st found).err = none →
        0 ≤ (dedup_scan A iget b fd dindex idup n sindex st found).found) ∧
      (∀ e, (dedup_scan A iget b fd dindex idup n sindex st found).err = some e → e < 0) := by
  intro n
  induction n with
  | zero =>
    intro sindex st found h
    rw [dedup_scan_zero]
    exact ⟨fun _ => h, fun e he => by simp at he⟩
  | succ n ih =>
    intro sindex st found hf
    by_cases h : scanned fd (st.dupblock b) sindex ≠ 0 ∧ sindex < DUP_LIST_LEN
    · by_cases hs : scanned fd (st.dupblock b) sindex = (st.dupblock b).iduplicated dindex
      · rw [dedup_scan_same A iget b fd dindex idup n sindex st found h hs]
        exact ih _ _ _ hf
      · cases hg : iget st (scanned fd (st.dupblock b) sindex) with
        | error e =>
          rw [dedup_scan_fetch_err A iget b fd dindex idup n sindex st found e h hs hg]
          refine ⟨fun hn => by simp at hn, fun e1 he1 => ?_⟩
          simp only [Option.some.injEq] at he1
          rw [← he1]
          exact hneg _ _ _ hg
        | ok isrc =>
          rw [dedup_scan_fetch_ok A iget b fd dindex idup n sindex st found isrc h hs hg]
          split_ifs with h1 h2
          · refine ⟨fun hn => by simp at hn, fun e1 he1 => ?_⟩
            simp only [Option.some.injEq] at he1
            omega
          · exact ⟨fun _ => by
              show 0 ≤ found + (deduplicate_file A st isrc idup).1
              omega, fun e he => by simp at he⟩
          · exact ih _ _ _ (by omega)
    · rw [dedup_scan_end A iget b fd dindex idup (n + 1) sindex st found h]
      exact ⟨fun _ => hf, fun e he => by simp at he⟩

/-- When every inode fetch and every block read succeeds the scan is left normally. -/
theorem dedup_scan_ok (A : Allocator) (iget : FsState → Nat → Except Int inode)
    (hget : ∀ s n, ∃ ino, iget s n = .ok ino)
    (b : Nat) (fd : Bool) (dindex : Nat) (idup : inode) :
    ∀ (n sindex : Nat) (st : FsState) (found : Int), (∀ x, st.bread_ok x = true) →
      0 ≤ found → (dedup_scan A iget b fd dindex idup n sindex st found).err = none := by
  intro n
  induction n with
  | zero =>
    intro sindex st found _ _
    rw [dedup_scan_zero]
  | succ n ih =>
    intro sindex st found hread hf
    by_cases h : scanned fd (st.dupblock b) sindex ≠ 0 ∧ sindex < DUP_LIST_LEN
    · by_cases hs : scanned fd (st.dupblock b) sindex = (st.dupblock b).iduplicated dindex
      · rw [dedup_scan_same A iget b fd dindex idup n sindex st found h hs]
        exact ih _ _ _ hread hf
      · obtain ⟨isrc, hg⟩ := hget st (scanned fd (st.dupblock b) sindex)
        have hnn := dedup_file_nonneg_of_read A st isrc idup hread
        rw [dedup_scan_fetch_ok A iget b fd dindex idup n sindex st found isrc h hs hg]
        rw [if_neg (by omega)]
        split_ifs
        · rfl
        · refine ih _ _ _ (fun x => ?_) (by omega)
          rw [(dedup_file_registry A st isrc idup).2.1]
          exact hread x
    · rw [dedup_scan_end A iget b fd dindex idup (n + 1) sindex st found h]

theorem dedup_scans_registry (A : Allocator) (iget : FsState → Nat → Except Int inode)
    (b dindex : Nat) (idup : inode) (st : FsState) :
    same_registry st (dedup_scans A iget b dindex idup st).st := by
  unfold dedup_scans
  split_ifs
  · exact same_registry_trans (dedup_scan_registry A iget b false dindex idup _ _ st 0)
      (dedup_scan_registry A iget b true dindex idup _ _ _ 0)
  · exact dedup_scan_registry A iget b false dindex idup _ _ st 0

theorem dedup_scans_sign (A : Allocator) (iget : FsState → Nat → Except Int inode)
    (hneg : ∀ s n e, iget s n = .error e → e < 0)
    (b dindex : Nat) (idup : inode) (st : FsState) :
    ((dedup_scans A iget b dindex idup st).err = none →
      0 ≤ (dedup_scans A iget b dindex idup st).found) ∧
    (∀ e, (dedup_scans A iget b dindex idup st).err = some e → e < 0) := by
  unfold dedup_scans
  split_ifs
  · exact dedup_scan_sign A iget hneg b true dindex idup _ _ _ 0 (le_refl 0)
  · exact dedup_scan_sign A iget hneg b false dindex idup _ _ st 0 (le_refl 0)

theorem dedup_scans_ok (A : Allocator) (iget : FsState → Nat → Except Int inode)
    (hget : ∀ s n, ∃ ino, iget s n = .ok ino)
    (b dindex : Nat) (idup : inode) (st : FsState) (hread : ∀ x, st.bread_ok x = true) :
    (dedup_scans A iget b dindex idup st).err = none := by
  unfold dedup_scans
  split_ifs
  · refine dedup_scan_ok A iget hget b true dindex idup _ _ _ 0 (fun x => ?_) (le_refl 0)
    rw [(dedup_scan_registry A iget b false dindex idup _ _ st 0).2.1]
    exact hread x
  · exact dedup_scan_ok A iget hget b false dindex idup _ _ st 0 hread (le_refl 0)

theorem dedup_pass_registry (A : Allocator) (iget : FsState → Nat → Except Int inode)
    (b : Nat) :
    ∀ (n dindex : Nat) (st : FsState) (ret : Int),
      same_registry st (dedup_pass A iget b n dindex st ret).st := by
  intro n
  induction n with
  | zero => intro dindex st ret; rw [dedup_pass_zero]; exact same_registry_refl _
  | succ n ih =>
    intro dindex st ret
    by_cases h : (st.dupblock b).iduplicated dindex ≠ 0 ∧ dindex < DUP_LIST_LEN
    · cases hg : iget st ((st.dupblock b).iduplicated dindex) with
      | error e =>
        rw [dedup_pass_fetch_err A iget b n dindex st ret e h hg]
        exact same_registry_refl _
      | ok idup =>
        rw [dedup_pass_fetch_ok A iget b n dindex st ret idup h hg]
        have hs := dedup_scans_registry A iget b dindex idup st
        cases he : (dedup_scans A iget b dindex idup st).err with
        | some e => exact hs
        | none => exact same_registry_trans hs (ih _ _ _)
    · rw [dedup_pass_end A iget b (n + 1) dindex st ret h]
      exact same_registry_refl _

/-- The outer loop run to its end leaves a non-negative `ret`; left through a jump to
`END` it leaves a negative one, error pointers carrying negative codes. -/
theorem dedup_pass_sign (A : Allocator) (iget : FsState → Nat → Except Int inode)
    (hneg : ∀ s n e, iget s n = .error e → e < 0) (b : Nat) :
    ∀ (n dindex : Nat) (st : FsState) (ret : Int), 0 ≤ ret →
      ((dedup_pass A iget b n dindex st ret).done = true →
        0 ≤ (dedup_pass A iget b n dindex st ret).ret) ∧
      ((dedup_pass A iget b n dindex st ret).done = false →
        (dedup_pass A iget b n dindex st ret).ret < 0) := by
  intro n
  induction n with
  | zero =>
    intro dindex st ret hr
    rw [dedup_pass_zero]
    exact ⟨fun _ => hr, fun h => by simp at h⟩
  | succ n ih =>
    intro dindex st ret hr
    by_cases h : (st.dupblock b).iduplicated dindex ≠ 0 ∧ dindex < DUP_LIST_LEN
    · cases hg : iget st ((st.dupblock b).iduplicated dindex) with
      | error e =>
        rw [dedup_pass_fetch_err A iget b n dindex st ret e h hg]
        exact ⟨fun h => by simp at h, fun _ => hneg _ _ _ hg⟩
      | ok idup =>
        rw [dedup_pass_fetch_ok A iget b n dindex st ret idup h hg]
        have hs := dedup_scans_sign A iget hneg b dindex idup st
        cases he : (dedup_scans A iget b dindex idup st).err with
        | some e => exact ⟨fun h => by simp at h, fun _ => hs.2 e he⟩
        | none =>
          have := hs.1 he
          exact ih _ _ _ (by omega)
    · rw [dedup_pass_end A iget b (n + 1) dindex st ret h]
      exact ⟨fun _ => hr, fun h => by simp at h⟩

/-- When every inode fetch and every block read succeeds the outer loop runs to its end. -/
theorem dedup_pass_ok (A : Allocator) (iget : FsState → Nat → Except Int inode)
    (hget : ∀ s n, ∃ ino, iget s n = .ok ino) (b : Nat) :
    ∀ (n dindex : Nat) (st : FsState) (ret : Int), (∀ x, st.bread_ok x = true) →
      (dedup_pass A iget b n dindex st ret).done = true := by
  intro n
  induction n with
  | zero =>
    intro dindex st ret _
    rw [dedup_pass_zero]
  | succ n ih =>
    intro dindex st ret hread
    by_cases h : (st.dupblock b).iduplicated dindex ≠ 0 ∧ dindex < DUP_LIST_LEN
    · obtain ⟨idup, hg⟩ := hget st ((st.dupblock b).iduplicated dindex)
      rw [dedup_pass_fetch_ok A iget b n dindex st ret idup h hg,
        dedup_scans_ok A iget hget b dindex idup st hread]
      refine ih _ _ _ (fun x => ?_)
      rw [(dedup_scans_registry A iget b dindex idup st).2.1]
      exact hread x
    · rw [dedup_pass_end A iget b (n + 1) dindex st ret h]

theorem deduplicate_unreadable (A : Allocator) (iget : FsState → Nat → Except Int inode)
    (st : FsState) (h : st.bread_ok st.sbi.index_dupblock = false) :
    ouichefs_deduplicate A iget st = ⟨- EIO, st, []⟩ := by
  unfold ouichefs_deduplicate
  simp [h]

theorem deduplicate_done (A : Allocator) (iget : FsState → Nat → Except Int inode)
    (st : FsState) (h : st.bread_ok st.sbi.index_dupblock = true)
    (hd : (dedup_pass A iget st.sbi.index_dupblock DUP_LIST_LEN 1 st 0).done = true) :
    ouichefs_deduplicate A iget st =
      ⟨(dedup_pass A iget st.sbi.index_dupblock DUP_LIST_LEN 1 st 0).ret,
       candidates_cleared (dedup_pass A iget st.sbi.index_dupblock DUP_LIST_LEN 1 st 0).st
         st.sbi.index_dupblock,
       [(st.sbi.index_dupblock, ⟨fun _ => 0, fun _ => 0⟩)]⟩ := by
  unfold ouichefs_deduplicate candidates_cleared
  simp [h, hd, mark_buffer_dirty, upd]

theorem deduplicate_aborted (A : Allocator) (iget : FsState → Nat → Except Int inode)
    (st : FsState) (h : st.bread_ok st.sbi.index_dupblock = true)
    (hd : (dedup_pass A iget st.sbi.index_dupblock DUP_LIST_LEN 1 st 0).done = false) :
    ouichefs_deduplicate A iget st =
      ⟨(dedup_pass A iget st.sbi.index_dupblock DUP_LIST_LEN 1 st 0).ret,
       (dedup_pass A iget st.sbi.index_dupblock DUP_LIST_LEN 1 st 0).st, []⟩ := by
  unfold ouichefs_deduplicate
  simp [h, hd]

/-- Sign of the value returned by `ouichefs_deduplicate`: it is non-negative exactly when
the candidate block was read and the outer loop ran to its end. -/
theorem deduplicate_nonneg_iff (A : Allocator) (iget : FsState → Nat → Except Int inode)
    (hneg : ∀ s n e, iget s n = .error e → e < 0) (st : FsState) :
    0 ≤ (ouichefs_deduplicate A iget st).ret ↔
      st.bread_ok st.sbi.index_dupblock = true ∧
      (dedup_pass A iget st.sbi.index_dupblock DUP_LIST_LEN 1 st 0).done = true := by
  have hs := dedup_pass_sign A iget hneg st.sbi.index_dupblock DUP_LIST_LEN 1 st 0 (le_refl 0)
  by_cases h : st.bread_ok st.sbi.index_dupblock = true
  · by_cases hd : (dedup_pass A iget st.sbi.index_dupblock DUP_LIST_LEN 1 st 0).done = true
    · rw [deduplicate_done A iget st h hd]
      exact ⟨fun _ => ⟨h, hd⟩, fun _ => hs.1 hd⟩
    · rw [Bool.not_eq_true] at hd
      rw [deduplicate_aborted A iget st h hd]
      refine ⟨fun h0 => ?_, fun h1 => ?_⟩
      · have := hs.2 hd
        have h0' : 0 ≤ (dedup_pass A iget st.sbi.index_dupblock DUP_LIST_LEN 1 st 0).ret := h0
        omega
      · rw [hd] at h1
        exact absurd h1.2 (by decide)
  · rw [Bool.not_eq_true] at h
    rw [deduplicate_unreadable A iget st h]
    refine ⟨fun h0 => ?_, fun h1 => ?_⟩
    · have h0' : (0 : Int) ≤ - EIO := h0
      exact absurd h0' (by decide)
    · rw [h] at h1
      exact absurd h1.1 (by decide)

/-- C11 (counterexample to the claim as stated): the candidate block of `st_cand` can be
read and lists inode 7 as a duplicated candidate; the fetch of that inode fails.
`ouichefs_deduplicate` returns the error code without reaching the code that clears the
block: the block still lists inode 7, its buffer has not been marked dirty and nothing has
been flushed. -/
theorem deduplicate_fetch_error_counterexample :
    st_cand.bread_ok st_cand.sbi.index_dupblock = true ∧
    (ouichefs_deduplicate (bitmap_allocator 64) iget_fail st_cand).ret = - EIO ∧
    ((ouichefs_deduplicate (bitmap_allocator 64) iget_fail st_cand).st.dupblock
      st_cand.sbi.index_dupblock).iduplicated 1 = 7 ∧
    (ouichefs_deduplicate (bitmap_allocator 64) iget_fail st_cand).st.dirty
      st_cand.sbi.index_dupblock = false ∧
    (ouichefs_deduplicate (bitmap_allocator 64) iget_fail st_cand).synced = [] :=
  ⟨by decide, by decide, by decide, by decide, rfl⟩

/-- C11 (amended): error pointers carrying negative codes, when `ouichefs_deduplicate`
returns a non-negative value the candidate block is all zeros (both arrays, cursors
included), its buffer has been marked dirty and `sync_dirty_buffer` has written the zeroed
block; when it returns a negative value (candidate block unreadable, failed inode fetch,
or negative accumulated count) the candidate blocks are as before the call and nothing has
been flushed.  It returns a non-negative value, for every content of the candidate block,
when every inode fetch and every block read succeeds. -/
theorem deduplicate_clears_candidates (A : Allocator)
    (iget : FsState → Nat → Except Int inode) (st : FsState)
    (hneg : ∀ s n e, iget s n = .error e → e < 0) :
    (0 ≤ (ouichefs_deduplicate A iget st).ret →
      (∀ k, ((ouichefs_deduplicate A iget st).st.dupblock st.sbi.index_dupblock).isources k = 0
        ∧ ((ouichefs_deduplicate A iget st).st.dupblock
            st.sbi.index_dupblock).iduplicated k = 0) ∧
      (ouichefs_deduplicate A iget st).st.dirty st.sbi.index_dupblock = true ∧
      (ouichefs_deduplicate A iget st).synced
        = [(st.sbi.index_dupblock,
            (ouichefs_deduplicate A iget st).st.dupblock st.sbi.index_dupblock)]) ∧
    ((ouichefs_deduplicate A iget st).ret < 0 →
      (ouichefs_deduplicate A iget st).st.dupblock = st.dupblock ∧
      (ouichefs_deduplicate A iget st).synced = []) ∧
    ((∀ s n, ∃ ino, iget s n = .ok ino) → (∀ x, st.bread_ok x = true) →
      0 ≤ (ouichefs_deduplicate A iget st).ret) := by
  have hiff := deduplicate_nonneg_iff A iget hneg st
  refine ⟨fun h0 => ?_, fun h0 => ?_, fun hget hread => ?_⟩
  · obtain ⟨h, hd⟩ := hiff.1 h0
    rw [deduplicate_done A iget st h hd]
    refine ⟨fun k => ?_, ?_, ?_⟩
    · simp [candidates_cleared, mark_buffer_dirty, upd]
    · simp [candidates_cleared, mark_buffer_dirty, upd]
    · simp [candidates_cleared, mark_buffer_dirty, upd]
  · by_cases h : st.bread_ok st.sbi.index_dupblock = true
    · have hd : (dedup_pass A iget st.sbi.index_dupblock DUP_LIST_LEN 1 st 0).done = false := by
        by_contra hd
        rw [Bool.not_eq_false] at hd
        have := hiff.2 ⟨h, hd⟩
        omega
      rw [deduplicate_aborted A iget st h hd]
      exact ⟨(dedup_pass_registry A iget _ _ _ st 0).1, rfl⟩
    · rw [Bool.not_eq_true] at h
      rw [deduplicate_unreadable A iget st h]
      exact ⟨rfl, rfl⟩
  · exact hiff.2 ⟨hread _, dedup_pass_ok A iget hget _ _ _ st 0 hread⟩

theorem iget_files_neg : ∀ (s : FsState) (n : Nat) (e : Int),
    iget_files s n = .error e → e < 0 := by
  intro s n e h
  simp [iget_files] at h

theorem deduplicate_clears_candidates_witness :
    (∀ s n e, iget_files s n = .error e → e < 0) ∧
    (ouichefs_deduplicate (bitmap_allocator 64) iget_files st_pass).ret = 1 ∧
    (st_pass.dupblock st_pass.sbi.index_dupblock).iduplicated 1 = 2 ∧
    (∀ k, ((ouichefs_deduplicate (bitmap_allocator 64) iget_files st_pass).st.dupblock
        st_pass.sbi.index_dupblock).isources k = 0 ∧
      ((ouichefs_deduplicate (bitmap_allocator 64) iget_files st_pass).st.dupblock
        st_pass.sbi.index_dupblock).iduplicated k = 0) :=
  ⟨iget_files_neg, by decide, by decide,
   ((deduplicate_clears_candidates (bitmap_allocator 64) iget_files st_pass
      iget_files_neg).1 (by decide)).1⟩

/-! ## C12: running `ouichefs_deduplicate` twice -/

theorem upd_idem {β : Type} (f : Nat → β) (a : Nat) (v : β) :
    upd (upd f a v) a v = upd f a v := by
  funext x
  unfold upd
  split_ifs <;> rfl

theorem candidates_cleared_idem (st : FsState) (b : Nat) :
    candidates_cleared (candidates_cleared st b) b = candidates_cleared st b := by
  unfold candidates_cleared mark_buffer_dirty
  simp only [upd_idem]

/-- On a state whose candidate block has just been cleared, `ouichefs_deduplicate` finds no
candidate: it returns 0 and leaves the state as it is. -/
theorem deduplicate_after_clear (A : Allocator) (iget : FsState → Nat → Except Int inode)
    (X : FsState) (hr : X.bread_ok X.sbi.index_dupblock = true) :
    (ouichefs_deduplicate A iget (candidates_cleared X X.sbi.index_dupblock)).ret = 0 ∧
    (ouichefs_deduplicate A iget (candidates_cleared X X.sbi.index_dupblock)).st
      = candidates_cleared X X.sbi.index_dupblock := by
  have hb : (candidates_cleared X X.sbi.index_dupblock).sbi.index_dupblock
      = X.sbi.index_dupblock := rfl
  have hread : (candidates_cleared X X.sbi.index_dupblock).bread_ok
      (candidates_cleared X X.sbi.index_dupblock).sbi.index_dupblock = true := hr
  have hz : ((candidates_cleared X X.sbi.index_dupblock).dupblock
      (candidates_cleared X X.sbi.index_dupblock).sbi.index_dupblock).iduplicated 1 = 0 := by
    simp [candidates_cleared, mark_buffer_dirty, upd]
  have hp := dedup_pass_end A iget (candidates_cleared X X.sbi.index_dupblock).sbi.index_dupblock
    DUP_LIST_LEN 1 (candidates_cleared X X.sbi.index_dupblock) 0 (fun h => h.1 hz)
  rw [deduplicate_done A iget _ hread (by rw [hp]), hp, hb]
  exact ⟨rfl, candidates_cleared_idem X _⟩

/-- C12: error pointers carrying negative codes, if a first `ouichefs_deduplicate`
completes successfully (returns a non-negative value), a second one run on the state it
left returns 0 and leaves that state unchanged: no entry of any index block and no
refcount changes. -/
theorem deduplicate_idempotent (A : Allocator) (iget : FsState → Nat → Except Int inode)
    (st : FsState) (hneg : ∀ s n e, iget s n = .error e → e < 0)
    (hsucc : 0 ≤ (ouichefs_deduplicate A iget st).ret) :
    (ouichefs_deduplicate A iget (ouichefs_deduplicate A iget st).st).ret = 0 ∧
    (ouichefs_deduplicate A iget (ouichefs_deduplicate A iget st).st).st
      = (ouichefs_deduplicate A iget st).st ∧
    (ouichefs_deduplicate A iget (ouichefs_deduplicate A iget st).st).st.index
      = (ouichefs_deduplicate A iget st).st.index ∧
    (∀ x, refcount (ouichefs_deduplicate A iget (ouichefs_deduplicate A iget st).st).st x
      = refcount (ouichefs_deduplicate A iget st).st x) := by
  obtain ⟨h, hd⟩ := (deduplicate_nonneg_iff A iget hneg st).1 hsucc
  have hreg := dedup_pass_registry A iget st.sbi.index_dupblock DUP_LIST_LEN 1 st 0
  have hst : (ouichefs_deduplicate A iget st).st = candidates_cleared
      (dedup_pass A iget st.sbi.index_dupblock DUP_LIST_LEN 1 st 0).st
      (dedup_pass A iget st.sbi.index_dupblock DUP_LIST_LEN 1 st 0).st.sbi.index_dupblock := by
    rw [deduplicate_done A iget st h hd, hreg.2.2]
  have hr : (dedup_pass A iget st.sbi.index_dupblock DUP_LIST_LEN 1 st 0).st.bread_ok
      (dedup_pass A iget st.sbi.index_dupblock DUP_LIST_LEN 1 st 0).st.sbi.index_dupblock
      = true := by
    rw [hreg.2.1, hreg.2.2]
    exact h
  have key := deduplicate_after_clear A iget
    (dedup_pass A iget st.sbi.index_dupblock DUP_LIST_LEN 1 st 0).st hr
  rw [← hst] at key
  refine ⟨key.1, key.2, ?_, fun x => ?_⟩
  · rw [key.2]
  · rw [key.2]

theorem deduplicate_idempotent_witness :
    (∀ s n e, iget_files s n = .error e → e < 0) ∧
    (ouichefs_deduplicate (bitmap_allocator 64) iget_files st_pass).ret = 1 ∧
    (ouichefs_deduplicate (bitmap_allocator 64) iget_files
      (ouichefs_deduplicate (bitmap_allocator 64) iget_files st_pass).st).ret = 0 :=
  ⟨iget_files_neg, by decide,
   (deduplicate_idempotent (bitmap_allocator 64) iget_files st_pass iget_files_neg
      (by decide)).1⟩

/-! ## C17: the driver and the reference algorithm of the spec -/

theorem slots_eq_map (arr : Nat → Nat) :
    ∀ (n p : Nat), slots arr p n = (List.range n).map (fun k => arr (k + p)) := by
  intro n
  induction n with
  | zero => intro p; rfl
  | succ n ih =>
    intro p
    rw [slots, ih, List.range_succ_eq_map, List.map_cons, List.map_map]
    simp only [Nat.zero_add]
    congr 1
    apply List.map_congr_left
    intro k _
    simp only [Function.comp]
    congr 1
    omega

theorem spec_candidates_eq_slots (arr : Nat → Nat) :
    spec_candidates arr = slots arr 1 (arr 0) := by
  rw [slots_eq_map]
  rfl

theorem spec_scan_same (A : Allocator) (iget : FsState → Nat → Except Int inode) (d : Nat)
    (idup : inode) (s : Nat) (rest : List Nat) (st : FsState) (count : Int) (h : s = d) :
    spec_scan A iget d idup (s :: rest) st count = spec_scan A iget d idup rest st count := by
  rw [spec_scan, if_pos h]

theorem spec_scan_ok (A : Allocator) (iget : FsState → Nat → Except Int inode) (d : Nat)
    (idup : inode) (s : Nat) (rest : List Nat) (st : FsState) (count : Int) (isrc : inode)
    (h : s ≠ d) (hg : iget st s = .ok isrc)
    (hnn : 0 ≤ (deduplicate_file A st isrc idup).1) :
    spec_scan A iget d idup (s :: rest) st count =
      if (idup.i_blocks : Int) - 1 ≤ count + (deduplicate_file A st isrc idup).1 then
        ((deduplicate_file A st isrc idup).2, count + (deduplicate_file A st isrc idup).1)
      else spec_scan A iget d idup rest (deduplicate_file A st isrc idup).2
        (count + (deduplicate_file A st isrc idup).1) := by
  rw [spec_scan, if_neg h, hg]
  simp only [hnn, if_true]

theorem spec_scan_exact_same (A : Allocator) (iget : FsState → Nat → Except Int inode)
    (d : Nat) (idup : inode) (s : Nat) (rest : List Nat) (st : FsState) (count : Int)
    (h : s = d) :
    spec_scan_exact A iget d idup (s :: rest) st count
      = spec_scan_exact A iget d idup rest st count := by
  rw [spec_scan_exact, if_pos h]

theorem spec_scan_exact_ok (A : Allocator) (iget : FsState → Nat → Except Int inode)
    (d : Nat) (idup : inode) (s : Nat) (rest : List Nat) (st : FsState) (count : Int)
    (isrc : inode) (h : s ≠ d) (hg : iget st s = .ok isrc)
    (hnn : 0 ≤ (deduplicate_file A st isrc idup).1) :
    spec_scan_exact A iget d idup (s :: rest) st count =
      if (idup.i_blocks : Int) - 1 ≤ count + (deduplicate_file A st isrc idup).1 then
        decide (count + (deduplicate_file A st isrc idup).1 = (idup.i_blocks : Int) - 1)
      else spec_scan_exact A iget d idup rest (deduplicate_file A st isrc idup).2
        (count + (deduplicate_file A st isrc idup).1) := by
  rw [spec_scan_exact, if_neg h, hg]
  simp only [hnn, if_true]

theorem spec_pass_exact_ok (A : Allocator) (iget : FsState → Nat → Except Int inode)
    (S D : List Nat) (d : Nat) (rest : List Nat) (st : FsState) (idup : inode)
    (hg : iget st d = .ok idup)
    (h : spec_pass_exact A iget S D (d :: rest) st = true) :
    spec_scan_exact A iget d idup S st 0 = true ∧
    ((spec_scan A iget d idup S st 0).2 = 0 →
      spec_scan_exact A iget d idup D (spec_scan A iget d idup S st 0).1 0 = true) ∧
    spec_pass_exact A iget S D rest
      (if (spec_scan A iget d idup S st 0).2 = 0 then
        spec_scan A iget d idup D (spec_scan A iget d idup S st 0).1 0
       else spec_scan A iget d idup S st 0).1 = true := by
  rw [spec_pass_exact, hg] at h
  simp only [Bool.and_eq_true] at h
  refine ⟨h.1, fun hz => ?_, h.2.2⟩
  have h2 := h.2.1
  rw [if_pos hz] at h2
  exact h2

theorem spec_pass_ok (A : Allocator) (iget : FsState → Nat → Except Int inode)
    (S D : List Nat) (d : Nat) (rest : List Nat) (st : FsState) (total : Int) (idup : inode)
    (hg : iget st d = .ok idup) :
    spec_pass A iget S D (d :: rest) st total =
      spec_pass A iget S D rest
        (if (spec_scan A iget d idup S st 0).2 = 0 then
          spec_scan A iget d idup D (spec_scan A iget d idup S st 0).1 0
         else spec_scan A iget d idup S st 0).1
        (total + (if (spec_scan A iget d idup S st 0).2 = 0 then
          spec_scan A iget d idup D (spec_scan A iget d idup S st 0).1 0
         else spec_scan A iget d idup S st 0).2) := by
  rw [spec_pass, hg]

theorem nr_data_entries_cast (ino : inode) (h : 1 ≤ ino.i_blocks) :
    (nr_data_entries ino : Int) = (ino.i_blocks : Int) - 1 := by
  unfold nr_data_entries
  rw [if_neg (by omega)]
  omega

/-- On a run of non-zero slots ended by a zero slot or by slot 512, when every inode
fetch and every block read succeeds and the accumulated count does not pass over
`blocks(d) - 1`, the scan loop of the driver is the scan of the reference algorithm over
those slots. -/
theorem dedup_scan_refines (A : Allocator) (iget : FsState → Nat → Except Int inode)
    (hget : ∀ s n, ∃ ino, iget s n = .ok ino ∧ 1 ≤ ino.i_blocks)
    (b : Nat) (fd : Bool) (dindex : Nat) (idup : inode) (hid : 1 ≤ idup.i_blocks)
    (arr : Nat → Nat) (d : Nat) :
    ∀ (len p n : Nat) (st : FsState) (found : Int),
      (∀ k, p ≤ k → k < p + len → arr k ≠ 0) →
      (DUP_LIST_LEN ≤ p + len ∨ arr (p + len) = 0) → p + len ≤ DUP_LIST_LEN → len < n →
      scanned fd (st.dupblock b) = arr → (st.dupblock b).iduplicated dindex = d →
      (∀ x, st.bread_ok x = true) → 0 ≤ found →
      spec_scan_exact A iget d idup (slots arr p len) st found = true →
      dedup_scan A iget b fd dindex idup n p st found =
        ⟨none, (spec_scan A iget d idup (slots arr p len) st found).1,
          (spec_scan A iget d idup (slots arr p len) st found).2⟩ := by
  intro len
  induction len with
  | zero =>
    intro p n st found _ hterm _ _ harr _ _ _ _
    rw [dedup_scan_end A iget b fd dindex idup n p st found ?_]
    · rfl
    · rw [harr]
      rintro ⟨h1, h2⟩
      rcases hterm with h | h
      · simp only [Nat.add_zero] at h
        omega
      · exact h1 h
  | succ len ih =>
    intro p n st found hnz hterm hle hn harr hd hread hf hex
    obtain ⟨n, rfl⟩ : ∃ m, n = m + 1 := ⟨n - 1, by omega⟩
    have hcond : scanned fd (st.dupblock b) p ≠ 0 ∧ p < DUP_LIST_LEN := by
      rw [harr]
      exact ⟨hnz p (le_refl _) (by omega), by omega⟩
    have hterm1 : DUP_LIST_LEN ≤ p + 1 + len ∨ arr (p + 1 + len) = 0 := by
      have e : p + 1 + len = p + (len + 1) := by omega
      rw [e]
      exact hterm
    rw [slots] at hex ⊢
    by_cases hs : scanned fd (st.dupblock b) p = (st.dupblock b).iduplicated dindex
    · rw [spec_scan_exact_same A iget d idup (arr p) _ st found (by rw [← harr, hs, hd])] at hex
      rw [dedup_scan_same A iget b fd dindex idup n p st found hcond hs,
        spec_scan_same A iget d idup (arr p) _ st found (by rw [← harr, hs, hd])]
      exact ih (p + 1) n st found (fun k h1 h2 => hnz k (by omega) (by omega)) hterm1
        (by omega) (by omega) harr hd hread hf hex
    · obtain ⟨isrc, hg, _⟩ := hget st (scanned fd (st.dupblock b) p)
      have hnn := dedup_file_nonneg_of_read A st isrc idup hread
      have hreg := dedup_file_registry A st isrc idup
      rw [spec_scan_exact_ok A iget d idup (arr p) _ st found isrc
        (by rw [← harr, ← hd]; exact hs) (by rw [← harr]; exact hg) hnn] at hex
      rw [dedup_scan_fetch_ok A iget b fd dindex idup n p st found isrc hcond hs hg,
        spec_scan_ok A iget d idup (arr p) _ st found isrc (by rw [← harr, ← hd]; exact hs)
          (by rw [← harr]; exact hg) hnn,
        if_neg (by omega), nr_data_entries_cast idup hid]
      by_cases hstop : (idup.i_blocks : Int) - 1 ≤ found + (deduplicate_file A st isrc idup).1
      · rw [if_pos hstop] at hex
        rw [if_pos (of_decide_eq_true hex), if_pos hstop]
      · rw [if_neg hstop] at hex
        rw [if_neg (fun h => hstop (le_of_eq h.symm)), if_neg hstop]
        refine ih (p + 1) n _ _ (fun k h1 h2 => hnz k (by omega) (by omega)) hterm1
          (by omega) (by omega) ?_ ?_ (fun x => ?_) (by omega) hex
        · rw [hreg.1]
          exact harr
        · rw [hreg.1]
          exact hd
        · rw [hreg.2.1]
          exact hread x

/-- On well-formed candidate arrays, when every inode fetch and every block read succeeds
and the accumulated count does not pass over `blocks(d) - 1`, the scans made by the driver
for one candidate are those of the reference algorithm. -/
theorem dedup_scans_refines (A : Allocator) (iget : FsState → Nat → Except Int inode)
    (hget : ∀ s n, ∃ ino, iget s n = .ok ino ∧ 1 ≤ ino.i_blocks)
    (b dindex : Nat) (idup : inode) (hid : 1 ≤ idup.i_blocks) (st : FsState)
    (hS : well_formed_candidates (st.dupblock b).isources)
    (hD : well_formed_candidates (st.dupblock b).iduplicated)
    (hread : ∀ x, st.bread_ok x = true)
    (hex1 : spec_scan_exact A iget ((st.dupblock b).iduplicated dindex) idup
      (spec_candidates (st.dupblock b).isources) st 0 = true)
    (hex2 : (spec_scan A iget ((st.dupblock b).iduplicated dindex) idup
        (spec_candidates (st.dupblock b).isources) st 0).2 = 0 →
      spec_scan_exact A iget ((st.dupblock b).iduplicated dindex) idup
        (spec_candidates (st.dupblock b).iduplicated)
        (spec_scan A iget ((st.dupblock b).iduplicated dindex) idup
          (spec_candidates (st.dupblock b).isources) st 0).1 0 = true) :
    dedup_scans A iget b dindex idup st =
      ⟨none,
       (if (spec_scan A iget ((st.dupblock b).iduplicated dindex) idup
            (spec_candidates (st.dupblock b).isources) st 0).2 = 0 then
          spec_scan A iget ((st.dupblock b).iduplicated dindex) idup
            (spec_candidates (st.dupblock b).iduplicated)
            (spec_scan A iget ((st.dupblock b).iduplicated dindex) idup
              (spec_candidates (st.dupblock b).isources) st 0).1 0
        else spec_scan A iget ((st.dupblock b).iduplicated dindex) idup
            (spec_candidates (st.dupblock b).isources) st 0).1,
       (if (spec_scan A iget ((st.dupblock b).iduplicated dindex) idup
            (spec_candidates (st.dupblock b).isources) st 0).2 = 0 then
          spec_scan A iget ((st.dupblock b).iduplicated dindex) idup
            (spec_candidates (st.dupblock b).iduplicated)
            (spec_scan A iget ((st.dupblock b).iduplicated dindex) idup
              (spec_candidates (st.dupblock b).isources) st 0).1 0
        else spec_scan A iget ((st.dupblock b).iduplicated dindex) idup
            (spec_candidates (st.dupblock b).isources) st 0).2⟩ := by
  have hterm : ∀ arr : Nat → Nat, well_formed_candidates arr →
      (∀ k, 1 ≤ k → k < 1 + arr 0 → arr k ≠ 0) ∧
      (DUP_LIST_LEN ≤ 1 + arr 0 ∨ arr (1 + arr 0) = 0) ∧ 1 + arr 0 ≤ DUP_LIST_LEN ∧
      arr 0 < DUP_LIST_LEN := by
    intro arr h
    unfold DUP_LIST_LEN
    refine ⟨fun k h1 h2 => h.2.1 k h1 (by omega), ?_, by have := h.1; omega,
      by have := h.1; omega⟩
    by_cases h511 : arr 0 < 511
    · right
      rw [Nat.add_comm]
      exact h.2.2 h511
    · left
      have := h.1
      omega
  obtain ⟨s1, s2, s3, s4⟩ := hterm _ hS
  obtain ⟨d1, d2, d3, d4⟩ := hterm _ hD
  have h1 := dedup_scan_refines A iget hget b false dindex idup hid (st.dupblock b).isources
    ((st.dupblock b).iduplicated dindex) ((st.dupblock b).isources 0) 1 DUP_LIST_LEN st 0
    s1 s2 s3 s4 rfl rfl hread (le_refl 0) (by rw [← spec_candidates_eq_slots]; exact hex1)
  rw [← spec_candidates_eq_slots] at h1
  have hreg := dedup_scan_registry A iget b false dindex idup DUP_LIST_LEN 1 st 0
  unfold dedup_scans
  by_cases hz : (spec_scan A iget ((st.dupblock b).iduplicated dindex) idup
      (spec_candidates (st.dupblock b).isources) st 0).2 = 0
  · rw [if_pos (by rw [h1]; exact ⟨rfl, hz⟩), if_pos hz]
    have h2 := dedup_scan_refines A iget hget b true dindex idup hid
      (st.dupblock b).iduplicated ((st.dupblock b).iduplicated dindex)
      ((st.dupblock b).iduplicated 0) 1 DUP_LIST_LEN
      (dedup_scan A iget b false dindex idup DUP_LIST_LEN 1 st 0).st 0
      d1 d2 d3 d4 (by rw [hreg.1]; rfl) (by rw [hreg.1]) (fun x => by rw [hreg.2.1]; exact hread x)
      (le_refl 0) (by rw [← spec_candidates_eq_slots, h1]; exact hex2 hz)
    rw [← spec_candidates_eq_slots] at h2
    rw [h2, h1]
  · rw [if_neg (by rw [h1]; exact fun h => hz h.2), if_neg hz, h1]

/-- On well-formed candidate arrays, when every inode fetch and every block read succeeds
and no accumulated count passes over `blocks(d) - 1`, the outer loop of the driver is the
pass of the reference algorithm. -/
theorem dedup_pass_refines (A : Allocator) (iget : FsState → Nat → Except Int inode)
    (hget : ∀ s n, ∃ ino, iget s n = .ok ino ∧ 1 ≤ ino.i_blocks)
    (b : Nat) (blk : ouichefs_dup_block)
    (hS : well_formed_candidates blk.isources) (hD : well_formed_candidates blk.iduplicated) :
    ∀ (len p n : Nat) (st : FsState) (ret : Int),
      (∀ k, p ≤ k → k < p + len → blk.iduplicated k ≠ 0) →
      (DUP_LIST_LEN ≤ p + len ∨ blk.iduplicated (p + len) = 0) → p + len ≤ DUP_LIST_LEN →
      len < n → st.dupblock b = blk → (∀ x, st.bread_ok x = true) →
      spec_pass_exact A iget (spec_candidates blk.isources) (spec_candidates blk.iduplicated)
        (slots blk.iduplicated p len) st = true →
      dedup_pass A iget b n p st ret =
        ⟨true,
         (spec_pass A iget (spec_candidates blk.isources) (spec_candidates blk.iduplicated)
            (slots blk.iduplicated p len) st ret).1,
         (spec_pass A iget (spec_candidates blk.isources) (spec_candidates blk.iduplicated)
            (slots blk.iduplicated p len) st ret).2⟩ := by
  intro len
  induction len with
  | zero =>
    intro p n st ret _ hterm _ _ hblk _ _
    rw [dedup_pass_end A iget b n p st ret ?_]
    · rfl
    · rw [hblk]
      rintro ⟨h1, h2⟩
      rcases hterm with h | h
      · simp only [Nat.add_zero] at h
        omega
      · exact h1 h
  | succ len ih =>
    intro p n st ret hnz hterm hle hn hblk hread hex
    obtain ⟨n, rfl⟩ : ∃ m, n = m + 1 := ⟨n - 1, by omega⟩
    have hcond : (st.dupblock b).iduplicated p ≠ 0 ∧ p < DUP_LIST_LEN := by
      rw [hblk]
      exact ⟨hnz p (le_refl _) (by omega), by omega⟩
    have hterm1 : DUP_LIST_LEN ≤ p + 1 + len ∨ blk.iduplicated (p + 1 + len) = 0 := by
      have e : p + 1 + len = p + (len + 1) := by omega
      rw [e]
      exact hterm
    obtain ⟨idup, hg, hid⟩ := hget st ((st.dupblock b).iduplicated p)
    rw [slots] at hex
    obtain ⟨hex1, hex2, hex3⟩ := spec_pass_exact_ok A iget _ _ (blk.iduplicated p) _ st idup
      (by rw [← hblk]; exact hg) hex
    have hsc := dedup_scans_refines A iget hget b p idup hid st (by rw [hblk]; exact hS)
      (by rw [hblk]; exact hD) hread (by rw [hblk]; exact hex1) (by rw [hblk]; exact hex2)
    have hreg := dedup_scans_registry A iget b p idup st
    rw [dedup_pass_fetch_ok A iget b n p st ret idup hcond hg]
    have herr : (dedup_scans A iget b p idup st).err = none := by rw [hsc]
    rw [herr]
    show dedup_pass A iget b n (p + 1) _ _ = _
    rw [ih (p + 1) n _ _ (fun k h1 h2 => hnz k (by omega) (by omega)) hterm1 (by omega)
      (by omega) (by rw [hreg.1]; exact hblk) (fun x => by rw [hreg.2.1]; exact hread x)
      (by rw [hsc, hblk]; exact hex3)]
    rw [slots, spec_pass_ok A iget _ _ (blk.iduplicated p) _ st ret idup
      (by rw [← hblk]; exact hg)]
    rw [hsc, hblk]


/-- C17 (counterexample to the claim as stated): two runs on which the driver and the
reference algorithm differ.

In `st_overshoot`, `S = [1, 3]` and `D = [2]`, every inode fetch and every block read
succeeds.  The pairwise call on inodes 1 and 2 collapses the only data entry of inode 2
twice (onto block 10, then onto block 11) and returns 2, where `blocks(2) - 1 = 1`.  The
reference algorithm stops for inode 2, the count having reached `blocks(2) - 1`: it
returns 2 and entry 0 of inode 2 names block 11.  The driver tests
`found == idup->i_blocks - 1`, which the count has passed over, and goes on with inode 3:
it returns 3 and entry 0 of inode 2 names block 13.

In `st_abort`, `S = [1, 3]` and `D = [2]`, and the pairwise call on inodes 1 and 2 fails
with `-EIO` because the index block of inode 1 cannot be read.  The driver then leaves the
whole pass with `ret = -1`: it never applies `deduplicate_file` to inodes 3 and 2, entry 0
of inode 2 still names block 12 and the candidate block is not cleared.  The reference
algorithm goes on with the next entry of `S`, collapses block 12 onto block 13 and
returns 1. -/
theorem deduplicate_refines_spec_counterexample :
    (spec_candidates (st_overshoot.dupblock st_overshoot.sbi.index_dupblock).isources = [1, 3] ∧
     spec_candidates (st_overshoot.dupblock st_overshoot.sbi.index_dupblock).iduplicated = [2] ∧
     (∀ x, st_overshoot.bread_ok x = true) ∧
     (∀ (s : FsState) (n : Nat), ∃ ino, iget_two_blocks s n = .ok ino ∧ 1 ≤ ino.i_blocks) ∧
     (deduplicate_file (bitmap_allocator 64) st_overshoot
       { i_ino := 1, i_size := 1, i_blocks := 3, index_block := 20 }
       { i_ino := 2, i_size := 1, i_blocks := 2, index_block := 21 }).1 = 2 ∧
     (ouichefs_deduplicate (bitmap_allocator 64) iget_two_blocks st_overshoot).ret = 3 ∧
     (ouichefs_deduplicate (bitmap_allocator 64) iget_two_blocks st_overshoot).st.index 21 0
       = 13 ∧
     (spec_deduplicate (bitmap_allocator 64) iget_two_blocks st_overshoot).ret = 2 ∧
     (spec_deduplicate (bitmap_allocator 64) iget_two_blocks st_overshoot).st.index 21 0
       = 11 ∧
     ouichefs_deduplicate (bitmap_allocator 64) iget_two_blocks st_overshoot
       ≠ spec_deduplicate (bitmap_allocator 64) iget_two_blocks st_overshoot) ∧
    (spec_candidates (st_abort.dupblock st_abort.sbi.index_dupblock).isources = [1, 3] ∧
     spec_candidates (st_abort.dupblock st_abort.sbi.index_dupblock).iduplicated = [2] ∧
     (deduplicate_file (bitmap_allocator 64) st_abort
       { i_ino := 1, i_size := 1, i_blocks := 2, index_block := 20 }
       { i_ino := 2, i_size := 1, i_blocks := 2, index_block := 21 }).1 = - EIO ∧
     (ouichefs_deduplicate (bitmap_allocator 64) iget_files st_abort).ret = -1 ∧
     (ouichefs_deduplicate (bitmap_allocator 64) iget_files st_abort).st.index 21 0 = 12 ∧
     (spec_deduplicate (bitmap_allocator 64) iget_files st_abort).ret = 1 ∧
     (spec_deduplicate (bitmap_allocator 64) iget_files st_abort).st.index 21 0 = 13 ∧
     ouichefs_deduplicate (bitmap_allocator 64) iget_files st_abort
       ≠ spec_deduplicate (bitmap_allocator 64) iget_files st_abort) := by
  have h1 : (ouichefs_deduplicate (bitmap_allocator 64) iget_files st_abort).ret = -1 := by
    decide
  have h2 : (spec_deduplicate (bitmap_allocator 64) iget_files st_abort).ret = 1 := by decide
  have h3 : (ouichefs_deduplicate (bitmap_allocator 64) iget_two_blocks st_overshoot).ret
      = 3 := by decide
  have h4 : (spec_deduplicate (bitmap_allocator 64) iget_two_blocks st_overshoot).ret = 2 := by
    decide
  refine ⟨⟨by decide, by decide, fun _ => rfl, fun s n => ⟨_, rfl, ?_⟩, by decide, h3,
      by decide, h4, by decide, fun h => ?_⟩,
    ⟨by decide, by decide, by decide, h1, by decide, h2, by decide, fun h => ?_⟩⟩
  · show 1 ≤ (if n = 1 then 3 else 2)
    split_ifs <;> omega
  · rw [h, h4] at h3
    exact absurd h3 (by decide)
  · rw [h, h2] at h1
    exact absurd h1 (by decide)

/-- C17 (amended): when the two candidate arrays are well formed (cursor at most 511, the
slots up to the cursor non-zero, the slot after the cursor zero), every inode fetch
succeeds with an inode whose block count is at least 1, every block read succeeds (so
that every pairwise call succeeds), and no pairwise call takes the count accumulated for a
candidate `d` from below `blocks(d) - 1` to above it, `ouichefs_deduplicate` equals the
reference algorithm of the spec: with `S = sources[1 ..= sources[0]]` and
`D = duplicated[1 ..= duplicated[0]]`, for each `d` of `D` in list order it applies
`deduplicate_file(s, d)` to the entries `s` of `S` in list order, never with `s = d`,
stopping for `d` as soon as the accumulated count reaches `blocks(d) - 1`; it scans `D` in
place of `S` exactly when the scan of `S` produced zero collapses for `d`; it then clears
and flushes the candidate block; the value returned is the sum of the pairwise collapse
counts. -/
theorem deduplicate_refines_spec (A : Allocator) (iget : FsState → Nat → Except Int inode)
    (st : FsState) (hget : ∀ s n, ∃ ino, iget s n = .ok ino ∧ 1 ≤ ino.i_blocks)
    (hread : ∀ x, st.bread_ok x = true)
    (hS : well_formed_candidates (st.dupblock st.sbi.index_dupblock).isources)
    (hD : well_formed_candidates (st.dupblock st.sbi.index_dupblock).iduplicated)
    (hex : spec_counts_exact A iget st = true) :
    ouichefs_deduplicate A iget st = spec_deduplicate A iget st := by
  have hp := dedup_pass_refines A iget hget st.sbi.index_dupblock
    (st.dupblock st.sbi.index_dupblock) hS hD
    ((st.dupblock st.sbi.index_dupblock).iduplicated 0) 1 DUP_LIST_LEN st 0
    (fun k h1 h2 => hD.2.1 k h1 (by omega))
    (by
      unfold DUP_LIST_LEN
      by_cases h511 : (st.dupblock st.sbi.index_dupblock).iduplicated 0 < 511
      · right
        rw [Nat.add_comm]
        exact hD.2.2 h511
      · left
        have := hD.1
        omega)
    (by unfold DUP_LIST_LEN; have := hD.1; omega)
    (by unfold DUP_LIST_LEN; have := hD.1; omega) rfl hread
    (by rw [← spec_candidates_eq_slots]; exact hex)
  rw [← spec_candidates_eq_slots] at hp
  rw [deduplicate_done A iget st (hread _) (by rw [hp]), hp]
  unfold spec_deduplicate
  simp only [hread, if_true]

theorem deduplicate_refines_spec_witness :
    (∀ (s : FsState) (n : Nat), ∃ ino, iget_files s n = .ok ino ∧ 1 ≤ ino.i_blocks) ∧
    (∀ x, st_pass.bread_ok x = true) ∧
    spec_candidates (st_pass.dupblock st_pass.sbi.index_dupblock).isources = [1] ∧
    spec_candidates (st_pass.dupblock st_pass.sbi.index_dupblock).iduplicated = [2] ∧
    spec_counts_exact (bitmap_allocator 64) iget_files st_pass = true ∧
    (spec_deduplicate (bitmap_allocator 64) iget_files st_pass).ret = 1 ∧
    ouichefs_deduplicate (bitmap_allocator 64) iget_files st_pass
      = spec_deduplicate (bitmap_allocator 64) iget_files st_pass := by
  have hget : ∀ (s : FsState) (n : Nat), ∃ ino, iget_files s n = .ok ino ∧ 1 ≤ ino.i_blocks :=
    fun s n => ⟨_, rfl, Nat.le_succ 1⟩
  have hwf1 : well_formed_candidates (st_pass.dupblock st_pass.sbi.index_dupblock).isources := by
    refine ⟨by decide, fun k h1 h2 => ?_, fun _ => by decide⟩
    have h2' : k ≤ 1 := h2
    have : k = 1 := by omega
    subst this
    decide
  have hwf2 : well_formed_candidates
      (st_pass.dupblock st_pass.sbi.index_dupblock).iduplicated := by
    refine ⟨by decide, fun k h1 h2 => ?_, fun _ => by decide⟩
    have h2' : k ≤ 1 := h2
    have : k = 1 := by omega
    subst this
    decide
  have hex : spec_counts_exact (bitmap_allocator 64) iget_files st_pass = true := by decide
  exact ⟨hget, fun _ => rfl, by decide, by decide, hex, by decide,
    deduplicate_refines_spec (bitmap_allocator 64) iget_files st_pass hget (fun _ => rfl)
      hwf1 hwf2 hex⟩

end Ouichefs
